import Mathlib

/-!
# Omega_h: adaptation controller, split-quality evaluator, key sort

A shallow embedding of `src/adapt.cpp`, `src/refine_qualities.cpp` and
`src/sort.cpp`.

* `Real` values are modelled by `ℚ` (exact, ordered, decidable); NaN and
  rounding are outside the model.
* The mesh is an abstract state `M`.  Everything `adapt.cpp` asks of the mesh,
  of the communicator and of the four mutation operators is a field of `Env`.
* Every interaction of the controller with the outside world (mesh query,
  collective reduction, operator call, printed line) is recorded, in program
  order, as an `Event`.
* The two `do ... while` loops take a fuel argument; `none` means the fuel ran
  out before the loop condition became false.
* Keys are integers; the stable sort of the three back ends is modelled by the
  stable merge sort of the library.
-/

namespace Omega_h

/-! ## Data model -/

/-- Modelled from the spec: the `Verbosity` enum is declared in a header that
is not among the sources; section 3 gives its four levels and their order
`SILENT < EACH_REBUILD < EACH_ADAPT < EXTRA_STATS`. -/
inductive Verbosity
  | SILENT
  | EACH_REBUILD
  | EACH_ADAPT
  | EXTRA_STATS
  deriving DecidableEq, Repr

/-- Integer value of an enumerator, in declaration order. -/
def Verbosity.toNat : Verbosity → Nat
  | .SILENT => 0
  | .EACH_REBUILD => 1
  | .EACH_ADAPT => 2
  | .EXTRA_STATS => 3

instance : LT Verbosity := ⟨fun a b => a.toNat < b.toNat⟩

instance : LE Verbosity := ⟨fun a b => a.toNat ≤ b.toNat⟩

instance (a b : Verbosity) : Decidable (a < b) :=
  inferInstanceAs (Decidable (a.toNat < b.toNat))

instance (a b : Verbosity) : Decidable (a ≤ b) :=
  inferInstanceAs (Decidable (a.toNat ≤ b.toNat))

/-- Fields of `AdaptOpts` in the order the constructor assigns them. -/
structure AdaptOpts where
  min_length_desired : ℚ
  max_length_desired : ℚ
  max_length_allowed : ℚ
  min_quality_allowed : ℚ
  min_quality_desired : ℚ
  nsliver_layers : Int
  verbosity : Verbosity
  length_histogram_min : ℚ
  length_histogram_max : ℚ
  deriving DecidableEq

/-- Entity dimension of vertices. -/
def VERT : Nat := 0

/-- Entity dimension of edges. -/
def EDGE : Nat := 1

/-- The two per-entity arrays the controller reduces over. -/
inductive Field
  | qualities
  | lengths
  deriving DecidableEq, Repr

/-- The four mutation operators called by the controller. -/
inductive Operator
  | refine_by_size
  | coarsen_by_size
  | swap_edges
  | coarsen_slivers
  deriving DecidableEq, Repr

/-- Non-collective reads of the mesh or of its communicator. -/
inductive Query
  | dim
  | rank
  | ask_qualities
  | ask_lengths
  deriving DecidableEq, Repr

/-- `OMEGA_H_MIN` / `OMEGA_H_MAX`. -/
inductive ReduceOp
  | OMEGA_H_MIN
  | OMEGA_H_MAX
  deriving DecidableEq, Repr

/-- Collective operations issued by `adapt.cpp`. -/
inductive Collective
  | allreduce (field : Field) (op : ReduceOp)
  | min_quality
  | count_owned_marks (ent_dim : Nat)
  | nglobal_ents (ent_dim : Nat)
  | get_histogram (ent_dim : Nat) (field : Field)
  deriving DecidableEq, Repr

/-- Lines written to `std::cout`, and histograms handed to `print_histogram`. -/
inductive Message
  | goal_stats (field : Field)
  | mesh_is_good
  | warning_worst_quality
  | before_adapting
  | addressing_edge_lengths
  | addressing_element_qualities
  | could_not_satisfy_quality
  | after_adapting
  | lengths_took
  | qualities_took
  | adapting_took
  | histogram (field : Field)
  deriving DecidableEq, Repr

/-- One observable step of the controller. -/
inductive Event
  | query (q : Query)
  | collective (c : Collective)
  | call (op : Operator) (ret : Bool)
  | print (msg : Message)
  deriving DecidableEq, Repr

/-- What `adapt.cpp` consumes from its collaborators: the mesh dimension, the
rank of the calling process, the results of the global reductions, and the
four mutation operators (each returns whether it changed the mesh, and the
mesh it leaves behind). -/
structure Env (M : Type) where
  dim : M → Nat
  rank : M → Nat
  global_min : M → Field → ℚ
  global_max : M → Field → ℚ
  min_quality : M → ℚ
  refine_by_size : M → AdaptOpts → Bool × M
  coarsen_by_size : M → AdaptOpts → Bool × M
  swap_edges : M → AdaptOpts → Bool × M
  coarsen_slivers : M → AdaptOpts → Bool × M

/-- How a call of `adapt` ends: it returns a flag, leaving a mesh behind; or a
`CHECK` fails; or the fuel given to a loop runs out.  `trace` holds the events
up to that point. -/
inductive Outcome (M : Type)
  | returned (ret : Bool) (mesh : M) (trace : List Event)
  | aborted (trace : List Event)
  | out_of_fuel

/-- The flag a call returned, if it returned. -/
def Outcome.ret? {M : Type} : Outcome M → Option Bool
  | .returned r _ _ => some r
  | _ => none

/-- The mesh a call left behind, if it returned. -/
def Outcome.mesh? {M : Type} : Outcome M → Option M
  | .returned _ m _ => some m
  | _ => none

/-- The events of a call. -/
def Outcome.trace {M : Type} : Outcome M → List Event
  | .returned _ _ t => t
  | .aborted t => t
  | .out_of_fuel => []

/-! ## `adapt.cpp` -/

section Controller

variable {M : Type}

/-- Events of `goal_stats`: two `count_owned_marks`, one `nglobal_ents`, then
the line printed on rank 0. -/
def goal_stats (E : Env M) (m : M) (field : Field) (ent_dim : Nat) : List Event :=
  [Event.collective (.count_owned_marks ent_dim),
   Event.collective (.count_owned_marks ent_dim),
   Event.collective (.nglobal_ents ent_dim),
   Event.query .rank] ++
  (if E.rank m = 0 then [Event.print (.goal_stats field)] else [])

/-- The pair `(*p_minval, *p_maxval)` of `get_minmax` and its two allreduces. -/
def get_minmax (E : Env M) (m : M) (field : Field) : (ℚ × ℚ) × List Event :=
  ((E.global_min m field, E.global_max m field),
   [Event.collective (.allreduce field .OMEGA_H_MIN),
    Event.collective (.allreduce field .OMEGA_H_MAX)])

/-- Events of `adapt_summary`: quality statistics over cells, length statistics
over edges. -/
def adapt_summary (E : Env M) (m : M) : List Event :=
  [Event.query .dim, Event.query .ask_qualities] ++
  goal_stats E m .qualities (E.dim m) ++
  [Event.query .ask_lengths] ++
  goal_stats E m .lengths EDGE

/-- The function `adapt_check`: its return value and its events. -/
def adapt_check (E : Env M) (m : M) (opts : AdaptOpts) : Bool × List Event :=
  let q := get_minmax E m .qualities
  let l := get_minmax E m .lengths
  let minqual := q.1.1
  let minlen := l.1.1
  let maxlen := l.1.2
  let t := [Event.query .ask_qualities] ++ q.2 ++ [Event.query .ask_lengths] ++ l.2
  if minqual ≥ opts.min_quality_desired ∧
      minlen ≥ opts.min_length_desired ∧ maxlen ≤ opts.max_length_desired then
    (true, t ++
      (if opts.verbosity > .SILENT then
        [Event.query .rank] ++
          (if E.rank m = 0 then [Event.print .mesh_is_good] else [])
       else []))
  else
    (false, t ++ (if opts.verbosity > .SILENT then adapt_summary E m else []))

/-- Events of `do_histograms`.  The length histogram is requested with entity
dimension `VERT`, as in the source. -/
def do_histograms (E : Env M) (m : M) : List Event :=
  [Event.query .dim, Event.query .ask_qualities,
   Event.collective (.get_histogram (E.dim m) .qualities),
   Event.print (.histogram .qualities),
   Event.query .ask_lengths,
   Event.collective (.get_histogram VERT .lengths),
   Event.print (.histogram .lengths)]

/-- The function `validate`: `Except.error` is a failed `CHECK`, carrying the
events that preceded it; `Except.ok` carries the events of a normal return. -/
def validate (E : Env M) (m : M) (opts : AdaptOpts) : Except (List Event) (List Event) :=
  if ¬ (0 ≤ opts.min_quality_allowed) then .error []
  else if ¬ (opts.min_quality_allowed ≤ opts.min_quality_desired) then .error []
  else if ¬ (opts.min_quality_desired ≤ 1) then .error []
  else if ¬ (opts.nsliver_layers ≥ 0) then .error []
  else if ¬ (opts.nsliver_layers < 100) then .error []
  else
    let mq := E.min_quality m
    .ok ([Event.collective .min_quality] ++
      (if mq < opts.min_quality_allowed then
        [Event.query .rank] ++
          (if E.rank m = 0 then [Event.print .warning_worst_quality] else [])
       else []))

/-- The function `pre_adapt`. -/
def pre_adapt (E : Env M) (m : M) (opts : AdaptOpts) : Except (List Event) (Bool × List Event) :=
  match validate E m opts with
  | .error t => .error t
  | .ok t0 =>
    let t1 :=
      if opts.verbosity ≥ .EACH_ADAPT then
        [Event.query .rank] ++
          (if E.rank m = 0 then [Event.print .before_adapting] else [])
      else []
    let c := adapt_check E m opts
    if c.1 then .ok (false, t0 ++ t1 ++ c.2)
    else
      let t2 := if opts.verbosity ≥ .EXTRA_STATS then do_histograms E m else []
      let t3 :=
        if opts.verbosity ≥ .EACH_REBUILD then
          [Event.query .rank] ++
            (if E.rank m = 0 then [Event.print .addressing_edge_lengths] else [])
        else []
      .ok (true, t0 ++ t1 ++ c.2 ++ t2 ++ t3)

/-- Events of `post_rebuild`. -/
def post_rebuild (E : Env M) (m : M) (opts : AdaptOpts) : List Event :=
  if opts.verbosity ≥ .EACH_REBUILD then (adapt_check E m opts).2 else []

/-- One pass of the body of the loop in `satisfy_lengths`: the value of
`did_anything` at the end of the pass, the mesh, and the events. -/
def lengths_pass (E : Env M) (opts : AdaptOpts) (m : M) : Bool × M × List Event :=
  let r := E.refine_by_size m opts
  let t1 := [Event.call .refine_by_size r.1] ++
    (if r.1 then post_rebuild E r.2 opts else [])
  let c := E.coarsen_by_size r.2 opts
  let t2 := [Event.call .coarsen_by_size c.1] ++
    (if c.1 then post_rebuild E c.2 opts else [])
  (r.1 || c.1, c.2, t1 ++ t2)

/-- The function `satisfy_lengths`: `do { pass } while (did_anything)`. -/
def satisfy_lengths (E : Env M) (opts : AdaptOpts) : Nat → M → Option (M × List Event)
  | 0, _ => none
  | fuel + 1, m =>
    let p := lengths_pass E opts m
    if p.1 then
      match satisfy_lengths E opts fuel p.2.1 with
      | none => none
      | some (m', t) => some (m', p.2.2 ++ t)
    else some (p.2.1, p.2.2)

/-- How one execution of the body of the loop in `satisfy_quality` ends. -/
inductive QualityStep
  | swapped
  | coarsened
  | gave_up
  deriving DecidableEq, Repr

/-- One execution of the body of the loop in `satisfy_quality`. -/
def quality_pass (E : Env M) (opts : AdaptOpts) (m : M) : QualityStep × M × List Event :=
  let s := E.swap_edges m opts
  if s.1 then
    (.swapped, s.2, [Event.call .swap_edges true] ++ post_rebuild E s.2 opts)
  else
    let c := E.coarsen_slivers s.2 opts
    if c.1 then
      (.coarsened, c.2,
        [Event.call .swap_edges false, Event.call .coarsen_slivers true] ++
          post_rebuild E c.2 opts)
    else
      (.gave_up, c.2,
        [Event.call .swap_edges false, Event.call .coarsen_slivers false] ++
          (if opts.verbosity > .SILENT then
            [Event.query .rank] ++
              (if E.rank c.2 = 0 then [Event.print .could_not_satisfy_quality] else [])
           else []))

/-- The `do ... while (mesh->min_quality() < opts.min_quality_desired)` loop of
`satisfy_quality`; `continue` jumps to the loop condition, `break` leaves. -/
def quality_loop (E : Env M) (opts : AdaptOpts) : Nat → M → Option (M × List Event)
  | 0, _ => none
  | fuel + 1, m =>
    let p := quality_pass E opts m
    match p.1 with
    | .gave_up => some (p.2.1, p.2.2)
    | _ =>
      if E.min_quality p.2.1 < opts.min_quality_desired then
        match quality_loop E opts fuel p.2.1 with
        | none => none
        | some (m', t) => some (m', p.2.2 ++ [Event.collective .min_quality] ++ t)
      else some (p.2.1, p.2.2 ++ [Event.collective .min_quality])

/-- The function `satisfy_quality`. -/
def satisfy_quality (E : Env M) (opts : AdaptOpts) (fuel : Nat) (m : M) :
    Option (M × List Event) :=
  if E.min_quality m ≥ opts.min_quality_desired then
    some (m, [Event.collective .min_quality])
  else
    let t0 := [Event.collective .min_quality] ++
      (if opts.verbosity ≥ .EACH_REBUILD then
        [Event.query .rank] ++
          (if E.rank m = 0 then [Event.print .addressing_element_qualities] else [])
       else [])
    match quality_loop E opts fuel m with
    | none => none
    | some (m', t) => some (m', t0 ++ t)

/-- Events of `post_adapt`. -/
def post_adapt (E : Env M) (m : M) (opts : AdaptOpts) : List Event :=
  (if opts.verbosity = .EACH_ADAPT then
    [Event.query .rank] ++
      (if E.rank m = 0 then [Event.print .after_adapting] else []) ++
      (adapt_check E m opts).2
   else []) ++
  (if opts.verbosity ≥ .EXTRA_STATS then do_histograms E m else []) ++
  (if opts.verbosity > .SILENT then
    [Event.query .rank] ++ (if E.rank m = 0 then [Event.print .lengths_took] else [])
   else []) ++
  (if opts.verbosity > .SILENT then
    [Event.query .rank] ++ (if E.rank m = 0 then [Event.print .qualities_took] else [])
   else []) ++
  (if opts.verbosity > .SILENT then
    [Event.query .rank] ++ (if E.rank m = 0 then [Event.print .adapting_took] else [])
   else [])

/-- The function `adapt`.  Both loops receive the same fuel. -/
def adapt (E : Env M) (fuel : Nat) (m : M) (opts : AdaptOpts) : Outcome M :=
  match pre_adapt E m opts with
  | .error t => .aborted t
  | .ok (false, t) => .returned false m t
  | .ok (true, t) =>
    match satisfy_lengths E opts fuel m with
    | none => .out_of_fuel
    | some (m1, t1) =>
      match satisfy_quality E opts fuel m1 with
      | none => .out_of_fuel
      | some (m2, t2) => .returned true m2 (t ++ t1 ++ t2 ++ post_adapt E m2 opts)

/-- The mesh after `n` passes of the loop of `satisfy_lengths`. -/
def lengths_state (E : Env M) (opts : AdaptOpts) : Nat → M → M
  | 0, m => m
  | n + 1, m => lengths_state E opts n (lengths_pass E opts m).2.1

/-- The mesh after `n` executions of the body of the loop of
`satisfy_quality`. -/
def quality_state (E : Env M) (opts : AdaptOpts) : Nat → M → M
  | 0, m => m
  | n + 1, m => quality_state E opts n (quality_pass E opts m).2.1

/-- The operator calls of one pass of `satisfy_lengths` started on `m`, with
their return values: `refine_by_size` on `m`, then `coarsen_by_size` on the
mesh `refine_by_size` left. -/
def lengths_pass_calls (E : Env M) (opts : AdaptOpts) (m : M) : List (Operator × Bool) :=
  [(Operator.refine_by_size, (E.refine_by_size m opts).1),
   (Operator.coarsen_by_size, (E.coarsen_by_size (E.refine_by_size m opts).2 opts).1)]

/-- The operator calls of one execution of the body of the loop of
`satisfy_quality` started on `m`, with their return values: `swap_edges` on
`m`, followed by `coarsen_slivers` (on the mesh `swap_edges` left) exactly
when `swap_edges` returned false. -/
def quality_pass_calls (E : Env M) (opts : AdaptOpts) (m : M) : List (Operator × Bool) :=
  if (E.swap_edges m opts).1 then [(Operator.swap_edges, true)]
  else
    [(Operator.swap_edges, false),
     (Operator.coarsen_slivers, (E.coarsen_slivers (E.swap_edges m opts).2 opts).1)]

/-- The operator calls of a trace, in order. -/
def op_calls : List Event → List (Operator × Bool)
  | [] => []
  | Event.call op r :: t => (op, r) :: op_calls t
  | _ :: t => op_calls t

/-- The options invariants tested by the five `CHECK`s of `validate`. -/
def AdaptOpts.valid (opts : AdaptOpts) : Prop :=
  0 ≤ opts.min_quality_allowed ∧ opts.min_quality_allowed ≤ opts.min_quality_desired ∧
  opts.min_quality_desired ≤ 1 ∧ 0 ≤ opts.nsliver_layers ∧ opts.nsliver_layers < 100

instance (opts : AdaptOpts) : Decidable opts.valid := by
  unfold AdaptOpts.valid; infer_instance

/-- The collective operations of a trace, in order. -/
def collectives : List Event → List Collective
  | [] => []
  | Event.collective c :: t => c :: collectives t
  | _ :: t => collectives t

/-- The options `opts` with the verbosity replaced by `v`. -/
def AdaptOpts.with_verbosity (opts : AdaptOpts) (v : Verbosity) : AdaptOpts :=
  { opts with verbosity := v }

/-- The collaborators `E` as seen by a process of another rank: only the
answer of `comm()->rank()` changes. -/
def Env.with_rank (E : Env M) (rank : M → Nat) : Env M :=
  { E with rank := rank }

/-- The four mutation operators do not look at the verbosity. -/
def Env.ignores_verbosity (E : Env M) : Prop :=
  ∀ (m : M) (opts : AdaptOpts) (v : Verbosity),
    E.refine_by_size m (opts.with_verbosity v) = E.refine_by_size m opts ∧
    E.coarsen_by_size m (opts.with_verbosity v) = E.coarsen_by_size m opts ∧
    E.swap_edges m (opts.with_verbosity v) = E.swap_edges m opts ∧
    E.coarsen_slivers m (opts.with_verbosity v) = E.coarsen_slivers m opts

/-- The events of a normal return of `validate`. -/
def validate_events (E : Env M) (m : M) (opts : AdaptOpts) : List Event :=
  [Event.collective .min_quality] ++
    (if E.min_quality m < opts.min_quality_allowed then
      [Event.query .rank] ++
        (if E.rank m = 0 then [Event.print .warning_worst_quality] else [])
     else [])

/-- The events of a normal return of `pre_adapt`. -/
def pre_adapt_events (E : Env M) (m : M) (opts : AdaptOpts) : List Event :=
  validate_events E m opts ++
  (if opts.verbosity ≥ .EACH_ADAPT then
    [Event.query .rank] ++ (if E.rank m = 0 then [Event.print .before_adapting] else [])
   else []) ++
  (adapt_check E m opts).2 ++
  (if (adapt_check E m opts).1 then []
   else
    (if opts.verbosity ≥ .EXTRA_STATS then do_histograms E m else []) ++
    (if opts.verbosity ≥ .EACH_REBUILD then
      [Event.query .rank] ++
        (if E.rank m = 0 then [Event.print .addressing_edge_lengths] else [])
     else []))

/-- The events of `satisfy_quality` before its loop, when the loop is entered. -/
def quality_entry_events (E : Env M) (m : M) (opts : AdaptOpts) : List Event :=
  [Event.collective .min_quality] ++
    (if opts.verbosity ≥ .EACH_REBUILD then
      [Event.query .rank] ++
        (if E.rank m = 0 then [Event.print .addressing_element_qualities] else [])
     else [])

/-- The first statement of `post_adapt`: the line "after adapting:" and the
`adapt_check` that follows it. -/
def after_adapting_report (E : Env M) (m : M) (opts : AdaptOpts) : List Event :=
  [Event.query .rank] ++
    (if E.rank m = 0 then [Event.print .after_adapting] else []) ++
    (adapt_check E m opts).2

/-- The events of `post_adapt` after its first statement: the histograms and
the three timing lines. -/
def post_adapt_rest (E : Env M) (m : M) (opts : AdaptOpts) : List Event :=
  (if opts.verbosity ≥ .EXTRA_STATS then do_histograms E m else []) ++
  (if opts.verbosity > .SILENT then
    [Event.query .rank] ++ (if E.rank m = 0 then [Event.print .lengths_took] else [])
   else []) ++
  (if opts.verbosity > .SILENT then
    [Event.query .rank] ++ (if E.rank m = 0 then [Event.print .qualities_took] else [])
   else []) ++
  (if opts.verbosity > .SILENT then
    [Event.query .rank] ++ (if E.rank m = 0 then [Event.print .adapting_took] else [])
   else [])

/-- The function `adapt` up to, and without, the call of `post_adapt`. -/
def adapt_body (E : Env M) (fuel : Nat) (m : M) (opts : AdaptOpts) : Outcome M :=
  match pre_adapt E m opts with
  | .error t => .aborted t
  | .ok (false, t) => .returned false m t
  | .ok (true, t) =>
    match satisfy_lengths E opts fuel m with
    | none => .out_of_fuel
    | some (m1, t1) =>
      match satisfy_quality E opts fuel m1 with
      | none => .out_of_fuel
      | some (m2, t2) => .returned true m2 (t ++ t1 ++ t2)

/-- Two results of a loop agree on the mesh and have related events. -/
def LoopRel (R : List Event → List Event → Prop) :
    Option (M × List Event) → Option (M × List Event) → Prop
  | none, none => True
  | some (m1, t1), some (m2, t2) => m1 = m2 ∧ R t1 t2
  | _, _ => False

/-- Two outcomes end the same way, with the same flag and mesh, and have
related events. -/
def Outcome.Rel (R : List Event → List Event → Prop) : Outcome M → Outcome M → Prop
  | .returned r1 m1 t1, .returned r2 m2 t2 => r1 = r2 ∧ m1 = m2 ∧ R t1 t2
  | .aborted t1, .aborted t2 => R t1 t2
  | .out_of_fuel, .out_of_fuel => True
  | _, _ => False

/-- The constructor `AdaptOpts::AdaptOpts(Mesh*)` for a mesh of dimension
`dim`.  `sqrt2` stands for `sqrt(2.0)` and `real_max` for
`ArithTraits<Real>::max()`; the two quality floors are assigned only for
dimensions 3 and 2 and otherwise keep the indeterminate values
`junk_allowed`, `junk_desired`. -/
def AdaptOpts.AdaptOpts (dim : Nat) (sqrt2 real_max junk_allowed junk_desired : ℚ) :
    AdaptOpts :=
  let allowed3 := if dim = 3 then 20 / 100 else junk_allowed
  let desired3 := if dim = 3 then 30 / 100 else junk_desired
  { min_length_desired := 1 / sqrt2
    max_length_desired := sqrt2
    max_length_allowed := real_max
    min_quality_allowed := if dim = 2 then 30 / 100 else allowed3
    min_quality_desired := if dim = 2 then 40 / 100 else desired3
    nsliver_layers := 4
    verbosity := .EACH_REBUILD
    length_histogram_min := 0
    length_histogram_max := 3 }

/-- Two runs, under collaborators `E1`, `E2` and options `o1`, `o2`, take the
same decisions everywhere and emit, piece by piece, events related by `R`;
`R` is reflexive and compatible with concatenation. -/
structure Coupled (R : List Event → List Event → Prop) (E1 : Env M) (o1 : AdaptOpts)
    (E2 : Env M) (o2 : AdaptOpts) : Prop where
  refl : ∀ t, R t t
  append : ∀ a b c d, R a b → R c d → R (a ++ c) (b ++ d)
  valid : o1.valid ↔ o2.valid
  check : ∀ m, (adapt_check E1 m o1).1 = (adapt_check E2 m o2).1
  pre : ∀ m, R (pre_adapt_events E1 m o1) (pre_adapt_events E2 m o2)
  lengths : ∀ m, (lengths_pass E1 o1 m).1 = (lengths_pass E2 o2 m).1 ∧
    (lengths_pass E1 o1 m).2.1 = (lengths_pass E2 o2 m).2.1 ∧
    R (lengths_pass E1 o1 m).2.2 (lengths_pass E2 o2 m).2.2
  quality : ∀ m, (quality_pass E1 o1 m).1 = (quality_pass E2 o2 m).1 ∧
    (quality_pass E1 o1 m).2.1 = (quality_pass E2 o2 m).2.1 ∧
    R (quality_pass E1 o1 m).2.2 (quality_pass E2 o2 m).2.2
  min_quality : ∀ m, E1.min_quality m = E2.min_quality m
  desired : o1.min_quality_desired = o2.min_quality_desired
  entry : ∀ m, R (quality_entry_events E1 m o1) (quality_entry_events E2 m o2)

end Controller

/-! ## `refine_qualities.cpp` -/

section Evaluator

/-- Local indices (`LO`). -/
abbrev LO := Nat

/-- Coordinates of a point (`Vector<dim>`). -/
abbrev Vector := List ℚ

/-- The arrays `refine_qualities_tmpl` reads from the mesh:
`ask_verts_of(EDGE)`, `ask_verts_of(dim)`, the three arrays of
`ask_up(EDGE, dim)` and `coords()`. -/
structure MeshArrays where
  ev2v : List LO
  cv2v : List LO
  e2ec : List LO
  ec2c : List LO
  ec_codes : List Nat
  coords : List ℚ

/-- The helpers of `access.hpp`, `simplices.hpp` and `refine_topology.hpp`
that `refine_qualities_tmpl<Measure, dim>` calls; these headers are not among
the sources, so the helpers are parameters.  `down_edge` is
`DownTemplate<dim, EDGE>::get`, `opposite_vert` is
`OppositeTemplate<dim, VERT>::get`, `down_side` is
`DownTemplate<dim, dim - 1>::get`.  An accessor returns `none` where the C++
would read out of bounds. -/
structure Simplices where
  dim : Nat
  gather_verts : Nat → List LO → LO → Option (List LO)
  get_vector : List ℚ → LO → Option Vector
  code_which_down : Nat → Nat
  code_rotation : Nat → Nat
  down_edge : Nat → Nat → Nat
  opposite_vert : Nat → Nat
  down_side : Nat → Nat → Nat
  flip_new_elem : {α : Type} → List α → List α

/-- Modelled from the spec: `min2` of `algebra.hpp` is not among the sources;
step 5 of section 4.2 takes the minimum. -/
def min2 (a b : ℚ) : ℚ := if b < a then b else a

/-- Modelled from the spec: the vector arithmetic of `algebra.hpp` is not among
the sources; section 4.2 step 1: the midpoint is the arithmetic mean of the
coordinates, `(ep[0] + ep[1]) / 2.`. -/
def midpoint (a b : Vector) : Vector := List.zipWith (fun x y => (x + y) / 2) a b

/-- A policy class (`RealRefineQualities` or `MetricRefineQualities`):
`measure cand p csv2v`, with `none` for an out-of-bounds read. -/
abbrev Measure := Nat → List Vector → List LO → Option ℚ

/-- The method `RealRefineQualities::measure`; `real_element_quality` (of
`quality.hpp`) is a parameter. -/
def RealRefineQualities.measure (real_element_quality : List Vector → ℚ) : Measure :=
  fun _ p _ => some (real_element_quality p)

/-- The numeric kernels `MetricRefineQualities::measure` calls (`access.hpp`,
`metric.hpp`, `quality.hpp`), for a tensor type `Mat`. -/
structure MetricKernel (Mat : Type) where
  get_symm : List ℚ → LO → Option Mat
  maxdet_metric : List Mat → Mat
  metric_element_quality : List Vector → Mat → ℚ

/-- The two members of `MetricRefineQualities`. -/
structure MetricRefineQualities where
  vert_metrics : List ℚ
  midpt_metrics : List ℚ

/-- The array `ms` that `MetricRefineQualities::measure` hands to
`maxdet_metric`: one tensor per entry of `csv2v`, then the midpoint tensor of
the candidate. -/
def MetricRefineQualities.ms {Mat : Type} (get_symm : List ℚ → LO → Option Mat)
    (R : MetricRefineQualities) (cand : Nat) (csv2v : List LO) : Option (List Mat) :=
  match csv2v.mapM (get_symm R.vert_metrics) with
  | none => none
  | some vs =>
    match get_symm R.midpt_metrics cand with
    | none => none
    | some mid => some (vs ++ [mid])

/-- The method `MetricRefineQualities::measure`. -/
def MetricRefineQualities.measure {Mat : Type} (Q : MetricKernel Mat)
    (R : MetricRefineQualities) : Measure :=
  fun cand p csv2v =>
    match R.ms Q.get_symm cand csv2v with
    | none => none
    | some ms => some (Q.metric_element_quality p (Q.maxdet_metric ms))

/-- Body of the `eev` loop up to the call of `measure`: the vertex list
`csv2v` and the point list `ncp` of the new cell formed from the side of the
old cell opposite the endpoint `eev`, joined to the midpoint. -/
def new_cell (K : Simplices) (A : MeshArrays) (midp : Vector) (ccv2v : List LO)
    (cce rot eev : Nat) : Option (List LO × List Vector) :=
  let cev := eev ^^^ rot
  let ccv := K.down_edge cce cev
  let ccs := K.opposite_vert ccv
  match (List.range K.dim).mapM (fun csv => ccv2v[K.down_side ccs csv]?) with
  | none => none
  | some csv2v =>
    match csv2v.mapM (K.get_vector A.coords) with
    | none => none
    | some ncp => some (K.flip_new_elem csv2v, K.flip_new_elem (ncp ++ [midp]))

/-- The vertex list and point list of the new cell for the use `ec` of the
edge and the endpoint `eev`. -/
def cell_of_use (K : Simplices) (A : MeshArrays) (midp : Vector) (ec eev : Nat) :
    Option (List LO × List Vector) :=
  match A.ec2c[ec]? with
  | none => none
  | some c =>
    match A.ec_codes[ec]? with
    | none => none
    | some code =>
      match K.gather_verts (K.dim + 1) A.cv2v c with
      | none => none
      | some ccv2v =>
        new_cell K A midp ccv2v (K.code_which_down code) (K.code_rotation code) eev

/-- The value `cqual` for the use `ec` of the edge and the endpoint `eev`. -/
def cqual (K : Simplices) (A : MeshArrays) (measure : Measure) (cand : Nat)
    (midp : Vector) (ec eev : Nat) : Option ℚ :=
  match cell_of_use K A midp ec eev with
  | none => none
  | some (csv2v, ncp) => measure cand ncp csv2v

/-- The loop `for (ec = ...; ec < ...; ++ec) for (eev = 0; eev < 2; ++eev)`
with `n` uses left, starting at use `ec` with running minimum `minqual`. -/
def cell_loop (q : Nat → Nat → Option ℚ) : Nat → Nat → ℚ → Option ℚ
  | 0, _, minqual => some minqual
  | n + 1, ec, minqual =>
    match q ec 0 with
    | none => none
    | some q0 =>
      match q ec 1 with
      | none => none
      | some q1 => cell_loop q n (ec + 1) (min2 (min2 minqual q0) q1)

/-- The midpoint of the candidate edge `e`. -/
def edge_midpoint (K : Simplices) (A : MeshArrays) (e : LO) : Option Vector :=
  match K.gather_verts 2 A.ev2v e with
  | none => none
  | some eev2v =>
    match eev2v.mapM (K.get_vector A.coords) with
    | none => none
    | some ep =>
      match ep[0]?, ep[1]? with
      | some p0, some p1 => some (midpoint p0 p1)
      | _, _ => none

/-- The lambda `f` of `refine_qualities_tmpl`: the value written to
`quals_w[cand]`. -/
def candidate_quality (K : Simplices) (A : MeshArrays) (measure : Measure)
    (candidates : List LO) (cand : Nat) : Option ℚ :=
  match candidates[cand]? with
  | none => none
  | some e =>
    match edge_midpoint K A e with
    | none => none
    | some midp =>
      match A.e2ec[e]?, A.e2ec[e + 1]? with
      | some lo, some hi => cell_loop (cqual K A measure cand midp) (hi - lo) lo 1
      | _, _ => none

/-- The array `cand_quals`: `parallel_for(ncands, f)`. -/
def cand_quals (K : Simplices) (A : MeshArrays) (measure : Measure)
    (candidates : List LO) : Option (List ℚ) :=
  (List.range candidates.length).mapM (candidate_quality K A measure candidates)

/-- Modelled from the spec: `Mesh::sync_subset_array` is not among the sources.
Section 4.2 step 6: the values of shared candidates are reconciled by taking,
per candidate, the maximum of the contributions of the ranks, a rank that did
not evaluate the candidate contributing the default.  `others` lists the
contributions of the other ranks (`none` where a rank has no value). -/
def sync_subset_array (a_data : List ℚ) (default_val : ℚ)
    (others : List (List (Option ℚ))) : List ℚ :=
  (List.range a_data.length).zipWith
    (fun i a => others.foldl (fun acc o => max acc ((o.getD i none).getD default_val)) a)
    a_data

/-- The function `refine_qualities_tmpl<Measure, dim>`. -/
def refine_qualities_tmpl (K : Simplices) (A : MeshArrays) (measure : Measure)
    (candidates : List LO) (others : List (List (Option ℚ))) : Option (List ℚ) :=
  match cand_quals K A measure candidates with
  | none => none
  | some q => some (sync_subset_array q (-1) others)

/-- The uses of edge `e` by cells: the indices `e2ec[e] .. e2ec[e + 1] - 1`. -/
def uses_of (A : MeshArrays) (e : LO) : Option (List Nat) :=
  match A.e2ec[e]?, A.e2ec[e + 1]? with
  | some lo, some hi => some (List.range' lo (hi - lo))
  | _, _ => none

/-- The predicted quality of splitting the edge `e` under the Euclidean measure,
as steps 1 to 5 of section 4.2 describe it: the minimum, starting from 1, of
the quality of the new simplices over all uses of `e` by cells and both
endpoints.  The candidate list does not occur in it. -/
def edge_quality (K : Simplices) (A : MeshArrays) (real_element_quality : List Vector → ℚ)
    (e : LO) : Option ℚ :=
  match edge_midpoint K A e, uses_of A e with
  | some midp, some uses =>
    match (uses.flatMap (fun ec => [(ec, 0), (ec, 1)])).mapM
        (fun p => (cell_of_use K A midp p.1 p.2).map (fun c => real_element_quality c.2)) with
    | none => none
    | some quals => some (quals.foldl min2 1)
  | _, _ => none

/-- The function `refine_qualities`: dispatch on the presence of the vertex
metric tag and on the mesh dimension; `none` is a failed `CHECK(dim == 2)` or
a fault of the kernel.  `K2` and `K3` are the triangle and tetrahedron
instances of the helpers; `metric`, when the tag is present, builds the
members of `MetricRefineQualities` from the candidates. -/
def refine_qualities {Mat : Type} (K2 K3 : Simplices) (A : MeshArrays) (dim : Nat)
    (Q : MetricKernel Mat) (metric : Option (List LO → MetricRefineQualities))
    (real_element_quality : List Vector → ℚ) (candidates : List LO)
    (others : List (List (Option ℚ))) : Option (List ℚ) :=
  match metric with
  | some ctor =>
    if dim = 3 then
      refine_qualities_tmpl K3 A ((ctor candidates).measure Q) candidates others
    else if dim = 2 then
      refine_qualities_tmpl K2 A ((ctor candidates).measure Q) candidates others
    else none
  | none =>
    if dim = 3 then
      refine_qualities_tmpl K3 A (RealRefineQualities.measure real_element_quality)
        candidates others
    else if dim = 2 then
      refine_qualities_tmpl K2 A (RealRefineQualities.measure real_element_quality)
        candidates others
    else none

end Evaluator

/-! ## `sort.cpp` -/

section Sorting

/-- The loop of `CompareKeySets<T, N>::operator()` with `r` components left,
at component `i`.  Keys (`LO` or `GO`) are integers; `getD` stands for the
pointer read `keys_[a * N + i]`, which `sort_by_keys_tmpl` only performs in
bounds. -/
def CompareKeySets.loop (keys : List Int) (N : Nat) (a b : LO) : Nat → Nat → Bool
  | 0, _ => false
  | r + 1, i =>
    let x := keys.getD (a * N + i) 0
    let y := keys.getD (b * N + i) 0
    if x ≠ y then decide (x < y) else CompareKeySets.loop keys N a b r (i + 1)

/-- The call operator of `CompareKeySets<T, N>`. -/
def CompareKeySets (keys : List Int) (N : Nat) (a b : LO) : Bool :=
  CompareKeySets.loop keys N a b N 0

/-- The function `parallel_sort`: each back end (`thrust::stable_sort`,
`pss::parallel_stable_sort`, `std::stable_sort`) is a stable sort under the
strict comparison `c`; it is modelled by the stable merge sort under the
non-strict order "`b` is not before `a`". -/
def parallel_sort (l : List LO) (c : LO → LO → Bool) : List LO :=
  l.mergeSort (fun a b => !c b a)

/-- The function `sort_by_keys_tmpl<N>`: `none` is the failed
`CHECK(keys.size() % N == 0)`; `perm` starts as `0, 1, .., size / N - 1`. -/
def sort_by_keys_tmpl (N : Nat) (keys : List Int) : Option (List LO) :=
  if keys.length % N = 0 then
    some (parallel_sort (List.range (keys.length / N)) (CompareKeySets keys N))
  else none

/-- The function `sort_by_keys`: `none` is `NORETURN` after the `switch`, or
the failed `CHECK` of `sort_by_keys_tmpl`. -/
def sort_by_keys (keys : List Int) (width : Int) : Option (List LO) :=
  if width = 1 then sort_by_keys_tmpl 1 keys
  else if width = 2 then sort_by_keys_tmpl 2 keys
  else if width = 3 then sort_by_keys_tmpl 3 keys
  else none

/-- The `N` keys of entity `a`. -/
def key_tuple (keys : List Int) (N : Nat) (a : LO) : List Int :=
  (List.range N).map (fun i => keys.getD (a * N + i) 0)

/-- Lexicographic "less or equal" on tuples of integers. -/
def tuple_le : List Int → List Int → Prop
  | [], _ => True
  | _ :: _, [] => False
  | x :: xs, y :: ys => x < y ∨ (x = y ∧ tuple_le xs ys)

end Sorting

/-! ## `vtk.cpp`: data arrays of tags -/

section Vtk

/-- The four enumerators of `Omega_h_Type` that the `switch` of
`write_p_data_array2` and the chain of `is<T>` tests in `write_tag` list; the
enum itself is declared in a header that is not among the sources. -/
inductive Omega_h_Type
  | OMEGA_H_I8
  | OMEGA_H_I32
  | OMEGA_H_I64
  | OMEGA_H_F64
  deriving DecidableEq, Repr

/-- What `write_tag` and `write_p_tag` read of a `TagBase`: name, number of
components, type, output flags, and whether its array exists. -/
structure TagBase where
  name : String
  ncomps : Int
  type : Omega_h_Type
  outflags : Nat
  array_exists : Bool
  deriving DecidableEq, Repr

/-- The attributes written by `describe_array<T>`; `format` is always
`binary`. -/
structure ArrayDesc where
  type_name : String
  name : String
  ncomps : Int
  deriving DecidableEq, Repr

/-- The string `Traits<T>::name()` for the array type of a tag type. -/
def Traits.name : Omega_h_Type → String
  | .OMEGA_H_I8 => "Int8"
  | .OMEGA_H_I32 => "Int32"
  | .OMEGA_H_I64 => "Int64"
  | .OMEGA_H_F64 => "Float64"

/-- The function `describe_array<T>`. -/
def describe_array (type : Omega_h_Type) (name : String) (ncomps : Int) : ArrayDesc :=
  { type_name := Traits.name type, name := name, ncomps := ncomps }

/-- The data `write_array` encodes: the array of the tag, or its image under
`vectors_2d_to_3d`.  The encoding itself (base64, zlib) is not modelled. -/
inductive ArrayData
  | array
  | vectors_2d_to_3d
  deriving DecidableEq, Repr

/-- The XML elements the two writers put on the stream. -/
inductive XmlElement
  | DataArray (desc : ArrayDesc) (data : ArrayData)
  | PDataArray (desc : ArrayDesc)
  deriving DecidableEq, Repr

/-- The function `write_array<T>`: `none` is `Omega_h_fail` for an array that
does not exist. -/
def write_array (type : Omega_h_Type) (name : String) (ncomps : Int) (array_exists : Bool)
    (data : ArrayData) : Option (List XmlElement) :=
  if !array_exists then none
  else some [XmlElement.DataArray (describe_array type name ncomps) data]

/-- The function `write_tag`; `DO_VIZ` is the flag `OMEGA_H_DO_VIZ`, whose
value is declared in a header that is not among the sources.  `none` is a
failure (`Omega_h_fail` or a failed `CHECK`), `some []` a return without
output. -/
def write_tag (DO_VIZ : Nat) (tag : TagBase) (space_dim : Int) : Option (List XmlElement) :=
  if tag.outflags &&& DO_VIZ = 0 then some []
  else
    match tag.type with
    | .OMEGA_H_I8 => write_array .OMEGA_H_I8 tag.name tag.ncomps tag.array_exists .array
    | .OMEGA_H_I32 => write_array .OMEGA_H_I32 tag.name tag.ncomps tag.array_exists .array
    | .OMEGA_H_I64 => write_array .OMEGA_H_I64 tag.name tag.ncomps tag.array_exists .array
    | .OMEGA_H_F64 =>
      if space_dim = 2 ∧ tag.ncomps = space_dim then
        if tag.array_exists then
          write_array .OMEGA_H_F64 tag.name 3 tag.array_exists .vectors_2d_to_3d
        else none
      else write_array .OMEGA_H_F64 tag.name tag.ncomps tag.array_exists .array

/-- The function `write_p_data_array<T>`. -/
def write_p_data_array (type : Omega_h_Type) (name : String) (ncomps : Int) :
    List XmlElement :=
  [XmlElement.PDataArray (describe_array type name ncomps)]

/-- The function `write_p_data_array2`. -/
def write_p_data_array2 (name : String) (ncomps : Int) (type : Omega_h_Type) :
    List XmlElement :=
  match type with
  | .OMEGA_H_I8 => write_p_data_array .OMEGA_H_I8 name ncomps
  | .OMEGA_H_I32 => write_p_data_array .OMEGA_H_I32 name ncomps
  | .OMEGA_H_I64 => write_p_data_array .OMEGA_H_I64 name ncomps
  | .OMEGA_H_F64 => write_p_data_array .OMEGA_H_F64 name ncomps

/-- The function `write_p_tag`. -/
def write_p_tag (DO_VIZ : Nat) (tag : TagBase) (space_dim : Int) : List XmlElement :=
  if tag.outflags &&& DO_VIZ = 0 then []
  else if tag.type = .OMEGA_H_F64 ∧ tag.ncomps = space_dim then
    write_p_data_array2 tag.name 3 .OMEGA_H_F64
  else write_p_data_array2 tag.name tag.ncomps tag.type

/-- The attributes of an element, whichever writer produced it. -/
def XmlElement.desc : XmlElement → ArrayDesc
  | .DataArray d _ => d
  | .PDataArray d => d

end Vtk

/-! ## `gmsh.cpp` -/

section Gmsh

/-- The function `type_dim`; `none` is the call of `fail`. -/
def gmsh.type_dim (type : Int) : Option Nat :=
  if type = 15 then some 0
  else if type = 1 then some 1
  else if type = 2 then some 2
  else if type = 4 then some 3
  else none

/-- One record of the `$Nodes` section: the node number and the three
coordinates. -/
structure gmsh.Node where
  number : Int
  coords : ℚ × ℚ × ℚ
  deriving DecidableEq

/-- The least value of the 32-bit integers `LO` and `Int`. -/
def gmsh.INT_MIN : Int := -2147483648

/-- The greatest value of the 32-bit integers `LO` and `Int`. -/
def gmsh.INT_MAX : Int := 2147483647

/-- The result of a subtraction on `LO`, which is 32 bits wide, in two's
complement. -/
def gmsh.wrap32 (x : Int) : Int :=
  (x + 2147483648) % 4294967296 - 2147483648

/-- One field of the stream as the extraction of an integer sees it: a field
that reads as the decimal integer `v`, of any size, or a field that does not
begin an integer, such as the line `$EndElements`.  A field that begins with
an integer and goes on, such as `12abc`, is the integer followed by a word. -/
inductive gmsh.Field
  | int (v : Int)
  | word
  deriving DecidableEq

/-- The stream from some point on: the fields left, and whether an earlier
extraction has failed. -/
structure gmsh.Stream where
  fields : List gmsh.Field
  failed : Bool

/-- The expression `stream >> x` for a 32-bit `x`: the value stored in `x`, or
`none` when `x` is left as it was, and the stream afterwards.  On a stream
that has failed, or at the end of the stream, nothing is stored; a field that
is not an integer stores 0; an integer outside the 32-bit range stores the
nearest bound; each of these leaves the stream failed. -/
def gmsh.Stream.extract (s : gmsh.Stream) : Option Int × gmsh.Stream :=
  if s.failed then (none, s)
  else
    match s.fields with
    | [] => (none, { s with failed := true })
    | .word :: _ => (some 0, { s with failed := true })
    | .int v :: rest =>
      if v < gmsh.INT_MIN then (some gmsh.INT_MIN, { fields := rest, failed := true })
      else if v > gmsh.INT_MAX then (some gmsh.INT_MAX, { fields := rest, failed := true })
      else (some v, { fields := rest, failed := false })

/-- The expression `stream >> x` where `x` holds `old` before: the content of
`x` and the stream afterwards. -/
def gmsh.Stream.get (s : gmsh.Stream) (old : Int) : Int × gmsh.Stream :=
  (s.extract.1.getD old, s.extract.2)

/-- The loop `for (Int j = 2; j < ntags; ++j) stream >> tag` with `n` passes
left; `tag` is never read. -/
def gmsh.Stream.get_tags : Nat → gmsh.Stream → gmsh.Stream
  | 0, s => s
  | n + 1, s => gmsh.Stream.get_tags n s.extract.2

/-- The extractions of the loop `for (Int j = 0; j < neev; ++j)` with `n` passes
left, `node_number` holding `old`: the content of `node_number` after each
extraction, and the stream afterwards. -/
def gmsh.Stream.get_nodes : Nat → Int → gmsh.Stream → List Int × gmsh.Stream
  | 0, _, s => ([], s)
  | n + 1, old, s =>
    let r := gmsh.Stream.get_nodes n (s.get old).1 (s.get old).2
    ((s.get old).1 :: r.1, r.2)

/-- What the local variables of one pass of the element loop hold before
anything is stored in them; the language leaves it indeterminate. -/
structure gmsh.Locals where
  number : Int
  type : Int
  ntags : Int
  physical : Int
  elementary : Int
  node_number : Int

/-- What `nents` and, in pass `i` of the element loop, the local variables
hold before anything is stored in them. -/
structure gmsh.Indeterminate where
  nents : Int
  body : Nat → gmsh.Locals

/-- The part of the stream that `read` consumes.  For the `$MeshFormat` and
`$Nodes` sections, the values the extractions store: the two integers that are
checked, the node count and the node records; a stream on which these
extractions fail is stopped by `CHECK(stream)` in `seek_line` at the latest and
is not represented.  For the `$Elements` section, whose extractions are not
followed by any check of the stream, the fields after the line `$Elements`,
beginning with the count. -/
structure gmsh.File where
  file_type : Int
  data_size : Int
  nnodes : Int
  nodes : List gmsh.Node
  elements : List gmsh.Field

/-- The loop over the `$Nodes` section, with `n` records left to read and `i` the
loop counter: the coordinates collected in `node_coords`. -/
def gmsh.read_nodes : Nat → Nat → List gmsh.Node → Option (List (ℚ × ℚ × ℚ))
  | 0, _, _ => some []
  | _ + 1, _, [] => none
  | n + 1, i, nd :: rest =>
    if nd.number = (i : Int) + 1 then
      match gmsh.read_nodes n (i + 1) rest with
      | none => none
      | some cs => some (nd.coords :: cs)
    else none

/-- The arrays `ent_class_ids[4]` and `ent_nodes[4]`. -/
structure gmsh.Ents where
  ent_class_ids : Nat → List Int
  ent_nodes : Nat → List Int

/-- The statement `ent_class_ids[dim].push_back(elementary)` followed by the
statements `ent_nodes[dim].push_back(node_number - 1)` of the loop, where
`node_numbers` are the contents of `node_number` after each extraction; the
subtraction is on `LO`. -/
def gmsh.Ents.push (st : gmsh.Ents) (dim : Nat) (elementary : Int) (node_numbers : List Int) :
    gmsh.Ents :=
  { ent_class_ids := fun d =>
      if d = dim then st.ent_class_ids d ++ [elementary] else st.ent_class_ids d
    ent_nodes := fun d =>
      if d = dim then st.ent_nodes d ++ node_numbers.map (fun k => gmsh.wrap32 (k - 1))
      else st.ent_nodes d }

/-- One pass of the body of the loop over the elements, the local variables
holding `loc` at first: the arrays and the stream afterwards.  `none` is a
failed `CHECK` or the `fail` of `type_dim`; the stream is not checked. -/
def gmsh.read_element (loc : gmsh.Locals) (st : gmsh.Ents) (s : gmsh.Stream) :
    Option (gmsh.Ents × gmsh.Stream) :=
  let number := s.get loc.number
  if number.1 > 0 then
    let type := number.2.get loc.type
    match gmsh.type_dim type.1 with
    | none => none
    | some dim =>
      let ntags := type.2.get loc.ntags
      if ntags.1 ≥ 2 then
        let physical := ntags.2.get loc.physical
        let elementary := physical.2.get loc.elementary
        let s1 := gmsh.Stream.get_tags (ntags.1 - 2).toNat elementary.2
        let nodes := gmsh.Stream.get_nodes (dim + 1) loc.node_number s1
        some (st.push dim elementary.1 nodes.1, nodes.2)
      else none
  else none

/-- The loop `for (LO i = 0; i < nents; ++i)` with `n` passes left, at pass
`i`. -/
def gmsh.read_elements (junk : Nat → gmsh.Locals) :
    Nat → Nat → gmsh.Ents → gmsh.Stream → Option gmsh.Ents
  | 0, _, st, _ => some st
  | n + 1, i, st, s =>
    match gmsh.read_element (junk i) st s with
    | none => none
    | some (st1, rest) => gmsh.read_elements junk n (i + 1) st1 rest

/-- Component `j` of a `Vector<3>`; `none` is an index out of range. -/
def gmsh.component (c : ℚ × ℚ × ℚ) (j : Nat) : Option ℚ :=
  match j with
  | 0 => some c.1
  | 1 => some c.2.1
  | 2 => some c.2.2
  | _ => none

/-- The array `host_coords`: `nnodes * max_dim` entries, indeterminate (`none`)
until written; the inner loop runs up to `mesh.dim()`, the dimension of the
mesh object passed in, here `mesh_dim`.  The result is `none` when a write or
a read falls out of range. -/
def gmsh.host_coords (node_coords : List (ℚ × ℚ × ℚ)) (max_dim : Nat) (mesh_dim : Int) :
    Option (List (Option ℚ)) :=
  ((List.range node_coords.length).flatMap
      (fun i => (List.range mesh_dim.toNat).map (fun j => (i, j)))).foldlM
    (fun arr ij =>
      match node_coords[ij.1]? with
      | none => none
      | some c =>
        match gmsh.component c ij.2 with
        | none => none
        | some x =>
          if ij.1 * max_dim + ij.2 < arr.length then
            some (arr.set (ij.1 * max_dim + ij.2) (some x))
          else none)
    (List.replicate (node_coords.length * max_dim) none)

/-- The arrays `host_ev2v` and `host_class_id` for entity dimension
`ent_dim`. -/
def gmsh.host_arrays (st : gmsh.Ents) (ent_dim : Nat) : List Int × List Int :=
  let neev := ent_dim + 1
  let ndim_ents := (st.ent_nodes ent_dim).length / neev
  ((st.ent_nodes ent_dim).take (ndim_ents * neev), (st.ent_class_ids ent_dim).take ndim_ents)

/-- What `read` hands to the mesh construction: the dimension and the two
arrays given to `build_from_elems_and_coords`, and for each lower dimension,
from `max_dim - 1` down to 0, the vertices and class ids of the classified
entities. -/
structure gmsh.Built where
  max_dim : Nat
  host_ev2v : List Int
  host_coords : List (Option ℚ)
  lower : List (Nat × List Int × List Int)

/-- The function `read`; `mesh_dim` is what `mesh.dim()` returns for the mesh
object passed in, and `ind` what the variables of the element section hold
before anything is stored in them.  `none` is a failed `CHECK`, the `fail` of
`type_dim`, a node section that ends early, or an access outside an array. -/
def gmsh.read (f : gmsh.File) (mesh_dim : Int) (ind : gmsh.Indeterminate) :
    Option gmsh.Built :=
  if f.file_type = 0 ∧ f.data_size = 8 ∧ f.nnodes ≥ 0 then
    match gmsh.read_nodes f.nnodes.toNat 0 f.nodes with
    | none => none
    | some node_coords =>
      let nents := ({ fields := f.elements, failed := false } : gmsh.Stream).get ind.nents
      if nents.1 ≥ 0 then
        match gmsh.read_elements ind.body nents.1.toNat 0
            { ent_class_ids := fun _ => [], ent_nodes := fun _ => [] } nents.2 with
        | none => none
        | some st =>
          if (st.ent_nodes 2).length ≠ 0 then
            let max_dim := if (st.ent_nodes 3).length ≠ 0 then 3 else 2
            match gmsh.host_coords node_coords max_dim mesh_dim with
            | none => none
            | some coords =>
              some
                { max_dim := max_dim
                  host_ev2v := (gmsh.host_arrays st max_dim).1
                  host_coords := coords
                  lower := ((List.range max_dim).reverse).map
                    (fun d => (d, gmsh.host_arrays st d)) }
          else none
      else none
  else none

/-- One element of the `$Elements` section as the file format lays it out:
number, type, the two mandatory tags, further tags, node numbers. -/
structure gmsh.Element where
  number : Int
  type : Int
  physical : Int
  elementary : Int
  tags : List Int
  nodes : List Int
  deriving DecidableEq

/-- The integers of one element in stream order; the tag count is the two
mandatory tags plus the further ones. -/
def gmsh.Element.encode (e : gmsh.Element) : List Int :=
  [e.number, e.type, (e.tags.length : Int) + 2, e.physical, e.elementary] ++ e.tags ++ e.nodes

/-- An integer strictly between `-2^31` and `2^31`: it is extracted as it
stands, and so is its predecessor. -/
def gmsh.fits (v : Int) : Prop :=
  gmsh.INT_MIN < v ∧ v ≤ gmsh.INT_MAX

instance gmsh.decidable_fits (v : Int) : Decidable (gmsh.fits v) := by
  unfold gmsh.fits
  exact inferInstance

/-- The fields of an element section that gives the count of `els` and then
lays out `els`, followed by `extra`. -/
def gmsh.section_fields (els : List gmsh.Element) (extra : List gmsh.Field) :
    List gmsh.Field :=
  gmsh.Field.int els.length :: ((els.flatMap gmsh.Element.encode).map gmsh.Field.int ++ extra)

end Gmsh

/-! ## Concrete inputs -/

section Fixtures

/-- Valid options: the 2D defaults, with the two length bounds rounded to
rationals. -/
def sample_opts : AdaptOpts where
  min_length_desired := 707 / 1000
  max_length_desired := 1414 / 1000
  max_length_allowed := 1000000
  min_quality_allowed := 3 / 10
  min_quality_desired := 4 / 10
  nsliver_layers := 4
  verbosity := .EACH_REBUILD
  length_histogram_min := 0
  length_histogram_max := 3

/-- The options of the scenario of section 8: `min_quality_allowed = 0.5`,
`min_quality_desired = 0.3`. -/
def inverted_opts : AdaptOpts :=
  { sample_opts with min_quality_allowed := 5 / 10, min_quality_desired := 3 / 10 }

/-- A mesh state for the examples: the global statistics it reports and the
number of over-long edges that `refine_by_size` can still split. -/
structure ToyMesh where
  minqual : ℚ
  minlen : ℚ
  maxlen : ℚ
  splittable : Nat
  swappable : Nat
  deriving DecidableEq

/-- Collaborators over `ToyMesh`, on rank 0 of a 2D mesh.  `refine_by_size`
splits one edge per call while some are left and then brings the maximum
length to `1`; `swap_edges` improves the minimum quality to `1/2` once its
budget is used up; the two coarsening operators never find anything to do. -/
def toy_env : Env ToyMesh where
  dim := fun _ => 2
  rank := fun _ => 0
  global_min := fun m f => match f with
    | .qualities => m.minqual
    | .lengths => m.minlen
  global_max := fun m f => match f with
    | .qualities => 1
    | .lengths => m.maxlen
  min_quality := fun m => m.minqual
  refine_by_size := fun m _ =>
    match m.splittable with
    | 0 => (false, m)
    | n + 1 => (true, { m with splittable := n, maxlen := if n = 0 then 1 else m.maxlen })
  coarsen_by_size := fun m _ => (false, m)
  swap_edges := fun m _ =>
    match m.swappable with
    | 0 => (false, m)
    | n + 1 => (true, { m with swappable := n, minqual := if n = 0 then 1 / 2 else m.minqual })
  coarsen_slivers := fun m _ => (false, m)

/-- A mesh whose statistics sit exactly on the three thresholds of
`sample_opts`. -/
def boundary_mesh : ToyMesh :=
  { minqual := 4 / 10, minlen := 707 / 1000, maxlen := 1414 / 1000, splittable := 0,
    swappable := 0 }

/-- A mesh with one element of quality `1/10` that no operator can improve. -/
def stuck_mesh : ToyMesh :=
  { minqual := 1 / 10, minlen := 1, maxlen := 1, splittable := 0, swappable := 0 }

/-- A mesh with two over-long edges and a quality that two swaps repair. -/
def long_mesh : ToyMesh :=
  { minqual := 35 / 100, minlen := 1, maxlen := 2, splittable := 2, swappable := 2 }

/-- Modelled from the spec: the triangle tables of `simplices.hpp` and the
accessors of `access.hpp` are not among the sources.  Section 4.3: edge `i` of
a triangle joins the local vertices `i` and `i + 1 mod 3`, the side opposite
the local vertex `v` is the edge `v + 1 mod 3`; an orientation code is
`which_down * 8 + rotation * 2 + is_flipped`; the values of entity `i` are
stored contiguously; triangles need no flip. -/
def triangle_simplices : Simplices where
  dim := 2
  gather_verts := fun n a e => (List.range n).mapM (fun i => a[e * n + i]?)
  get_vector := fun coords v => (List.range 2).mapM (fun i => coords[v * 2 + i]?)
  code_which_down := fun code => code >>> 3
  code_rotation := fun code => (code >>> 1) &&& 3
  down_edge := fun a b => (a + b) % 3
  opposite_vert := fun v => (v + 1) % 3
  down_side := fun a b => (a + b) % 3
  flip_new_elem := fun l => l

/-- One triangle with vertices `(0,0)`, `(1,0)`, `(0,1)` and edges `(0,1)`,
`(1,2)`, `(2,0)`. -/
def one_triangle : MeshArrays where
  ev2v := [0, 1, 1, 2, 2, 0]
  cv2v := [0, 1, 2]
  e2ec := [0, 1, 2, 3]
  ec2c := [0, 0, 0]
  ec_codes := [0, 8, 16]
  coords := [0, 0, 1, 0, 0, 1]

/-- The degenerate fixture of section 8: one edge from `(0,0)` to `(1,0)` and
no cell. -/
def lone_edge : MeshArrays where
  ev2v := [0, 1]
  cv2v := []
  e2ec := [0, 0]
  ec2c := []
  ec_codes := []
  coords := [0, 0, 1, 0]

/-- A stand-in for `real_element_quality` on triangles: twice the signed
area. -/
def signed_area2 (p : List Vector) : ℚ :=
  match p with
  | [[ax, ay], [bx, b_y], [cx, cy]] => (bx - ax) * (cy - ay) - (b_y - ay) * (cx - ax)
  | _ => 0

/-- The accessor `get_symm<2>` on a compact array: three values per tensor. -/
def get_symm2 (a : List ℚ) (i : LO) : Option (List ℚ) :=
  (List.range 3).mapM (fun k => a[i * 3 + k]?)

/-- Metric arrays for `one_triangle` with candidate list `[0]`: the tensors of
the vertices 0, 1, 2 are 3, 1 and 2 times the identity, the midpoint tensor
of the candidate is `3/2` times the identity. -/
def toy_metrics : MetricRefineQualities where
  vert_metrics := [3, 0, 3, 1, 0, 1, 2, 0, 2]
  midpt_metrics := [3 / 2, 0, 3 / 2]

/-- Determinant of a 2x2 symmetric tensor stored as `[xx, xy, yy]`. -/
def det2 (t : List ℚ) : ℚ :=
  match t with
  | [a, b, c] => a * c - b * b
  | _ => 0

/-- A metric kernel for the examples: `get_symm2`, the tensor of largest
determinant (the first one on ties), and a stand-in for
`metric_element_quality`: the signed area scaled by the determinant. -/
def toy_kernel : MetricKernel (List ℚ) where
  get_symm := get_symm2
  maxdet_metric := fun ms =>
    ms.foldl (fun best t => if det2 best < det2 t then t else best) (ms.headD [])
  metric_element_quality := fun p t => signed_area2 p * det2 t

/-- Four entities with two keys each: `(2,1)`, `(1,5)`, `(2,1)`, `(0,9)`. -/
def sample_keys : List Int := [2, 1, 1, 5, 2, 1, 0, 9]

/-- A visualised tag of real vectors with two components, as carried by a 2D
mesh. -/
def velocity_tag : TagBase :=
  { name := "velocity", ncomps := 2, type := .OMEGA_H_F64, outflags := 3, array_exists := true }

/-- The same tag before any array has been set. -/
def unset_tag : TagBase :=
  { velocity_tag with array_exists := false }

/-- A tetrahedron, one of its faces and one of its vertices. -/
def tet_elements : List gmsh.Element :=
  [{ number := 1, type := 15, physical := 0, elementary := 7, tags := [], nodes := [1] },
   { number := 2, type := 2, physical := 0, elementary := 5, tags := [9], nodes := [1, 2, 3] },
   { number := 3, type := 4, physical := 0, elementary := 1, tags := [], nodes := [1, 2, 3, 4] }]

/-- A file with four nodes and the elements `tet_elements`. -/
def tet_file : gmsh.File where
  file_type := 0
  data_size := 8
  nnodes := 4
  nodes := [⟨1, (0, 0, 0)⟩, ⟨2, (1, 0, 0)⟩, ⟨3, (0, 1, 0)⟩, ⟨4, (0, 0, 1)⟩]
  elements := gmsh.section_fields tet_elements [gmsh.Field.word]

/-- The same file without its triangle. -/
def tet_only_file : gmsh.File :=
  { tet_file with
    elements :=
      gmsh.section_fields (tet_elements.filter (fun e => e.type ≠ 2)) [gmsh.Field.word] }

/-- A file with three nodes and one triangle whose third node number is
`2^31`. -/
def big_node_file : gmsh.File where
  file_type := 0
  data_size := 8
  nnodes := 3
  nodes := [⟨1, (0, 0, 0)⟩, ⟨2, (1, 0, 0)⟩, ⟨3, (0, 1, 0)⟩]
  elements :=
    gmsh.section_fields
      [{ number := 1, type := 2, physical := 0, elementary := 5, tags := [],
         nodes := [1, 2, 2147483648] }]
      [gmsh.Field.word]

/-- A file with three nodes and one triangle of which only the first node
number is given before the line `$EndElements`. -/
def truncated_file : gmsh.File where
  file_type := 0
  data_size := 8
  nnodes := 3
  nodes := [⟨1, (0, 0, 0)⟩, ⟨2, (1, 0, 0)⟩, ⟨3, (0, 1, 0)⟩]
  elements :=
    [gmsh.Field.int 1, gmsh.Field.int 1, gmsh.Field.int 2, gmsh.Field.int 2, gmsh.Field.int 0,
     gmsh.Field.int 5, gmsh.Field.int 1, gmsh.Field.word]

end Fixtures

end Omega_h

/-! ## Theorems: the controller -/

namespace Omega_h

section ControllerProofs

variable {M : Type}

@[simp] theorem op_calls_nil : op_calls [] = [] := rfl

@[simp] theorem op_calls_query (q : Query) (t : List Event) :
    op_calls (Event.query q :: t) = op_calls t := rfl

@[simp] theorem op_calls_collective (c : Collective) (t : List Event) :
    op_calls (Event.collective c :: t) = op_calls t := rfl

@[simp] theorem op_calls_print (msg : Message) (t : List Event) :
    op_calls (Event.print msg :: t) = op_calls t := rfl

@[simp] theorem op_calls_call (op : Operator) (r : Bool) (t : List Event) :
    op_calls (Event.call op r :: t) = (op, r) :: op_calls t := rfl

@[simp] theorem op_calls_append (a b : List Event) :
    op_calls (a ++ b) = op_calls a ++ op_calls b := by
  induction a with
  | nil => rfl
  | cons e a ih => cases e <;> simp [ih]

@[simp] theorem op_calls_goal_stats (E : Env M) (m : M) (f : Field) (d : Nat) :
    op_calls (goal_stats E m f d) = [] := by
  unfold goal_stats; split_ifs <;> simp

@[simp] theorem op_calls_adapt_summary (E : Env M) (m : M) :
    op_calls (adapt_summary E m) = [] := by
  simp [adapt_summary]

@[simp] theorem op_calls_adapt_check (E : Env M) (m : M) (opts : AdaptOpts) :
    op_calls (adapt_check E m opts).2 = [] := by
  unfold adapt_check
  simp only [get_minmax]
  split_ifs <;> simp

@[simp] theorem op_calls_do_histograms (E : Env M) (m : M) :
    op_calls (do_histograms E m) = [] := by
  simp [do_histograms]

@[simp] theorem op_calls_post_rebuild (E : Env M) (m : M) (opts : AdaptOpts) :
    op_calls (post_rebuild E m opts) = [] := by
  unfold post_rebuild; split_ifs <;> simp

@[simp] theorem op_calls_post_adapt (E : Env M) (m : M) (opts : AdaptOpts) :
    op_calls (post_adapt E m opts) = [] := by
  unfold post_adapt; split_ifs <;> simp

theorem validate_ok_of_valid (E : Env M) (m : M) (opts : AdaptOpts) (hv : opts.valid) :
    ∃ t, validate E m opts = .ok t ∧ op_calls t = [] := by
  obtain ⟨h1, h2, h3, h4, h5⟩ := hv
  unfold validate
  simp only [h1, h2, h3, h4, h5, ge_iff_le, not_true_eq_false, if_false]
  refine ⟨_, rfl, ?_⟩
  split_ifs <;> simp

theorem validate_error_of_not_valid (E : Env M) (m : M) (opts : AdaptOpts)
    (hv : ¬ opts.valid) : validate E m opts = .error [] := by
  by_cases h1 : 0 ≤ opts.min_quality_allowed <;>
  by_cases h2 : opts.min_quality_allowed ≤ opts.min_quality_desired <;>
  by_cases h3 : opts.min_quality_desired ≤ 1 <;>
  by_cases h4 : 0 ≤ opts.nsliver_layers <;>
  by_cases h5 : opts.nsliver_layers < 100 <;>
  simp_all [validate, AdaptOpts.valid]

theorem validate_error_iff (E : Env M) (m : M) (opts : AdaptOpts) :
    (∃ t, validate E m opts = .error t) ↔ ¬ opts.valid := by
  constructor
  · rintro ⟨t, ht⟩ hv
    obtain ⟨t', ht', -⟩ := validate_ok_of_valid E m opts hv
    rw [ht'] at ht
    cases ht
  · intro hv
    exact ⟨[], validate_error_of_not_valid E m opts hv⟩

theorem validate_error_nil (E : Env M) (m : M) (opts : AdaptOpts) (t : List Event)
    (h : validate E m opts = .error t) : t = [] := by
  by_cases hv : opts.valid
  · obtain ⟨t', ht', -⟩ := validate_ok_of_valid E m opts hv
    rw [ht'] at h
    cases h
  · rw [validate_error_of_not_valid E m opts hv] at h
    cases h
    rfl

/-- A normal return of `pre_adapt` yields the negation of `adapt_check`, and
no operator has been called. -/
theorem pre_adapt_ok (E : Env M) (m : M) (opts : AdaptOpts) (b : Bool) (t : List Event)
    (h : pre_adapt E m opts = .ok (b, t)) :
    b = !(adapt_check E m opts).1 ∧ op_calls t = [] := by
  unfold pre_adapt at h
  cases hv : validate E m opts with
  | error t' => rw [hv] at h; cases h
  | ok t0 =>
    have hc0 : op_calls t0 = [] := by
      by_cases hval : opts.valid
      · obtain ⟨t', ht', hc⟩ := validate_ok_of_valid E m opts hval
        rw [ht'] at hv
        cases hv
        exact hc
      · rw [validate_error_of_not_valid E m opts hval] at hv
        cases hv
    rw [hv] at h
    simp only at h
    cases hc : (adapt_check E m opts).1
    · simp only [hc, Bool.false_eq_true, if_false] at h
      cases h
      refine ⟨rfl, ?_⟩
      simp only [op_calls_append, hc0, op_calls_adapt_check, List.append_nil, List.nil_append]
      split_ifs <;> simp
    · simp only [hc, if_true] at h
      cases h
      refine ⟨rfl, ?_⟩
      simp only [op_calls_append, hc0, op_calls_adapt_check, List.append_nil]
      split_ifs <;> simp

theorem pre_adapt_of_valid (E : Env M) (m : M) (opts : AdaptOpts) (hv : opts.valid) :
    ∃ t, pre_adapt E m opts = .ok (!(adapt_check E m opts).1, t) := by
  obtain ⟨t0, h0, -⟩ := validate_ok_of_valid E m opts hv
  unfold pre_adapt
  rw [h0]
  simp only []
  by_cases hc : (adapt_check E m opts).1 = true
  · rw [if_pos hc, hc]
    exact ⟨_, rfl⟩
  · rw [if_neg hc]
    rw [Bool.not_eq_true] at hc
    rw [hc]
    exact ⟨_, rfl⟩

theorem pre_adapt_error_iff (E : Env M) (m : M) (opts : AdaptOpts) :
    (∃ t, pre_adapt E m opts = .error t) ↔ ¬ opts.valid := by
  constructor
  · rintro ⟨t, ht⟩ hv
    obtain ⟨t', ht'⟩ := pre_adapt_of_valid E m opts hv
    rw [ht'] at ht
    cases ht
  · intro hv
    exact ⟨[], by unfold pre_adapt; rw [validate_error_of_not_valid E m opts hv]⟩

theorem pre_adapt_error_nil (E : Env M) (m : M) (opts : AdaptOpts) (t : List Event)
    (h : pre_adapt E m opts = .error t) : t = [] := by
  by_cases hv : opts.valid
  · obtain ⟨t', ht'⟩ := pre_adapt_of_valid E m opts hv
    rw [ht'] at h
    cases h
  · have : pre_adapt E m opts = .error [] := by
      unfold pre_adapt; rw [validate_error_of_not_valid E m opts hv]
    rw [this] at h
    cases h
    rfl

theorem adapt_of_pre_adapt_false (E : Env M) (fuel : Nat) (m : M) (opts : AdaptOpts)
    (t : List Event) (h : pre_adapt E m opts = .ok (false, t)) :
    adapt E fuel m opts = .returned false m t := by
  unfold adapt
  rw [h]

theorem adapt_returned_false (E : Env M) (fuel : Nat) (m : M) (opts : AdaptOpts)
    (m' : M) (t : List Event) (h : adapt E fuel m opts = .returned false m' t) :
    pre_adapt E m opts = .ok (false, t) ∧ m' = m := by
  unfold adapt at h
  cases hp : pre_adapt E m opts with
  | error t' => rw [hp] at h; cases h
  | ok bt =>
    obtain ⟨b, t0⟩ := bt
    rw [hp] at h
    cases b
    · simp only at h
      cases h
      exact ⟨rfl, rfl⟩
    · simp only at h
      cases h1 : satisfy_lengths E opts fuel m with
      | none => rw [h1] at h; cases h
      | some r1 =>
        obtain ⟨m1, t1⟩ := r1
        rw [h1] at h
        simp only at h
        cases h2 : satisfy_quality E opts fuel m1 with
        | none => rw [h2] at h; cases h
        | some r2 =>
          obtain ⟨m2, t2⟩ := r2
          rw [h2] at h
          cases h

theorem adapt_returned_true (E : Env M) (fuel : Nat) (m : M) (opts : AdaptOpts)
    (m' : M) (t : List Event) (h : adapt E fuel m opts = .returned true m' t) :
    ∃ t0, pre_adapt E m opts = .ok (true, t0) := by
  unfold adapt at h
  cases hp : pre_adapt E m opts with
  | error t' => rw [hp] at h; cases h
  | ok bt =>
    obtain ⟨b, t0⟩ := bt
    rw [hp] at h
    cases b
    · simp only at h
      cases h
    · exact ⟨t0, rfl⟩

theorem adapt_aborted_iff (E : Env M) (fuel : Nat) (m : M) (opts : AdaptOpts)
    (t : List Event) : adapt E fuel m opts = .aborted t ↔ pre_adapt E m opts = .error t := by
  unfold adapt
  cases hp : pre_adapt E m opts with
  | error t' =>
    constructor
    · intro h; cases h; rfl
    · intro h; cases h; rfl
  | ok bt =>
    obtain ⟨b, t0⟩ := bt
    cases b
    · simp
    · simp only
      cases h1 : satisfy_lengths E opts fuel m with
      | none => simp
      | some r1 =>
        obtain ⟨m1, t1⟩ := r1
        simp only
        cases h2 : satisfy_quality E opts fuel m1 with
        | none => simp
        | some r2 => simp

theorem adapt_check_true_iff (E : Env M) (m : M) (opts : AdaptOpts) :
    (adapt_check E m opts).1 = true ↔
      E.global_min m .qualities ≥ opts.min_quality_desired ∧
      E.global_min m .lengths ≥ opts.min_length_desired ∧
      E.global_max m .lengths ≤ opts.max_length_desired := by
  unfold adapt_check
  simp only [get_minmax]
  by_cases h : E.global_min m .qualities ≥ opts.min_quality_desired ∧
      E.global_min m .lengths ≥ opts.min_length_desired ∧
      E.global_max m .lengths ≤ opts.max_length_desired
  · rw [if_pos h]
    exact ⟨fun _ => h, fun _ => rfl⟩
  · rw [if_neg h]
    exact ⟨fun h0 => (by cases h0), fun h0 => absurd h0 h⟩

theorem sample_opts_valid : sample_opts.valid := by
  unfold AdaptOpts.valid sample_opts
  norm_num

/-- Claim C1, as the code has it: a call of `adapt` that returns does so with
`true` exactly when the pre-check `adapt_check` failed; if some operator call
of the run returned true, the result is `true`. -/
theorem adapt_true_iff_check_failed (E : Env M) (fuel : Nat) (m : M) (opts : AdaptOpts)
    (ret : Bool) (m' : M) (t : List Event)
    (h : adapt E fuel m opts = .returned ret m' t) :
    (ret = true ↔ (adapt_check E m opts).1 = false) ∧
    ((∃ c ∈ op_calls t, c.2 = true) → ret = true) := by
  cases ret
  · obtain ⟨hp, -⟩ := adapt_returned_false E fuel m opts m' t h
    obtain ⟨hb, hc⟩ := pre_adapt_ok E m opts false t hp
    constructor
    · constructor
      · intro h0; cases h0
      · intro h0; rw [h0] at hb; cases hb
    · rintro ⟨c, hc', -⟩
      rw [hc] at hc'
      cases hc'
  · obtain ⟨t0, hp⟩ := adapt_returned_true E fuel m opts m' t h
    obtain ⟨hb, -⟩ := pre_adapt_ok E m opts true t0 hp
    constructor
    · constructor
      · intro _
        cases hc : (adapt_check E m opts).1
        · rfl
        · rw [hc] at hb; cases hb
      · intro _; rfl
    · intro _; rfl

/-- Claim C1 fails as stated: on `stuck_mesh` the pre-check fails, each of the
four operator calls returns false, and `adapt` returns `true`. -/
theorem adapt_true_without_any_change :
    (adapt_check toy_env stuck_mesh sample_opts).1 = false ∧
    (adapt toy_env 1 stuck_mesh sample_opts).ret? = some true ∧
    op_calls (adapt toy_env 1 stuck_mesh sample_opts).trace =
      [(.refine_by_size, false), (.coarsen_by_size, false),
        (.swap_edges, false), (.coarsen_slivers, false)] := by
  decide!

/-- Witness for C1: on `long_mesh` the pre-check fails, operators change the
mesh, and `adapt` returns `true`. -/
theorem adapt_true_iff_check_failed_witness :
    adapt toy_env 3 long_mesh sample_opts =
      .returned true
        { minqual := 1 / 2, minlen := 1, maxlen := 1, splittable := 0, swappable := 0 }
        (adapt toy_env 3 long_mesh sample_opts).trace ∧
    (true = true ↔ (adapt_check toy_env long_mesh sample_opts).1 = false) ∧
    ((∃ c ∈ op_calls (adapt toy_env 3 long_mesh sample_opts).trace, c.2 = true) →
      true = true) :=
  ⟨by with_unfolding_all rfl,
   adapt_true_iff_check_failed toy_env 3 long_mesh sample_opts true _ _
     (by with_unfolding_all rfl)⟩

/-- Claim C2: `adapt_check` succeeds exactly when the global minimum quality is
at least `min_quality_desired`, the global minimum length at least
`min_length_desired` and the global maximum length at most
`max_length_desired` (all three inclusive); when it succeeds, `adapt` returns
`false`, leaves the mesh as it was and calls no mutation operator. -/
theorem adapt_check_inclusive_and_noop (E : Env M) (m : M) (opts : AdaptOpts)
    (hv : opts.valid) :
    ((adapt_check E m opts).1 = true ↔
      E.global_min m .qualities ≥ opts.min_quality_desired ∧
      E.global_min m .lengths ≥ opts.min_length_desired ∧
      E.global_max m .lengths ≤ opts.max_length_desired) ∧
    ((adapt_check E m opts).1 = true →
      ∀ fuel, ∃ t, adapt E fuel m opts = .returned false m t ∧ op_calls t = []) := by
  refine ⟨adapt_check_true_iff E m opts, fun hc fuel => ?_⟩
  obtain ⟨t, ht⟩ := pre_adapt_of_valid E m opts hv
  rw [hc] at ht
  exact ⟨t, adapt_of_pre_adapt_false E fuel m opts t ht, (pre_adapt_ok E m opts _ t ht).2⟩

/-- Witness for C2: `boundary_mesh` sits exactly on the three thresholds of
`sample_opts`. -/
theorem adapt_check_inclusive_and_noop_witness :
    sample_opts.valid ∧
    toy_env.global_min boundary_mesh .qualities = sample_opts.min_quality_desired ∧
    toy_env.global_min boundary_mesh .lengths = sample_opts.min_length_desired ∧
    toy_env.global_max boundary_mesh .lengths = sample_opts.max_length_desired ∧
    (adapt_check toy_env boundary_mesh sample_opts).1 = true ∧
    ∃ t, adapt toy_env 0 boundary_mesh sample_opts = .returned false boundary_mesh t ∧
      op_calls t = [] :=
  have h := adapt_check_inclusive_and_noop toy_env boundary_mesh sample_opts sample_opts_valid
  have hc : (adapt_check toy_env boundary_mesh sample_opts).1 = true :=
    h.1.mpr ⟨by decide!, by decide!, by decide!⟩
  ⟨sample_opts_valid, by decide!, by decide!, by decide!, hc, h.2 hc 0⟩

/-- Claim C3: `adapt` aborts exactly when the options violate
`0 <= min_quality_allowed <= min_quality_desired <= 1` or
`0 <= nsliver_layers < 100`; whether it aborts is the same for every mesh,
environment and fuel; an abort happens with an empty trace, before any query,
reduction or operator call; with valid options a worst quality below
`min_quality_allowed` makes `validate` return normally after the
`min_quality` reduction, printing the warning on rank 0. -/
theorem adapt_aborts_iff_invalid (E : Env M) (fuel : Nat) (m : M) (opts : AdaptOpts) :
    ((∃ t, adapt E fuel m opts = .aborted t) ↔ ¬ opts.valid) ∧
    (∀ t, adapt E fuel m opts = .aborted t → t = []) ∧
    (∀ (M' : Type) (E' : Env M') (fuel' : Nat) (m' : M'),
      (∃ t, adapt E' fuel' m' opts = .aborted t) ↔ (∃ t, adapt E fuel m opts = .aborted t)) ∧
    (opts.valid → E.min_quality m < opts.min_quality_allowed →
      validate E m opts = .ok ([Event.collective .min_quality, Event.query .rank] ++
        (if E.rank m = 0 then [Event.print .warning_worst_quality] else []))) := by
  have key : ∀ (M' : Type) (E' : Env M') (fuel' : Nat) (m' : M'),
      (∃ t, adapt E' fuel' m' opts = .aborted t) ↔ ¬ opts.valid := by
    intro M' E' fuel' m'
    rw [← pre_adapt_error_iff E' m' opts]
    constructor
    · rintro ⟨t, ht⟩
      exact ⟨t, (adapt_aborted_iff E' fuel' m' opts t).mp ht⟩
    · rintro ⟨t, ht⟩
      exact ⟨t, (adapt_aborted_iff E' fuel' m' opts t).mpr ht⟩
  refine ⟨key M E fuel m, ?_, ?_, ?_⟩
  · intro t ht
    exact pre_adapt_error_nil E m opts t ((adapt_aborted_iff E fuel m opts t).mp ht)
  · intro M' E' fuel' m'
    rw [key M' E' fuel' m', key M E fuel m]
  · intro hv hq
    obtain ⟨h1, h2, h3, h4, h5⟩ := hv
    unfold validate
    simp only [h1, h2, h3, h4, h5, ge_iff_le, not_true_eq_false, if_false, hq, if_true]
    rfl

/-- Witness for C3: the inverted thresholds of section 8 abort with an empty
trace, whereas a mesh of quality `1/10 < min_quality_allowed` under valid
options does not abort. -/
theorem adapt_aborts_iff_invalid_witness :
    ¬ inverted_opts.valid ∧
    adapt toy_env 5 long_mesh inverted_opts = .aborted [] ∧
    ¬ ∃ t, adapt toy_env 5 stuck_mesh sample_opts = .aborted t := by
  have hv : ¬ inverted_opts.valid := by decide!
  obtain ⟨h1, h2, -, -⟩ := adapt_aborts_iff_invalid toy_env 5 long_mesh inverted_opts
  obtain ⟨t, ht⟩ := h1.mpr hv
  have ht0 := h2 t ht
  subst ht0
  refine ⟨hv, ht, fun h => ?_⟩
  exact (adapt_aborts_iff_invalid toy_env 5 stuck_mesh sample_opts).1.mp h sample_opts_valid

/-- Claim C4: if `adapt` returns `false`, the mesh is the one it was given, no
operator was called, and calling `adapt` again on that mesh with the same
options returns `false` again with the same mesh (and the same events),
whatever the fuel. -/
theorem adapt_false_idempotent (E : Env M) (fuel : Nat) (m : M) (opts : AdaptOpts)
    (m1 : M) (t1 : List Event) (h : adapt E fuel m opts = .returned false m1 t1) :
    m1 = m ∧ op_calls t1 = [] ∧
    ∀ fuel2, adapt E fuel2 m1 opts = .returned false m1 t1 := by
  obtain ⟨hp, hm⟩ := adapt_returned_false E fuel m opts m1 t1 h
  subst hm
  exact ⟨rfl, (pre_adapt_ok E m1 opts false t1 hp).2,
    fun fuel2 => adapt_of_pre_adapt_false E fuel2 m1 opts t1 hp⟩

/-- Witness for C4 on `boundary_mesh`. -/
theorem adapt_false_idempotent_witness :
    adapt toy_env 1 boundary_mesh sample_opts =
      .returned false boundary_mesh (adapt toy_env 1 boundary_mesh sample_opts).trace ∧
    boundary_mesh = boundary_mesh ∧
    op_calls (adapt toy_env 1 boundary_mesh sample_opts).trace = [] ∧
    ∀ fuel2, adapt toy_env fuel2 boundary_mesh sample_opts =
      .returned false boundary_mesh (adapt toy_env 1 boundary_mesh sample_opts).trace :=
  ⟨by with_unfolding_all rfl,
   adapt_false_idempotent toy_env 1 boundary_mesh sample_opts boundary_mesh _
     (by with_unfolding_all rfl)⟩

/-! ### The two loops -/

theorem range_succ_flatMap {α : Type} (n : Nat) (f : Nat → List α) :
    (List.range (n + 1)).flatMap f = f 0 ++ (List.range n).flatMap (fun i => f (i + 1)) := by
  rw [List.range_succ_eq_map, List.flatMap_cons, List.flatMap_map]

theorem lengths_pass_op_calls (E : Env M) (opts : AdaptOpts) (m : M) :
    op_calls (lengths_pass E opts m).2.2 = lengths_pass_calls E opts m := by
  unfold lengths_pass lengths_pass_calls
  simp only [op_calls_append, op_calls_call, op_calls_nil]
  split_ifs <;> simp

theorem lengths_pass_quiet_iff (E : Env M) (opts : AdaptOpts) (m : M) :
    (lengths_pass E opts m).1 = false ↔ ∀ c ∈ lengths_pass_calls E opts m, c.2 = false := by
  unfold lengths_pass lengths_pass_calls
  simp

theorem lengths_pass_busy_iff (E : Env M) (opts : AdaptOpts) (m : M) :
    (lengths_pass E opts m).1 = true ↔ ∃ c ∈ lengths_pass_calls E opts m, c.2 = true := by
  unfold lengths_pass lengths_pass_calls
  simp

theorem satisfy_lengths_some (E : Env M) (opts : AdaptOpts) :
    ∀ (fuel : Nat) (m m' : M) (t : List Event),
      satisfy_lengths E opts fuel m = some (m', t) →
      ∃ n, n < fuel ∧ m' = lengths_state E opts (n + 1) m ∧
        op_calls t = (List.range (n + 1)).flatMap
          (fun i => lengths_pass_calls E opts (lengths_state E opts i m)) ∧
        (∀ i, i < n → (lengths_pass E opts (lengths_state E opts i m)).1 = true) ∧
        (lengths_pass E opts (lengths_state E opts n m)).1 = false := by
  intro fuel
  induction fuel with
  | zero => intro m m' t h; cases h
  | succ fuel ih =>
    intro m m' t h
    unfold satisfy_lengths at h
    simp only at h
    by_cases hp : (lengths_pass E opts m).1 = true
    · rw [if_pos hp] at h
      cases h1 : satisfy_lengths E opts fuel (lengths_pass E opts m).2.1 with
      | none => rw [h1] at h; cases h
      | some r =>
        obtain ⟨m1, t1⟩ := r
        rw [h1] at h
        simp only [Option.some.injEq, Prod.mk.injEq] at h
        obtain ⟨hm, ht⟩ := h
        subst hm ht
        obtain ⟨n, hn, hm1, hc, hbusy, hquiet⟩ := ih _ _ _ h1
        refine ⟨n + 1, by omega, hm1, ?_, ?_, hquiet⟩
        · rw [range_succ_flatMap, op_calls_append, lengths_pass_op_calls, hc]
          rfl
        · intro i hi
          cases i with
          | zero => exact hp
          | succ i => exact hbusy i (by omega)
    · rw [if_neg hp] at h
      simp only [Option.some.injEq, Prod.mk.injEq] at h
      obtain ⟨hm, ht⟩ := h
      subst hm ht
      refine ⟨0, by omega, rfl, ?_, ?_, ?_⟩
      · rw [lengths_pass_op_calls]
        simp [List.range_succ, lengths_state]
      · intro i hi
        omega
      · simpa using hp

theorem satisfy_lengths_returns (E : Env M) (opts : AdaptOpts) :
    ∀ (n : Nat) (m : M), (lengths_pass E opts (lengths_state E opts n m)).1 = false →
      ∀ fuel, n < fuel → (satisfy_lengths E opts fuel m).isSome = true := by
  intro n
  induction n with
  | zero =>
    intro m hq fuel hf
    obtain ⟨f, rfl⟩ : ∃ f, fuel = f + 1 := ⟨fuel - 1, by omega⟩
    unfold satisfy_lengths
    have hq' : ¬ (lengths_pass E opts m).1 = true := by
      simpa [lengths_state] using hq
    simp only [if_neg hq']
    rfl
  | succ n ih =>
    intro m hq fuel hf
    obtain ⟨f, rfl⟩ : ∃ f, fuel = f + 1 := ⟨fuel - 1, by omega⟩
    unfold satisfy_lengths
    simp only
    by_cases hp : (lengths_pass E opts m).1 = true
    · rw [if_pos hp]
      have h1 := ih (lengths_pass E opts m).2.1 hq f (by omega)
      cases h2 : satisfy_lengths E opts f (lengths_pass E opts m).2.1 with
      | none => rw [h2] at h1; cases h1
      | some r => rfl
    · rw [if_neg hp]
      rfl

theorem length_flatMap_pairs {α : Type} (f : Nat → List α) (h : ∀ i, (f i).length = 2) :
    ∀ n, ((List.range n).flatMap f).length = 2 * n := by
  intro n
  induction n with
  | zero => rfl
  | succ n ih =>
    rw [List.range_succ, List.flatMap_append, List.length_append, ih, List.flatMap_singleton, h]
    omega

/-- Claim C8: a run of `satisfy_lengths` that returns consists of `n + 1 >= 1`
passes; pass `i` calls `refine_by_size` on the current mesh and then
`coarsen_by_size` on the mesh `refine_by_size` left, once each, whatever the
first call returned; in every pass before the last some call returned true,
and in the last pass both returned false.  Conversely, as soon as some pass
would see both calls return false, the loop returns (given fuel for that many
passes). -/
theorem satisfy_lengths_passes (E : Env M) (opts : AdaptOpts) (m : M) :
    (∀ fuel m' t, satisfy_lengths E opts fuel m = some (m', t) →
      ∃ n, n < fuel ∧ m' = lengths_state E opts (n + 1) m ∧
        op_calls t = (List.range (n + 1)).flatMap
          (fun i =>
            [(Operator.refine_by_size, (E.refine_by_size (lengths_state E opts i m) opts).1),
             (Operator.coarsen_by_size,
               (E.coarsen_by_size
                 (E.refine_by_size (lengths_state E opts i m) opts).2 opts).1)]) ∧
        (∀ i, i < n → ∃ c ∈ lengths_pass_calls E opts (lengths_state E opts i m), c.2 = true) ∧
        (∀ c ∈ lengths_pass_calls E opts (lengths_state E opts n m), c.2 = false)) ∧
    (∀ n, (∀ c ∈ lengths_pass_calls E opts (lengths_state E opts n m), c.2 = false) →
      ∀ fuel, n < fuel → (satisfy_lengths E opts fuel m).isSome = true) := by
  constructor
  · intro fuel m' t h
    obtain ⟨n, hn, hm, hc, hbusy, hquiet⟩ := satisfy_lengths_some E opts fuel m m' t h
    refine ⟨n, hn, hm, hc, ?_, ?_⟩
    · intro i hi
      exact (lengths_pass_busy_iff E opts _).mp (hbusy i hi)
    · exact (lengths_pass_quiet_iff E opts _).mp hquiet
  · intro n hq fuel hf
    exact satisfy_lengths_returns E opts n m ((lengths_pass_quiet_iff E opts _).mpr hq) fuel hf

/-- Witness for C8: on `long_mesh` the third pass is the first in which both
calls return false, and the loop makes exactly three passes. -/
theorem satisfy_lengths_passes_witness :
    (satisfy_lengths toy_env sample_opts 3 long_mesh).isSome = true ∧
    (satisfy_lengths toy_env sample_opts 3 long_mesh).map (fun r => op_calls r.2) =
      some [(.refine_by_size, true), (.coarsen_by_size, false),
            (.refine_by_size, true), (.coarsen_by_size, false),
            (.refine_by_size, false), (.coarsen_by_size, false)] :=
  ⟨(satisfy_lengths_passes toy_env sample_opts long_mesh).2 2 (by decide!) 3 (by decide),
   by decide!⟩

theorem lengths_pass_measure (E : Env M) (opts : AdaptOpts) (μ : M → Nat)
    (hr : ∀ m, (E.refine_by_size m opts).1 = true → μ (E.refine_by_size m opts).2 < μ m)
    (hr0 : ∀ m, (E.refine_by_size m opts).1 = false → μ (E.refine_by_size m opts).2 = μ m)
    (hc : ∀ m, (E.coarsen_by_size m opts).1 = true → μ (E.coarsen_by_size m opts).2 < μ m)
    (hc0 : ∀ m, (E.coarsen_by_size m opts).1 = false → μ (E.coarsen_by_size m opts).2 = μ m)
    (m : M) (hp : (lengths_pass E opts m).1 = true) :
    μ (lengths_pass E opts m).2.1 < μ m := by
  unfold lengths_pass at hp ⊢
  simp only [Bool.or_eq_true] at hp
  simp only
  cases h1 : (E.refine_by_size m opts).1 <;>
    cases h2 : (E.coarsen_by_size (E.refine_by_size m opts).2 opts).1
  · rw [h1, h2] at hp
    simp at hp
  · have a := hr0 m h1
    have b := hc _ h2
    omega
  · have a := hr m h1
    have b := hc0 _ h2
    omega
  · have a := hr m h1
    have b := hc _ h2
    omega

theorem satisfy_lengths_bounded (E : Env M) (opts : AdaptOpts) (μ : M → Nat)
    (hr : ∀ m, (E.refine_by_size m opts).1 = true → μ (E.refine_by_size m opts).2 < μ m)
    (hr0 : ∀ m, (E.refine_by_size m opts).1 = false → μ (E.refine_by_size m opts).2 = μ m)
    (hc : ∀ m, (E.coarsen_by_size m opts).1 = true → μ (E.coarsen_by_size m opts).2 < μ m)
    (hc0 : ∀ m, (E.coarsen_by_size m opts).1 = false → μ (E.coarsen_by_size m opts).2 = μ m) :
    ∀ (k : Nat) (m : M), μ m ≤ k →
      ∃ n, n ≤ k ∧ (lengths_pass E opts (lengths_state E opts n m)).1 = false := by
  intro k
  induction k with
  | zero =>
    intro m hm
    refine ⟨0, le_refl 0, ?_⟩
    cases hp : (lengths_pass E opts (lengths_state E opts 0 m)).1
    · rfl
    · have := lengths_pass_measure E opts μ hr hr0 hc hc0 m hp
      omega
  | succ k ih =>
    intro m hm
    cases hp : (lengths_pass E opts m).1
    · exact ⟨0, by omega, hp⟩
    · have hlt := lengths_pass_measure E opts μ hr hr0 hc hc0 m hp
      obtain ⟨n, hn, hq⟩ := ih (lengths_pass E opts m).2.1 (by omega)
      exact ⟨n + 1, by omega, hq⟩

/-- Claim C9: if every `refine_by_size` / `coarsen_by_size` call that returns
true strictly decreases a natural-number measure of the mesh and every call
that returns false leaves it unchanged, then `satisfy_lengths` returns as soon
as the fuel exceeds the initial measure, after `n + 1` passes with
`n + 1 <= initial measure + 1`. -/
theorem satisfy_lengths_terminates (E : Env M) (opts : AdaptOpts) (μ : M → Nat)
    (hr : ∀ m, (E.refine_by_size m opts).1 = true → μ (E.refine_by_size m opts).2 < μ m)
    (hr0 : ∀ m, (E.refine_by_size m opts).1 = false → μ (E.refine_by_size m opts).2 = μ m)
    (hc : ∀ m, (E.coarsen_by_size m opts).1 = true → μ (E.coarsen_by_size m opts).2 < μ m)
    (hc0 : ∀ m, (E.coarsen_by_size m opts).1 = false → μ (E.coarsen_by_size m opts).2 = μ m)
    (m : M) (fuel : Nat) (hf : μ m < fuel) :
    ∃ m' t n, satisfy_lengths E opts fuel m = some (m', t) ∧
      n + 1 ≤ μ m + 1 ∧ m' = lengths_state E opts (n + 1) m ∧
      (op_calls t).length = 2 * (n + 1) := by
  obtain ⟨k, hk, hq⟩ := satisfy_lengths_bounded E opts μ hr hr0 hc hc0 (μ m) m (le_refl _)
  have hsome := satisfy_lengths_returns E opts k m hq fuel (by omega)
  cases h : satisfy_lengths E opts fuel m with
  | none => rw [h] at hsome; cases hsome
  | some r =>
    obtain ⟨m', t⟩ := r
    obtain ⟨n, hn, hm, hcalls, hbusy, hquiet⟩ := satisfy_lengths_some E opts fuel m m' t h
    have hnk : n ≤ k := by
      by_contra hlt
      have := hbusy k (by omega)
      rw [hq] at this
      cases this
    refine ⟨m', t, n, rfl, by omega, hm, ?_⟩
    rw [hcalls]
    exact length_flatMap_pairs
      (fun i => lengths_pass_calls E opts (lengths_state E opts i m)) (fun _ => rfl) (n + 1)

/-- Witness for C9: on `toy_env` the number of edges `refine_by_size` can still
split is such a measure; `long_mesh` has measure 2 and fuel 3 suffices. -/
theorem satisfy_lengths_terminates_witness :
    ∃ m' t n, satisfy_lengths toy_env sample_opts 3 long_mesh = some (m', t) ∧
      n + 1 ≤ long_mesh.splittable + 1 ∧
      m' = lengths_state toy_env sample_opts (n + 1) long_mesh ∧
      (op_calls t).length = 2 * (n + 1) :=
  satisfy_lengths_terminates toy_env sample_opts (fun m => m.splittable)
    (fun m h => by
      cases hs : m.splittable with
      | zero => simp [toy_env, hs] at h
      | succ k => simp [toy_env, hs])
    (fun m h => by
      cases hs : m.splittable with
      | zero => simp [toy_env, hs]
      | succ k => simp [toy_env, hs] at h)
    (fun m h => by simp [toy_env] at h)
    (fun m _ => rfl)
    long_mesh 3 (by decide)

theorem quality_pass_op_calls (E : Env M) (opts : AdaptOpts) (m : M) :
    op_calls (quality_pass E opts m).2.2 = quality_pass_calls E opts m := by
  unfold quality_pass quality_pass_calls
  by_cases hs : (E.swap_edges m opts).1 = true
  · simp [hs]
  · by_cases hc : (E.coarsen_slivers (E.swap_edges m opts).2 opts).1 = true
    · simp [hs, hc]
    · rw [Bool.not_eq_true] at hs hc
      simp only [hs, hc, Bool.false_eq_true, if_false, op_calls_append, op_calls_call,
        op_calls_nil]
      split_ifs <;> simp

theorem quality_pass_gave_up_iff (E : Env M) (opts : AdaptOpts) (m : M) :
    (quality_pass E opts m).1 = .gave_up ↔ ∀ c ∈ quality_pass_calls E opts m, c.2 = false := by
  unfold quality_pass quality_pass_calls
  by_cases hs : (E.swap_edges m opts).1 = true
  · simp [hs]
  · by_cases hc : (E.coarsen_slivers (E.swap_edges m opts).2 opts).1 = true
    · simp [hs, hc]
    · simp [hs, hc]

theorem quality_pass_progress_iff (E : Env M) (opts : AdaptOpts) (m : M) :
    (quality_pass E opts m).1 ≠ .gave_up ↔ ∃ c ∈ quality_pass_calls E opts m, c.2 = true := by
  unfold quality_pass quality_pass_calls
  by_cases hs : (E.swap_edges m opts).1 = true
  · simp [hs]
  · by_cases hc : (E.coarsen_slivers (E.swap_edges m opts).2 opts).1 = true
    · simp [hs, hc]
    · simp [hs, hc]

theorem quality_loop_succ (E : Env M) (opts : AdaptOpts) (fuel : Nat) (m : M) :
    quality_loop E opts (fuel + 1) m =
      if (quality_pass E opts m).1 = .gave_up then
        some ((quality_pass E opts m).2.1, (quality_pass E opts m).2.2)
      else if E.min_quality (quality_pass E opts m).2.1 < opts.min_quality_desired then
        match quality_loop E opts fuel (quality_pass E opts m).2.1 with
        | none => none
        | some (m', t) =>
          some (m', (quality_pass E opts m).2.2 ++ [Event.collective .min_quality] ++ t)
      else
        some ((quality_pass E opts m).2.1,
          (quality_pass E opts m).2.2 ++ [Event.collective .min_quality]) := by
  rw [quality_loop]
  cases hk : (quality_pass E opts m).1 <;> simp

theorem quality_loop_some (E : Env M) (opts : AdaptOpts) :
    ∀ (fuel : Nat) (m m' : M) (t : List Event),
      quality_loop E opts fuel m = some (m', t) →
      ∃ n, n < fuel ∧ m' = quality_state E opts (n + 1) m ∧
        op_calls t = (List.range (n + 1)).flatMap
          (fun i => quality_pass_calls E opts (quality_state E opts i m)) ∧
        (∀ i, i < n → (quality_pass E opts (quality_state E opts i m)).1 ≠ .gave_up ∧
          E.min_quality (quality_state E opts (i + 1) m) < opts.min_quality_desired) ∧
        ((quality_pass E opts (quality_state E opts n m)).1 = .gave_up ∨
          ((quality_pass E opts (quality_state E opts n m)).1 ≠ .gave_up ∧
            ¬ E.min_quality (quality_state E opts (n + 1) m) < opts.min_quality_desired)) := by
  intro fuel
  induction fuel with
  | zero => intro m m' t h; cases h
  | succ fuel ih =>
    intro m m' t h
    rw [quality_loop_succ] at h
    by_cases hg : (quality_pass E opts m).1 = .gave_up
    · rw [if_pos hg] at h
      simp only [Option.some.injEq, Prod.mk.injEq] at h
      obtain ⟨hm, ht⟩ := h
      subst hm ht
      refine ⟨0, by omega, rfl, ?_, ?_, Or.inl hg⟩
      · rw [quality_pass_op_calls]
        simp [List.range_succ, quality_state]
      · intro i hi
        omega
    · rw [if_neg hg] at h
      by_cases hq : E.min_quality (quality_pass E opts m).2.1 < opts.min_quality_desired
      · rw [if_pos hq] at h
        cases h1 : quality_loop E opts fuel (quality_pass E opts m).2.1 with
        | none => rw [h1] at h; cases h
        | some r =>
          obtain ⟨m1, t1⟩ := r
          rw [h1] at h
          simp only [Option.some.injEq, Prod.mk.injEq] at h
          obtain ⟨hm, ht⟩ := h
          subst hm ht
          obtain ⟨n, hn, hm1, hc, hbusy, hlast⟩ := ih _ _ _ h1
          refine ⟨n + 1, by omega, hm1, ?_, ?_, hlast⟩
          · rw [range_succ_flatMap]
            simp only [op_calls_append, op_calls_collective, op_calls_nil, List.append_nil]
            rw [quality_pass_op_calls, hc]
            rfl
          · intro i hi
            cases i with
            | zero => exact ⟨hg, hq⟩
            | succ i => exact hbusy i (by omega)
      · rw [if_neg hq] at h
        simp only [Option.some.injEq, Prod.mk.injEq] at h
        obtain ⟨hm, ht⟩ := h
        subst hm ht
        refine ⟨0, by omega, rfl, ?_, ?_, Or.inr ⟨hg, hq⟩⟩
        · simp only [op_calls_append, op_calls_collective, op_calls_nil, List.append_nil]
          rw [quality_pass_op_calls]
          simp [List.range_succ, quality_state]
        · intro i hi
          omega

theorem quality_loop_returns (E : Env M) (opts : AdaptOpts) :
    ∀ (n : Nat) (m : M),
      ((quality_pass E opts (quality_state E opts n m)).1 = .gave_up ∨
        ¬ E.min_quality (quality_state E opts (n + 1) m) < opts.min_quality_desired) →
      ∀ fuel, n < fuel → (quality_loop E opts fuel m).isSome = true := by
  intro n
  induction n with
  | zero =>
    intro m hstop fuel hf
    obtain ⟨f, rfl⟩ : ∃ f, fuel = f + 1 := ⟨fuel - 1, by omega⟩
    rw [quality_loop_succ]
    by_cases hg : (quality_pass E opts m).1 = .gave_up
    · rw [if_pos hg]; rfl
    · rw [if_neg hg]
      have hq : ¬ E.min_quality (quality_pass E opts m).2.1 < opts.min_quality_desired := by
        rcases hstop with h | h
        · exact absurd h hg
        · exact h
      rw [if_neg hq]; rfl
  | succ n ih =>
    intro m hstop fuel hf
    obtain ⟨f, rfl⟩ : ∃ f, fuel = f + 1 := ⟨fuel - 1, by omega⟩
    rw [quality_loop_succ]
    by_cases hg : (quality_pass E opts m).1 = .gave_up
    · rw [if_pos hg]; rfl
    · rw [if_neg hg]
      by_cases hq : E.min_quality (quality_pass E opts m).2.1 < opts.min_quality_desired
      · rw [if_pos hq]
        have h1 := ih (quality_pass E opts m).2.1 hstop f (by omega)
        cases h2 : quality_loop E opts f (quality_pass E opts m).2.1 with
        | none => rw [h2] at h1; cases h1
        | some r => rfl
      · rw [if_neg hq]; rfl

theorem satisfy_quality_entered (E : Env M) (opts : AdaptOpts) (fuel : Nat) (m : M)
    (hq : E.min_quality m < opts.min_quality_desired) :
    ∃ t0, op_calls t0 = [] ∧
      satisfy_quality E opts fuel m =
        match quality_loop E opts fuel m with
        | none => none
        | some (m', t) => some (m', t0 ++ t) := by
  unfold satisfy_quality
  rw [if_neg (not_le.mpr hq)]
  refine ⟨_, ?_, rfl⟩
  simp only [op_calls_append, op_calls_collective, op_calls_nil, List.nil_append]
  split_ifs <;> simp

/-- Claim C10: a run of `satisfy_quality` entered with
`min_quality < min_quality_desired` that returns consists of `n + 1 >= 1`
iterations; iteration `i` calls `swap_edges`, and `coarsen_slivers` exactly
when `swap_edges` returned false; after every iteration before the last some
operator had returned true and the minimum quality was still below
`min_quality_desired`; the last iteration either saw both operators return
false, or saw one return true with the minimum quality then at least
`min_quality_desired`.  Conversely the loop returns as soon as either
condition occurs (given fuel for that many iterations). -/
theorem satisfy_quality_iterations (E : Env M) (opts : AdaptOpts) (m : M)
    (hq : E.min_quality m < opts.min_quality_desired) :
    (∀ fuel m' t, satisfy_quality E opts fuel m = some (m', t) →
      ∃ n, n < fuel ∧ m' = quality_state E opts (n + 1) m ∧
        op_calls t = (List.range (n + 1)).flatMap
          (fun i => quality_pass_calls E opts (quality_state E opts i m)) ∧
        (∀ i, i < n →
          (∃ c ∈ quality_pass_calls E opts (quality_state E opts i m), c.2 = true) ∧
          E.min_quality (quality_state E opts (i + 1) m) < opts.min_quality_desired) ∧
        ((∀ c ∈ quality_pass_calls E opts (quality_state E opts n m), c.2 = false) ∨
          ((∃ c ∈ quality_pass_calls E opts (quality_state E opts n m), c.2 = true) ∧
            E.min_quality m' ≥ opts.min_quality_desired))) ∧
    (∀ n, ((∀ c ∈ quality_pass_calls E opts (quality_state E opts n m), c.2 = false) ∨
        E.min_quality (quality_state E opts (n + 1) m) ≥ opts.min_quality_desired) →
      ∀ fuel, n < fuel → (satisfy_quality E opts fuel m).isSome = true) := by
  constructor
  · intro fuel m' t h
    obtain ⟨t0, ht0, heq⟩ := satisfy_quality_entered E opts fuel m hq
    rw [heq] at h
    cases h1 : quality_loop E opts fuel m with
    | none => rw [h1] at h; cases h
    | some r =>
      obtain ⟨m1, t1⟩ := r
      rw [h1] at h
      simp only [Option.some.injEq, Prod.mk.injEq] at h
      obtain ⟨hm, ht⟩ := h
      subst hm ht
      obtain ⟨n, hn, hm1, hc, hbusy, hlast⟩ := quality_loop_some E opts fuel m m1 t1 h1
      refine ⟨n, hn, hm1, ?_, ?_, ?_⟩
      · rw [op_calls_append, ht0, List.nil_append, hc]
      · intro i hi
        exact ⟨(quality_pass_progress_iff E opts _).mp (hbusy i hi).1, (hbusy i hi).2⟩
      · rcases hlast with hg | ⟨hg, hx⟩
        · exact Or.inl ((quality_pass_gave_up_iff E opts _).mp hg)
        · refine Or.inr ⟨(quality_pass_progress_iff E opts _).mp hg, ?_⟩
          rw [hm1]
          exact not_lt.mp hx
  · intro n hstop fuel hf
    obtain ⟨t0, -, heq⟩ := satisfy_quality_entered E opts fuel m hq
    have h1 := quality_loop_returns E opts n m
      (hstop.imp (quality_pass_gave_up_iff E opts _).mpr not_lt.mpr) fuel hf
    rw [heq]
    cases h2 : quality_loop E opts fuel m with
    | none => rw [h2] at h1; cases h1
    | some r => rfl

/-- Witness for C10: on `long_mesh` two swaps bring the quality to `1/2`; on
`stuck_mesh` the first iteration gives up. -/
theorem satisfy_quality_iterations_witness :
    toy_env.min_quality long_mesh < sample_opts.min_quality_desired ∧
    (satisfy_quality toy_env sample_opts 2 long_mesh).isSome = true ∧
    (satisfy_quality toy_env sample_opts 2 long_mesh).map (fun r => op_calls r.2) =
      some [(.swap_edges, true), (.swap_edges, true)] ∧
    (satisfy_quality toy_env sample_opts 1 stuck_mesh).map (fun r => op_calls r.2) =
      some [(.swap_edges, false), (.coarsen_slivers, false)] :=
  ⟨by decide!,
   (satisfy_quality_iterations toy_env sample_opts long_mesh (by decide!)).2 1
     (Or.inr (by decide!)) 2 (by decide),
   by decide!, by decide!⟩

end ControllerProofs

end Omega_h

/-! ## Theorems: the split-quality evaluator -/

namespace Omega_h

section EvaluatorProofs

theorem mapM_option_cons {α β : Type} (f : α → Option β) (a : α) (l : List α) :
    (a :: l).mapM f =
      match f a with
      | none => none
      | some b =>
        match l.mapM f with
        | none => none
        | some bs => some (b :: bs) := by
  rw [List.mapM_cons]
  cases f a with
  | none => rfl
  | some b =>
    cases l.mapM f with
    | none => rfl
    | some bs => rfl

theorem mapM_option_iff {α β : Type} (f : α → Option β) :
    ∀ (l : List α) (q : List β),
      l.mapM f = some q ↔ List.Forall₂ (fun a b => f a = some b) l q := by
  intro l
  induction l with
  | nil =>
    intro q
    rw [List.mapM_nil]
    constructor
    · intro h
      cases h
      exact List.Forall₂.nil
    · intro h
      cases h
      rfl
  | cons a l ih =>
    intro q
    rw [mapM_option_cons, List.forall₂_cons_left_iff]
    constructor
    · intro h
      cases hfa : f a with
      | none => rw [hfa] at h; cases h
      | some b =>
        rw [hfa] at h
        cases hl : l.mapM f with
        | none => rw [hl] at h; cases h
        | some bs =>
          rw [hl] at h
          cases h
          exact ⟨b, bs, rfl, (ih bs).mp hl, rfl⟩
    · rintro ⟨b, bs, hfa, hl, rfl⟩
      rw [hfa, (ih bs).mpr hl]

theorem min2_eq_min (a b : ℚ) : min2 a b = min a b := by
  unfold min2
  split_ifs with h
  · exact (min_eq_right (le_of_lt h)).symm
  · exact (min_eq_left (not_lt.mp h)).symm

theorem foldl_min2_le_acc (l : List ℚ) : ∀ acc, l.foldl min2 acc ≤ acc := by
  induction l with
  | nil => intro acc; exact le_refl _
  | cons q l ih =>
    intro acc
    rw [List.foldl_cons]
    exact le_trans (ih _) (by rw [min2_eq_min]; exact min_le_left _ _)

theorem foldl_min2_le_mem (l : List ℚ) : ∀ acc, ∀ q ∈ l, l.foldl min2 acc ≤ q := by
  induction l with
  | nil => intro acc q hq; cases hq
  | cons x l ih =>
    intro acc q hq
    rw [List.foldl_cons]
    rcases List.mem_cons.mp hq with rfl | hq
    · exact le_trans (foldl_min2_le_acc l _) (by rw [min2_eq_min]; exact min_le_right _ _)
    · exact ih _ q hq

theorem foldl_min2_mem (l : List ℚ) : ∀ acc, l.foldl min2 acc = acc ∨ l.foldl min2 acc ∈ l := by
  induction l with
  | nil => intro acc; exact Or.inl rfl
  | cons x l ih =>
    intro acc
    rw [List.foldl_cons]
    rcases ih (min2 acc x) with h | h
    · rw [h]
      unfold min2
      split_ifs
      · exact Or.inr (List.mem_cons_self _ _)
      · exact Or.inl rfl
    · exact Or.inr (List.mem_cons_of_mem _ h)

/-- The running minimum of `cell_loop` over `n` uses starting at `ec`: it
returns exactly when every `cqual` of those uses is available, and then it is
the left fold of `min2` over them, in loop order. -/
theorem cell_loop_iff (q : Nat → Nat → Option ℚ) :
    ∀ (n ec : Nat) (acc v : ℚ),
      cell_loop q n ec acc = some v ↔
        ∃ quals, List.Forall₂ (fun p x => q p.1 p.2 = some x)
            ((List.range' ec n).flatMap (fun e => [(e, 0), (e, 1)])) quals ∧
          v = quals.foldl min2 acc := by
  intro n
  induction n with
  | zero =>
    intro ec acc v
    simp only [cell_loop, List.range'_zero, List.flatMap_nil, List.forall₂_nil_left_iff]
    constructor
    · intro h
      cases h
      exact ⟨[], rfl, rfl⟩
    · rintro ⟨quals, rfl, rfl⟩
      rfl
  | succ n ih =>
    intro ec acc v
    rw [cell_loop, List.range'_succ, List.flatMap_cons]
    simp only [List.cons_append, List.nil_append, List.forall₂_cons_left_iff]
    constructor
    · intro h
      cases h0 : q ec 0 with
      | none => rw [h0] at h; cases h
      | some q0 =>
        rw [h0] at h
        cases h1 : q ec 1 with
        | none => rw [h1] at h; cases h
        | some q1 =>
          rw [h1] at h
          obtain ⟨quals, hf, hv⟩ := (ih _ _ _).mp h
          exact ⟨q0 :: q1 :: quals, ⟨q0, q1 :: quals, rfl, ⟨q1, quals, rfl, hf, rfl⟩, rfl⟩, hv⟩
    · rintro ⟨quals, ⟨q0, rest, h0, ⟨q1, quals', h1, hf, rfl⟩, rfl⟩, hv⟩
      rw [h0, h1]
      exact (ih _ _ _).mpr ⟨quals', hf, hv⟩

theorem candidate_quality_eq (K : Simplices) (A : MeshArrays) (measure : Measure)
    (candidates : List LO) (cand : Nat) (e : LO) (midp : Vector) (lo hi : Nat)
    (hc : candidates[cand]? = some e) (hm : edge_midpoint K A e = some midp)
    (hlo : A.e2ec[e]? = some lo) (hhi : A.e2ec[e + 1]? = some hi) :
    candidate_quality K A measure candidates cand =
      cell_loop (cqual K A measure cand midp) (hi - lo) lo 1 := by
  unfold candidate_quality
  rw [hc]
  simp only
  rw [hm]
  simp only
  rw [hlo, hhi]

theorem uses_of_some (A : MeshArrays) (e : LO) (uses : List Nat)
    (hu : uses_of A e = some uses) :
    ∃ lo hi, A.e2ec[e]? = some lo ∧ A.e2ec[e + 1]? = some hi ∧
      uses = List.range' lo (hi - lo) := by
  unfold uses_of at hu
  cases hlo : A.e2ec[e]? with
  | none => rw [hlo] at hu; cases hu
  | some lo =>
    cases hhi : A.e2ec[e + 1]? with
    | none => rw [hlo, hhi] at hu; cases hu
    | some hi =>
      rw [hlo, hhi] at hu
      cases hu
      exact ⟨lo, hi, rfl, rfl, rfl⟩

theorem length_flatMap_two {α β : Type} (f : α → List β) (h : ∀ a, (f a).length = 2) :
    ∀ l : List α, (l.flatMap f).length = 2 * l.length := by
  intro l
  induction l with
  | nil => rfl
  | cons a l ih =>
    rw [List.flatMap_cons, List.length_append, ih, h, List.length_cons]
    omega

theorem le_foldl_max {β : Type} (g : β → ℚ) (l : List β) :
    ∀ acc : ℚ, acc ≤ l.foldl (fun a o => max a (g o)) acc := by
  induction l with
  | nil => intro acc; exact le_refl _
  | cons x l ih =>
    intro acc
    rw [List.foldl_cons]
    exact le_trans (le_max_left _ _) (ih _)

theorem cand_quals_getElem (K : Simplices) (A : MeshArrays) (measure : Measure)
    (candidates : List LO) (q : List ℚ) (h : cand_quals K A measure candidates = some q)
    (cand : Nat) (hlt : cand < candidates.length) :
    q.length = candidates.length ∧
    candidate_quality K A measure candidates cand = q[cand]? := by
  unfold cand_quals at h
  rw [mapM_option_iff, List.forall₂_iff_get] at h
  obtain ⟨hlen, hget⟩ := h
  rw [List.length_range] at hlen
  have hq : cand < q.length := by omega
  have := hget cand (by rw [List.length_range]; exact hlt) hq
  simp only [List.get_eq_getElem, List.getElem_range] at this
  exact ⟨hlen.symm, by rw [this, List.getElem?_eq_getElem hq]⟩

theorem sync_subset_array_getElem (a_data : List ℚ) (d : ℚ) (others : List (List (Option ℚ)))
    (i : Nat) (a : ℚ) (h : a_data[i]? = some a) :
    (sync_subset_array a_data d others)[i]? =
      some (others.foldl (fun acc o => max acc ((o.getD i none).getD d)) a) := by
  have hi : i < a_data.length := by
    by_contra hge
    rw [List.getElem?_eq_none (by omega)] at h
    cases h
  unfold sync_subset_array
  rw [List.getElem?_zipWith, List.getElem?_range hi, h]

/-- Claim C5, as the code has it: for a candidate edge with no incident cell
whose endpoints can be read, the lambda of `refine_qualities_tmpl` does not
fault and writes `1.0`, the initial value of the running minimum; after the
cross-rank reconciliation the value is still at least `1` (exactly `1` when no
other rank contributes), hence never the default `-1`. -/
theorem no_cells_quality_is_one (K : Simplices) (A : MeshArrays) (measure : Measure)
    (candidates : List LO) (cand : Nat) (e : LO) (midp : Vector)
    (hc : candidates[cand]? = some e) (hm : edge_midpoint K A e = some midp)
    (hu : uses_of A e = some []) :
    candidate_quality K A measure candidates cand = some 1 ∧
    ∀ others out, refine_qualities_tmpl K A measure candidates others = some out →
      ∃ v, out[cand]? = some v ∧ 1 ≤ v ∧ v ≠ -1 ∧ (others = [] → v = 1) := by
  obtain ⟨lo, hi, hlo, hhi, hr⟩ := uses_of_some A e [] hu
  have hz : hi - lo = 0 := by
    have := congrArg List.length hr
    simpa using this.symm
  have h1 : candidate_quality K A measure candidates cand = some 1 := by
    rw [candidate_quality_eq K A measure candidates cand e midp lo hi hc hm hlo hhi, hz]
    rfl
  refine ⟨h1, ?_⟩
  intro others out hout
  unfold refine_qualities_tmpl at hout
  cases hq : cand_quals K A measure candidates with
  | none => rw [hq] at hout; cases hout
  | some q =>
    rw [hq] at hout
    cases hout
    have hlt : cand < candidates.length := by
      by_contra hge
      rw [List.getElem?_eq_none (by omega)] at hc
      cases hc
    obtain ⟨-, hget⟩ := cand_quals_getElem K A measure candidates q hq cand hlt
    rw [h1] at hget
    have hge := le_foldl_max (fun o : List (Option ℚ) => (o.getD cand none).getD (-1)) others 1
    refine ⟨_, sync_subset_array_getElem q (-1) others cand 1 hget.symm, hge, ?_, ?_⟩
    · intro hneg
      rw [hneg] at hge
      norm_num at hge
    · intro ho
      rw [ho]
      rfl

/-- Witness for C5 on `lone_edge`. -/
theorem no_cells_quality_is_one_witness :
    uses_of lone_edge 0 = some [] ∧
    candidate_quality triangle_simplices lone_edge (RealRefineQualities.measure signed_area2)
      [0] 0 = some 1 :=
  ⟨by decide!,
   (no_cells_quality_is_one triangle_simplices lone_edge
      (RealRefineQualities.measure signed_area2) [0] 0 0 [1 / 2, 0]
      (by decide!) (by decide!) (by decide!)).1⟩

/-- Claim C5 fails as stated: on `lone_edge` the candidate has no incident
cell, `refine_qualities_tmpl` does not fault, and the value it produces is `1`,
not `-1`. -/
theorem no_cells_quality_is_not_sentinel :
    uses_of lone_edge 0 = some [] ∧
    refine_qualities_tmpl triangle_simplices lone_edge
      (RealRefineQualities.measure signed_area2) [0] [] = some [1] ∧
    refine_qualities_tmpl triangle_simplices lone_edge
      (RealRefineQualities.measure signed_area2) [0] [] ≠ some [-1] := by
  decide!

/-- Claim C6: for a candidate edge `e` with `k` uses by cells, whose endpoints
can be read, the value written for `e` is computed from exactly `2k` values of
`measure`, one per pair (use, endpoint 0 or 1): it is at most 1 and at most
each of them, and it is one of them (so their minimum) when `k >= 1` and each
is at most 1; the value is written whenever all `2k` evaluations succeed. -/
theorem candidate_quality_is_min (K : Simplices) (A : MeshArrays) (measure : Measure)
    (candidates : List LO) (cand : Nat) (e : LO) (midp : Vector) (uses : List Nat)
    (hc : candidates[cand]? = some e) (hm : edge_midpoint K A e = some midp)
    (hu : uses_of A e = some uses) :
    (∀ v, candidate_quality K A measure candidates cand = some v →
      ∃ quals, List.Forall₂ (fun p q => cqual K A measure cand midp p.1 p.2 = some q)
          (uses.flatMap (fun ec => [(ec, 0), (ec, 1)])) quals ∧
        quals.length = 2 * uses.length ∧ v ≤ 1 ∧ (∀ q ∈ quals, v ≤ q) ∧
        (1 ≤ uses.length → (∀ q ∈ quals, q ≤ 1) → v ∈ quals)) ∧
    (∀ quals, List.Forall₂ (fun p q => cqual K A measure cand midp p.1 p.2 = some q)
          (uses.flatMap (fun ec => [(ec, 0), (ec, 1)])) quals →
      ∃ v, candidate_quality K A measure candidates cand = some v) := by
  obtain ⟨lo, hi, hlo, hhi, rfl⟩ := uses_of_some A e uses hu
  rw [candidate_quality_eq K A measure candidates cand e midp lo hi hc hm hlo hhi]
  constructor
  · intro v hv
    obtain ⟨quals, hf, rfl⟩ := (cell_loop_iff _ _ _ _ _).mp hv
    have hlen : quals.length = 2 * (List.range' lo (hi - lo)).length := by
      rw [← hf.length_eq]
      exact length_flatMap_two (fun ec : Nat => [(ec, 0), (ec, 1)]) (fun _ => rfl) _
    refine ⟨quals, hf, hlen, foldl_min2_le_acc quals 1, foldl_min2_le_mem quals 1, ?_⟩
    intro hk hle
    rcases foldl_min2_mem quals 1 with h | h
    · cases quals with
      | nil =>
        rw [List.length_nil] at hlen
        omega
      | cons q0 rest =>
        have h0 : q0 ∈ q0 :: rest := List.mem_cons_self _ _
        have a := foldl_min2_le_mem (q0 :: rest) 1 q0 h0
        have b := hle q0 h0
        rw [h] at a
        have : q0 = 1 := le_antisymm b a
        rw [h, ← this]
        exact h0
    · exact h
  · intro quals hf
    exact ⟨_, (cell_loop_iff _ _ _ _ _).mpr ⟨quals, hf, rfl⟩⟩

/-- Witness for C6: edge 0 of `one_triangle` has one use; both new triangles
have signed area `1/4`, so the written value is `1/2`. -/
theorem candidate_quality_is_min_witness :
    candidate_quality triangle_simplices one_triangle
      (RealRefineQualities.measure signed_area2) [0, 1, 2] 0 = some (1 / 2) ∧
    ∃ quals : List ℚ, quals.length = 2 * 1 ∧ ∀ q ∈ quals, (1 / 2 : ℚ) ≤ q := by
  have hv : candidate_quality triangle_simplices one_triangle
      (RealRefineQualities.measure signed_area2) [0, 1, 2] 0 = some (1 / 2) := by decide!
  obtain ⟨quals, -, hlen, -, hle, -⟩ :=
    (candidate_quality_is_min triangle_simplices one_triangle
      (RealRefineQualities.measure signed_area2) [0, 1, 2] 0 0 [1 / 2, 0] [0]
      (by decide!) (by decide!) (by decide!)).1 _ hv
  exact ⟨hv, quals, hlen, hle⟩

theorem ms_some {Mat : Type} (get_symm : List ℚ → LO → Option Mat)
    (R : MetricRefineQualities) (cand : Nat) (csv2v : List LO) (l : List Mat)
    (h : R.ms get_symm cand csv2v = some l) :
    ∃ vs mid, List.Forall₂ (fun v t => get_symm R.vert_metrics v = some t) csv2v vs ∧
      get_symm R.midpt_metrics cand = some mid ∧ l = vs ++ [mid] := by
  unfold MetricRefineQualities.ms at h
  cases hv : csv2v.mapM (get_symm R.vert_metrics) with
  | none => rw [hv] at h; cases h
  | some vs =>
    rw [hv] at h
    cases hmid : get_symm R.midpt_metrics cand with
    | none => rw [hmid] at h; cases h
    | some mid =>
      rw [hmid] at h
      cases h
      exact ⟨vs, mid, (mapM_option_iff _ _ _).mp hv, rfl, rfl⟩

/-- Claim C7, as the code has it: for every new simplex evaluated for a
candidate under `MetricRefineQualities`, the tensors handed to
`maxdet_metric` are the vertex tensors of the entries of `csv2v`, the vertex
list of that simplex (the vertices of the side of the incident cell opposite
one endpoint), in order, followed by the midpoint tensor of the candidate;
the measured quality is `metric_element_quality` under their fusion. -/
theorem metric_measure_fuses_new_cell_vertices {Mat : Type} (K : Simplices) (A : MeshArrays)
    (Q : MetricKernel Mat) (R : MetricRefineQualities) (cand : Nat) (midp : Vector)
    (ec eev : Nat) (q : ℚ)
    (h : cqual K A (R.measure Q) cand midp ec eev = some q) :
    ∃ csv2v ncp vs mid, cell_of_use K A midp ec eev = some (csv2v, ncp) ∧
      List.Forall₂ (fun v t => Q.get_symm R.vert_metrics v = some t) csv2v vs ∧
      Q.get_symm R.midpt_metrics cand = some mid ∧
      R.ms Q.get_symm cand csv2v = some (vs ++ [mid]) ∧
      q = Q.metric_element_quality ncp (Q.maxdet_metric (vs ++ [mid])) := by
  unfold cqual at h
  cases hcell : cell_of_use K A midp ec eev with
  | none => rw [hcell] at h; cases h
  | some r =>
    obtain ⟨csv2v, ncp⟩ := r
    rw [hcell] at h
    simp only [MetricRefineQualities.measure] at h
    cases hms : R.ms Q.get_symm cand csv2v with
    | none => rw [hms] at h; cases h
    | some l =>
      rw [hms] at h
      cases h
      obtain ⟨vs, mid, hf, hmid, rfl⟩ := ms_some Q.get_symm R cand csv2v l hms
      exact ⟨csv2v, ncp, vs, mid, rfl, hf, hmid, hms, rfl⟩

/-- Witness for C7: the new triangle of `one_triangle` opposite endpoint 0 of
edge 0 has vertices 1 and 2; the fused tensor is the one of vertex 2. -/
theorem metric_measure_fuses_new_cell_vertices_witness :
    cqual triangle_simplices one_triangle (toy_metrics.measure toy_kernel) 0 [1 / 2, 0] 0 0 =
      some 2 ∧
    ∃ csv2v ncp vs mid,
      cell_of_use triangle_simplices one_triangle [1 / 2, 0] 0 0 = some (csv2v, ncp) ∧
      List.Forall₂ (fun v t => toy_kernel.get_symm toy_metrics.vert_metrics v = some t)
        csv2v vs ∧
      toy_kernel.get_symm toy_metrics.midpt_metrics 0 = some mid ∧
      toy_metrics.ms toy_kernel.get_symm 0 csv2v = some (vs ++ [mid]) ∧
      (2 : ℚ) = toy_kernel.metric_element_quality ncp (toy_kernel.maxdet_metric (vs ++ [mid])) :=
  ⟨by decide!,
   metric_measure_fuses_new_cell_vertices triangle_simplices one_triangle toy_kernel
     toy_metrics 0 [1 / 2, 0] 0 0 2 (by decide!)⟩

/-- Claim C7 fails as stated: for candidate edge 0 of `one_triangle`, with
endpoints 0 and 1, the new simplex opposite endpoint 0 has vertices 1 and 2, so
the fused tensors are those of vertices 1 and 2 and of the midpoint: the
tensor of vertex 2, which is not an endpoint, takes part and the tensor of
endpoint 0 does not; the two new simplices of the candidate fuse different
tensors and get different fused tensors. -/
theorem fused_tensors_are_not_the_endpoints :
    triangle_simplices.gather_verts 2 one_triangle.ev2v 0 = some [0, 1] ∧
    edge_midpoint triangle_simplices one_triangle 0 = some [1 / 2, 0] ∧
    get_symm2 toy_metrics.vert_metrics 0 = some [3, 0, 3] ∧
    get_symm2 toy_metrics.vert_metrics 1 = some [1, 0, 1] ∧
    get_symm2 toy_metrics.vert_metrics 2 = some [2, 0, 2] ∧
    (cell_of_use triangle_simplices one_triangle [1 / 2, 0] 0 0).map Prod.fst = some [1, 2] ∧
    toy_metrics.ms get_symm2 0 [1, 2] = some [[1, 0, 1], [2, 0, 2], [3 / 2, 0, 3 / 2]] ∧
    (cell_of_use triangle_simplices one_triangle [1 / 2, 0] 0 1).map Prod.fst = some [2, 0] ∧
    toy_metrics.ms get_symm2 0 [2, 0] = some [[2, 0, 2], [3, 0, 3], [3 / 2, 0, 3 / 2]] ∧
    toy_kernel.maxdet_metric [[1, 0, 1], [2, 0, 2], [3 / 2, 0, 3 / 2]] = [2, 0, 2] ∧
    toy_kernel.maxdet_metric [[2, 0, 2], [3, 0, 3], [3 / 2, 0, 3 / 2]] = [3, 0, 3] := by
  decide!

end EvaluatorProofs

end Omega_h

/-! ## Theorems: runs that differ in verbosity or rank -/

namespace Omega_h

section Coupling

variable {M : Type}

theorem validate_eq (E : Env M) (m : M) (opts : AdaptOpts) :
    validate E m opts =
      if opts.valid then .ok (validate_events E m opts) else .error [] := by
  by_cases hv : opts.valid
  · rw [if_pos hv]
    obtain ⟨h1, h2, h3, h4, h5⟩ := hv
    unfold validate validate_events
    simp only [h1, h2, h3, h4, h5, ge_iff_le, not_true_eq_false, if_false]
  · rw [if_neg hv]
    exact validate_error_of_not_valid E m opts hv

theorem pre_adapt_eq (E : Env M) (m : M) (opts : AdaptOpts) :
    pre_adapt E m opts =
      if opts.valid then .ok (!(adapt_check E m opts).1, pre_adapt_events E m opts)
      else .error [] := by
  unfold pre_adapt
  rw [validate_eq]
  by_cases hv : opts.valid
  · simp only [if_pos hv]
    unfold pre_adapt_events
    by_cases hc : (adapt_check E m opts).1 = true
    · simp only [hc, if_true, Bool.not_true, List.append_nil]
    · rw [Bool.not_eq_true] at hc
      simp only [hc, Bool.false_eq_true, if_false, Bool.not_false, List.append_assoc]
  · simp only [if_neg hv]

theorem satisfy_quality_eq (E : Env M) (opts : AdaptOpts) (fuel : Nat) (m : M) :
    satisfy_quality E opts fuel m =
      if E.min_quality m ≥ opts.min_quality_desired then
        some (m, [Event.collective .min_quality])
      else
        match quality_loop E opts fuel m with
        | none => none
        | some (m', t) => some (m', quality_entry_events E m opts ++ t) := rfl

theorem post_adapt_eq (E : Env M) (m : M) (opts : AdaptOpts) :
    post_adapt E m opts =
      (if opts.verbosity = .EACH_ADAPT then after_adapting_report E m opts else []) ++
        post_adapt_rest E m opts := by
  unfold post_adapt post_adapt_rest after_adapting_report
  simp only [List.append_assoc]

theorem adapt_eq_body (E : Env M) (fuel : Nat) (m : M) (opts : AdaptOpts) :
    adapt E fuel m opts =
      match adapt_body E fuel m opts with
      | .returned true m2 t => .returned true m2 (t ++ post_adapt E m2 opts)
      | o => o := by
  unfold adapt adapt_body
  cases hp : pre_adapt E m opts with
  | error t => rfl
  | ok bt =>
    obtain ⟨b, t⟩ := bt
    cases b
    · rfl
    · simp only
      cases h1 : satisfy_lengths E opts fuel m with
      | none => rfl
      | some r1 =>
        obtain ⟨m1, t1⟩ := r1
        simp only
        cases h2 : satisfy_quality E opts fuel m1 with
        | none => rfl
        | some r2 => rfl

theorem satisfy_lengths_coupled {R : List Event → List Event → Prop} {E1 E2 : Env M}
    {o1 o2 : AdaptOpts} (C : Coupled R E1 o1 E2 o2) :
    ∀ (fuel : Nat) (m : M),
      LoopRel R (satisfy_lengths E1 o1 fuel m) (satisfy_lengths E2 o2 fuel m) := by
  intro fuel
  induction fuel with
  | zero => intro m; trivial
  | succ fuel ih =>
    intro m
    obtain ⟨hd, hm, hR⟩ := C.lengths m
    unfold satisfy_lengths
    simp only
    rw [← hd]
    by_cases hp : (lengths_pass E1 o1 m).1 = true
    · rw [if_pos hp, if_pos hp]
      have h := ih (lengths_pass E1 o1 m).2.1
      rw [← hm]
      cases h1 : satisfy_lengths E1 o1 fuel (lengths_pass E1 o1 m).2.1 with
      | none =>
        cases h2 : satisfy_lengths E2 o2 fuel (lengths_pass E1 o1 m).2.1 with
        | none => trivial
        | some r2 => rw [h1, h2] at h; exact h.elim
      | some r1 =>
        obtain ⟨m1, t1⟩ := r1
        cases h2 : satisfy_lengths E2 o2 fuel (lengths_pass E1 o1 m).2.1 with
        | none => rw [h1, h2] at h; exact h.elim
        | some r2 =>
          obtain ⟨m2, t2⟩ := r2
          rw [h1, h2] at h
          exact ⟨h.1, C.append _ _ _ _ hR h.2⟩
    · rw [if_neg hp, if_neg hp]
      exact ⟨hm, hR⟩

theorem quality_loop_coupled {R : List Event → List Event → Prop} {E1 E2 : Env M}
    {o1 o2 : AdaptOpts} (C : Coupled R E1 o1 E2 o2) :
    ∀ (fuel : Nat) (m : M),
      LoopRel R (quality_loop E1 o1 fuel m) (quality_loop E2 o2 fuel m) := by
  intro fuel
  induction fuel with
  | zero => intro m; trivial
  | succ fuel ih =>
    intro m
    obtain ⟨hk, hm, hR⟩ := C.quality m
    rw [quality_loop_succ, quality_loop_succ, ← hk, ← hm, ← C.min_quality, ← C.desired]
    by_cases hg : (quality_pass E1 o1 m).1 = .gave_up
    · rw [if_pos hg, if_pos hg]
      exact ⟨rfl, hR⟩
    · rw [if_neg hg, if_neg hg]
      by_cases hq : E1.min_quality (quality_pass E1 o1 m).2.1 < o1.min_quality_desired
      · rw [if_pos hq, if_pos hq]
        have h := ih (quality_pass E1 o1 m).2.1
        cases h1 : quality_loop E1 o1 fuel (quality_pass E1 o1 m).2.1 with
        | none =>
          cases h2 : quality_loop E2 o2 fuel (quality_pass E1 o1 m).2.1 with
          | none => trivial
          | some r2 => rw [h1, h2] at h; exact h.elim
        | some r1 =>
          obtain ⟨m1, t1⟩ := r1
          cases h2 : quality_loop E2 o2 fuel (quality_pass E1 o1 m).2.1 with
          | none => rw [h1, h2] at h; exact h.elim
          | some r2 =>
            obtain ⟨m2, t2⟩ := r2
            rw [h1, h2] at h
            exact ⟨h.1, C.append _ _ _ _ (C.append _ _ _ _ hR (C.refl _)) h.2⟩
      · rw [if_neg hq, if_neg hq]
        exact ⟨rfl, C.append _ _ _ _ hR (C.refl _)⟩

theorem satisfy_quality_coupled {R : List Event → List Event → Prop} {E1 E2 : Env M}
    {o1 o2 : AdaptOpts} (C : Coupled R E1 o1 E2 o2) (fuel : Nat) (m : M) :
    LoopRel R (satisfy_quality E1 o1 fuel m) (satisfy_quality E2 o2 fuel m) := by
  rw [satisfy_quality_eq, satisfy_quality_eq, ← C.min_quality, ← C.desired]
  by_cases hq : E1.min_quality m ≥ o1.min_quality_desired
  · rw [if_pos hq, if_pos hq]
    exact ⟨rfl, C.refl _⟩
  · rw [if_neg hq, if_neg hq]
    have h := quality_loop_coupled C fuel m
    cases h1 : quality_loop E1 o1 fuel m with
    | none =>
      cases h2 : quality_loop E2 o2 fuel m with
      | none => trivial
      | some r2 => rw [h1, h2] at h; exact h.elim
    | some r1 =>
      obtain ⟨m1, t1⟩ := r1
      cases h2 : quality_loop E2 o2 fuel m with
      | none => rw [h1, h2] at h; exact h.elim
      | some r2 =>
        obtain ⟨m2, t2⟩ := r2
        rw [h1, h2] at h
        exact ⟨h.1, C.append _ _ _ _ (C.entry m) h.2⟩

theorem adapt_body_coupled {R : List Event → List Event → Prop} {E1 E2 : Env M}
    {o1 o2 : AdaptOpts} (C : Coupled R E1 o1 E2 o2) (fuel : Nat) (m : M) :
    Outcome.Rel R (adapt_body E1 fuel m o1) (adapt_body E2 fuel m o2) := by
  unfold adapt_body
  rw [pre_adapt_eq, pre_adapt_eq, ← C.check]
  by_cases hv : o1.valid
  · rw [if_pos hv, if_pos (C.valid.mp hv)]
    cases hc : (adapt_check E1 m o1).1
    · simp only [Bool.not_false]
      have h := satisfy_lengths_coupled C fuel m
      cases h1 : satisfy_lengths E1 o1 fuel m with
      | none =>
        cases h2 : satisfy_lengths E2 o2 fuel m with
        | none => trivial
        | some r2 => rw [h1, h2] at h; exact h.elim
      | some r1 =>
        obtain ⟨m1, t1⟩ := r1
        cases h2 : satisfy_lengths E2 o2 fuel m with
        | none => rw [h1, h2] at h; exact h.elim
        | some r2 =>
          obtain ⟨m2, t2⟩ := r2
          rw [h1, h2] at h
          obtain ⟨hm, hR⟩ := h
          subst hm
          simp only
          have h' := satisfy_quality_coupled C fuel m1
          cases h3 : satisfy_quality E1 o1 fuel m1 with
          | none =>
            cases h4 : satisfy_quality E2 o2 fuel m1 with
            | none => trivial
            | some r4 => rw [h3, h4] at h'; exact h'.elim
          | some r3 =>
            obtain ⟨m3, t3⟩ := r3
            cases h4 : satisfy_quality E2 o2 fuel m1 with
            | none => rw [h3, h4] at h'; exact h'.elim
            | some r4 =>
              obtain ⟨m4, t4⟩ := r4
              rw [h3, h4] at h'
              exact ⟨rfl, h'.1, C.append _ _ _ _ (C.append _ _ _ _ (C.pre m) hR) h'.2⟩
    · simp only [Bool.not_true]
      exact ⟨rfl, rfl, C.pre m⟩
  · rw [if_neg hv, if_neg (fun h => hv (C.valid.mpr h))]
    exact C.refl _

theorem adapt_coupled {R : List Event → List Event → Prop} {E1 E2 : Env M}
    {o1 o2 : AdaptOpts} (C : Coupled R E1 o1 E2 o2)
    (hpost : ∀ m, R (post_adapt E1 m o1) (post_adapt E2 m o2)) (fuel : Nat) (m : M) :
    Outcome.Rel R (adapt E1 fuel m o1) (adapt E2 fuel m o2) := by
  have h := adapt_body_coupled C fuel m
  rw [adapt_eq_body, adapt_eq_body]
  cases h1 : adapt_body E1 fuel m o1 with
  | returned r1 m1 t1 =>
    cases h2 : adapt_body E2 fuel m o2 with
    | returned r2 m2 t2 =>
      rw [h1, h2] at h
      obtain ⟨hr, hm, hR⟩ := h
      subst hr hm
      cases r1
      · exact ⟨rfl, rfl, hR⟩
      · exact ⟨rfl, rfl, C.append _ _ _ _ hR (hpost m1)⟩
    | aborted t2 => rw [h1, h2] at h; exact h.elim
    | out_of_fuel => rw [h1, h2] at h; exact h.elim
  | aborted t1 =>
    cases h2 : adapt_body E2 fuel m o2 with
    | returned r2 m2 t2 => rw [h1, h2] at h; exact h.elim
    | aborted t2 => rw [h1, h2] at h; exact h
    | out_of_fuel => rw [h1, h2] at h; exact h.elim
  | out_of_fuel =>
    cases h2 : adapt_body E2 fuel m o2 with
    | returned r2 m2 t2 => rw [h1, h2] at h; exact h.elim
    | aborted t2 => rw [h1, h2] at h; exact h.elim
    | out_of_fuel => trivial

/-! ### Options that differ only in verbosity: same decisions -/

@[simp] theorem op_calls_validate_events (E : Env M) (m : M) (opts : AdaptOpts) :
    op_calls (validate_events E m opts) = [] := by
  unfold validate_events; split_ifs <;> simp

@[simp] theorem op_calls_pre_adapt_events (E : Env M) (m : M) (opts : AdaptOpts) :
    op_calls (pre_adapt_events E m opts) = [] := by
  unfold pre_adapt_events
  simp only [op_calls_append, op_calls_validate_events, op_calls_adapt_check, List.nil_append]
  split_ifs <;> simp

@[simp] theorem op_calls_quality_entry_events (E : Env M) (m : M) (opts : AdaptOpts) :
    op_calls (quality_entry_events E m opts) = [] := by
  unfold quality_entry_events; split_ifs <;> simp

theorem adapt_check_with_verbosity (E : Env M) (m : M) (opts : AdaptOpts) (v : Verbosity) :
    (adapt_check E m (opts.with_verbosity v)).1 = (adapt_check E m opts).1 := by
  rw [Bool.eq_iff_iff, adapt_check_true_iff, adapt_check_true_iff]
  exact Iff.rfl

theorem lengths_pass_with_verbosity (E : Env M) (hE : E.ignores_verbosity) (opts : AdaptOpts)
    (v : Verbosity) (m : M) :
    (lengths_pass E (opts.with_verbosity v) m).1 = (lengths_pass E opts m).1 ∧
    (lengths_pass E (opts.with_verbosity v) m).2.1 = (lengths_pass E opts m).2.1 ∧
    lengths_pass_calls E (opts.with_verbosity v) m = lengths_pass_calls E opts m := by
  unfold lengths_pass lengths_pass_calls
  simp [(hE _ opts v).1, (hE _ opts v).2.1]

theorem quality_pass_fst (E : Env M) (opts : AdaptOpts) (m : M) :
    (quality_pass E opts m).1 =
      (if (E.swap_edges m opts).1 then QualityStep.swapped
       else if (E.coarsen_slivers (E.swap_edges m opts).2 opts).1 then QualityStep.coarsened
       else QualityStep.gave_up) ∧
    (quality_pass E opts m).2.1 =
      (if (E.swap_edges m opts).1 then (E.swap_edges m opts).2
       else (E.coarsen_slivers (E.swap_edges m opts).2 opts).2) := by
  unfold quality_pass
  by_cases hs : (E.swap_edges m opts).1 = true
  · simp [hs]
  · by_cases hc : (E.coarsen_slivers (E.swap_edges m opts).2 opts).1 = true
    · simp [hs, hc]
    · simp [hs, hc]

theorem quality_pass_with_verbosity (E : Env M) (hE : E.ignores_verbosity) (opts : AdaptOpts)
    (v : Verbosity) (m : M) :
    (quality_pass E (opts.with_verbosity v) m).1 = (quality_pass E opts m).1 ∧
    (quality_pass E (opts.with_verbosity v) m).2.1 = (quality_pass E opts m).2.1 ∧
    quality_pass_calls E (opts.with_verbosity v) m = quality_pass_calls E opts m := by
  rw [(quality_pass_fst E _ m).1, (quality_pass_fst E _ m).2, (quality_pass_fst E opts m).1,
    (quality_pass_fst E opts m).2]
  unfold quality_pass_calls
  simp [(hE _ opts v).2.2.1, (hE _ opts v).2.2.2]

theorem coupled_op_calls (E : Env M) (hE : E.ignores_verbosity) (opts : AdaptOpts)
    (v1 v2 : Verbosity) :
    Coupled (fun t t' => op_calls t = op_calls t') E (opts.with_verbosity v1)
      E (opts.with_verbosity v2) where
  refl := fun _ => rfl
  append := fun a b c d h1 h2 => by
    simp only [op_calls_append, h1, h2]
  valid := Iff.rfl
  check := fun m => by
    rw [adapt_check_with_verbosity, adapt_check_with_verbosity]
  pre := fun m => by
    simp only [op_calls_pre_adapt_events]
  lengths := fun m => by
    obtain ⟨a1, b1, c1⟩ := lengths_pass_with_verbosity E hE opts v1 m
    obtain ⟨a2, b2, c2⟩ := lengths_pass_with_verbosity E hE opts v2 m
    refine ⟨by rw [a1, a2], by rw [b1, b2], ?_⟩
    rw [lengths_pass_op_calls, lengths_pass_op_calls, c1, c2]
  quality := fun m => by
    obtain ⟨a1, b1, c1⟩ := quality_pass_with_verbosity E hE opts v1 m
    obtain ⟨a2, b2, c2⟩ := quality_pass_with_verbosity E hE opts v2 m
    refine ⟨by rw [a1, a2], by rw [b1, b2], ?_⟩
    rw [quality_pass_op_calls, quality_pass_op_calls, c1, c2]
  min_quality := fun _ => rfl
  desired := rfl
  entry := fun m => by
    simp only [op_calls_quality_entry_events]

theorem outcome_rel_ret_mesh {R : List Event → List Event → Prop} (a b : Outcome M)
    (h : Outcome.Rel R a b) : a.ret? = b.ret? ∧ a.mesh? = b.mesh? ∧ R a.trace b.trace ∨
      (a = .out_of_fuel ∧ b = .out_of_fuel) := by
  cases a with
  | returned r1 m1 t1 =>
    cases b with
    | returned r2 m2 t2 =>
      obtain ⟨hr, hm, hR⟩ := h
      subst hr hm
      exact Or.inl ⟨rfl, rfl, hR⟩
    | aborted t2 => exact h.elim
    | out_of_fuel => exact h.elim
  | aborted t1 =>
    cases b with
    | returned r2 m2 t2 => exact h.elim
    | aborted t2 => exact Or.inl ⟨rfl, rfl, h⟩
    | out_of_fuel => exact h.elim
  | out_of_fuel =>
    cases b with
    | returned r2 m2 t2 => exact h.elim
    | aborted t2 => exact h.elim
    | out_of_fuel => exact Or.inr ⟨rfl, rfl⟩

/-- Claim C14: if the mutation operators ignore the verbosity, two runs of
`adapt` on the same mesh with options that differ only in verbosity end the
same way (return, abort or exhausted fuel), return the same flag, leave the
same mesh and make the same operator calls, with the same results, in the
same order. -/
theorem verbosity_does_not_affect_control (E : Env M) (hE : E.ignores_verbosity)
    (opts : AdaptOpts) (v1 v2 : Verbosity) (fuel : Nat) (m : M) :
    Outcome.Rel (fun t t' => op_calls t = op_calls t')
      (adapt E fuel m (opts.with_verbosity v1)) (adapt E fuel m (opts.with_verbosity v2)) ∧
    (adapt E fuel m (opts.with_verbosity v1)).ret? =
      (adapt E fuel m (opts.with_verbosity v2)).ret? ∧
    (adapt E fuel m (opts.with_verbosity v1)).mesh? =
      (adapt E fuel m (opts.with_verbosity v2)).mesh? ∧
    op_calls (adapt E fuel m (opts.with_verbosity v1)).trace =
      op_calls (adapt E fuel m (opts.with_verbosity v2)).trace := by
  have h := adapt_coupled (coupled_op_calls E hE opts v1 v2)
    (fun m => by simp only [op_calls_post_adapt]) fuel m
  refine ⟨h, ?_⟩
  rcases outcome_rel_ret_mesh _ _ h with ⟨h1, h2, h3⟩ | ⟨h1, h2⟩
  · exact ⟨h1, h2, h3⟩
  · rw [h1, h2]
    exact ⟨rfl, rfl, rfl⟩

theorem toy_env_ignores_verbosity : toy_env.ignores_verbosity :=
  fun _ _ _ => ⟨rfl, rfl, rfl, rfl⟩

/-- Witness for C14: `toy_env` ignores the verbosity; the silent run and the
most verbose run on `long_mesh` make the same eight operator calls. -/
theorem verbosity_does_not_affect_control_witness :
    toy_env.ignores_verbosity ∧
    (adapt toy_env 3 long_mesh (sample_opts.with_verbosity .SILENT)).ret? =
      (adapt toy_env 3 long_mesh (sample_opts.with_verbosity .EXTRA_STATS)).ret? ∧
    op_calls (adapt toy_env 3 long_mesh (sample_opts.with_verbosity .SILENT)).trace =
      op_calls (adapt toy_env 3 long_mesh (sample_opts.with_verbosity .EXTRA_STATS)).trace ∧
    (op_calls (adapt toy_env 3 long_mesh (sample_opts.with_verbosity .SILENT)).trace).length
      = 8 :=
  have h := verbosity_does_not_affect_control toy_env toy_env_ignores_verbosity sample_opts
    .SILENT .EXTRA_STATS 3 long_mesh
  ⟨toy_env_ignores_verbosity, h.2.1, h.2.2.2, by decide!⟩

/-! ### Processes of different rank: same collectives -/

@[simp] theorem collectives_nil : collectives [] = [] := rfl

@[simp] theorem collectives_query (q : Query) (t : List Event) :
    collectives (Event.query q :: t) = collectives t := rfl

@[simp] theorem collectives_collective (c : Collective) (t : List Event) :
    collectives (Event.collective c :: t) = c :: collectives t := rfl

@[simp] theorem collectives_print (msg : Message) (t : List Event) :
    collectives (Event.print msg :: t) = collectives t := rfl

@[simp] theorem collectives_call (op : Operator) (r : Bool) (t : List Event) :
    collectives (Event.call op r :: t) = collectives t := rfl

@[simp] theorem collectives_append (a b : List Event) :
    collectives (a ++ b) = collectives a ++ collectives b := by
  induction a with
  | nil => rfl
  | cons e a ih => cases e <;> simp [ih]

theorem collectives_goal_stats (E : Env M) (rk : M → Nat) (m : M) (f : Field) (d : Nat) :
    collectives (goal_stats (E.with_rank rk) m f d) = collectives (goal_stats E m f d) := by
  unfold goal_stats
  simp only [collectives_append, collectives_collective, collectives_query, collectives_nil]
  split_ifs <;> rfl

theorem collectives_adapt_summary (E : Env M) (rk : M → Nat) (m : M) :
    collectives (adapt_summary (E.with_rank rk) m) = collectives (adapt_summary E m) := by
  unfold adapt_summary
  simp only [collectives_append, collectives_goal_stats]
  rfl

theorem adapt_check_with_rank (E : Env M) (rk : M → Nat) (m : M) (opts : AdaptOpts) :
    (adapt_check (E.with_rank rk) m opts).1 = (adapt_check E m opts).1 := by
  rw [Bool.eq_iff_iff, adapt_check_true_iff, adapt_check_true_iff]
  exact Iff.rfl

theorem collectives_adapt_check (E : Env M) (rk : M → Nat) (m : M) (opts : AdaptOpts) :
    collectives (adapt_check (E.with_rank rk) m opts).2 =
      collectives (adapt_check E m opts).2 := by
  unfold adapt_check
  simp only [get_minmax]
  by_cases h : E.global_min m .qualities ≥ opts.min_quality_desired ∧
      E.global_min m .lengths ≥ opts.min_length_desired ∧
      E.global_max m .lengths ≤ opts.max_length_desired
  · have h' : (E.with_rank rk).global_min m .qualities ≥ opts.min_quality_desired ∧
        (E.with_rank rk).global_min m .lengths ≥ opts.min_length_desired ∧
        (E.with_rank rk).global_max m .lengths ≤ opts.max_length_desired := h
    rw [if_pos h, if_pos h']
    simp only [collectives_append, collectives_collective, collectives_query, collectives_nil]
    split_ifs <;> rfl
  · have h' : ¬ ((E.with_rank rk).global_min m .qualities ≥ opts.min_quality_desired ∧
        (E.with_rank rk).global_min m .lengths ≥ opts.min_length_desired ∧
        (E.with_rank rk).global_max m .lengths ≤ opts.max_length_desired) := h
    rw [if_neg h, if_neg h']
    simp only [collectives_append, collectives_collective, collectives_query, collectives_nil]
    split_ifs
    · rw [collectives_adapt_summary]
    · rfl

theorem collectives_post_rebuild (E : Env M) (rk : M → Nat) (m : M) (opts : AdaptOpts) :
    collectives (post_rebuild (E.with_rank rk) m opts) =
      collectives (post_rebuild E m opts) := by
  unfold post_rebuild
  split_ifs
  · exact collectives_adapt_check E rk m opts
  · rfl

theorem collectives_validate_events (E : Env M) (rk : M → Nat) (m : M) (opts : AdaptOpts) :
    collectives (validate_events (E.with_rank rk) m opts) =
      collectives (validate_events E m opts) := by
  unfold validate_events
  have hq : (E.with_rank rk).min_quality m = E.min_quality m := rfl
  rw [hq]
  simp only [collectives_append, collectives_collective, collectives_nil]
  split_ifs <;> rfl

theorem collectives_pre_adapt_events (E : Env M) (rk : M → Nat) (m : M) (opts : AdaptOpts) :
    collectives (pre_adapt_events (E.with_rank rk) m opts) =
      collectives (pre_adapt_events E m opts) := by
  unfold pre_adapt_events
  simp only [collectives_append, collectives_validate_events, collectives_adapt_check,
    adapt_check_with_rank]
  have hh : collectives (do_histograms (E.with_rank rk) m) = collectives (do_histograms E m) :=
    rfl
  split_ifs <;> simp [hh]

theorem collectives_quality_entry_events (E : Env M) (rk : M → Nat) (m : M)
    (opts : AdaptOpts) :
    collectives (quality_entry_events (E.with_rank rk) m opts) =
      collectives (quality_entry_events E m opts) := by
  unfold quality_entry_events
  split_ifs <;> rfl

theorem collectives_lengths_pass (E : Env M) (rk : M → Nat) (m : M) (opts : AdaptOpts) :
    collectives (lengths_pass (E.with_rank rk) opts m).2.2 =
      collectives (lengths_pass E opts m).2.2 := by
  unfold lengths_pass
  have hr : (E.with_rank rk).refine_by_size = E.refine_by_size := rfl
  have hc : (E.with_rank rk).coarsen_by_size = E.coarsen_by_size := rfl
  simp only [hr, hc, collectives_append, collectives_call, collectives_nil]
  split_ifs <;> simp [collectives_post_rebuild]

theorem collectives_quality_pass (E : Env M) (rk : M → Nat) (m : M) (opts : AdaptOpts) :
    collectives (quality_pass (E.with_rank rk) opts m).2.2 =
      collectives (quality_pass E opts m).2.2 := by
  unfold quality_pass
  have hs : (E.with_rank rk).swap_edges = E.swap_edges := rfl
  have hc : (E.with_rank rk).coarsen_slivers = E.coarsen_slivers := rfl
  simp only [hs, hc]
  split_ifs <;> simp [collectives_post_rebuild]

theorem collectives_post_adapt (E : Env M) (rk : M → Nat) (m : M) (opts : AdaptOpts) :
    collectives (post_adapt (E.with_rank rk) m opts) = collectives (post_adapt E m opts) := by
  unfold post_adapt
  have hh : collectives (do_histograms (E.with_rank rk) m) = collectives (do_histograms E m) :=
    rfl
  simp only [collectives_append]
  split_ifs <;> simp [hh, collectives_adapt_check]

theorem coupled_collectives (E : Env M) (rk : M → Nat) (opts : AdaptOpts) :
    Coupled (fun t t' => collectives t = collectives t') (E.with_rank rk) opts E opts where
  refl := fun _ => rfl
  append := fun a b c d h1 h2 => by
    simp only [collectives_append, h1, h2]
  valid := Iff.rfl
  check := fun m => adapt_check_with_rank E rk m opts
  pre := fun m => collectives_pre_adapt_events E rk m opts
  lengths := fun m => ⟨rfl, rfl, collectives_lengths_pass E rk m opts⟩
  quality := fun m =>
    ⟨by rw [(quality_pass_fst _ opts m).1, (quality_pass_fst E opts m).1]; rfl,
     by rw [(quality_pass_fst _ opts m).2, (quality_pass_fst E opts m).2]; rfl,
     collectives_quality_pass E rk m opts⟩
  min_quality := fun _ => rfl
  desired := rfl
  entry := fun m => collectives_quality_entry_events E rk m opts

/-- Claim C15: a process whose rank answers differ (`E.with_rank rk`) but which
sees the same options, the same reduction results and the same operator
behaviour ends `adapt` the same way, with the same flag and mesh, and issues
the same collective operations in the same order. -/
theorem collectives_independent_of_rank (E : Env M) (rk : M → Nat) (opts : AdaptOpts)
    (fuel : Nat) (m : M) :
    Outcome.Rel (fun t t' => collectives t = collectives t')
      (adapt (E.with_rank rk) fuel m opts) (adapt E fuel m opts) ∧
    (adapt (E.with_rank rk) fuel m opts).ret? = (adapt E fuel m opts).ret? ∧
    (adapt (E.with_rank rk) fuel m opts).mesh? = (adapt E fuel m opts).mesh? ∧
    collectives (adapt (E.with_rank rk) fuel m opts).trace =
      collectives (adapt E fuel m opts).trace := by
  have h := adapt_coupled (coupled_collectives E rk opts)
    (fun m => collectives_post_adapt E rk m opts) fuel m
  refine ⟨h, ?_⟩
  rcases outcome_rel_ret_mesh _ _ h with ⟨h1, h2, h3⟩ | ⟨h1, h2⟩
  · exact ⟨h1, h2, h3⟩
  · rw [h1, h2]
    exact ⟨rfl, rfl, rfl⟩

/-- Witness for C15: seen from rank 1 instead of rank 0, the run on
`long_mesh` issues the same collectives although its trace (the printing)
differs. -/
theorem collectives_independent_of_rank_witness :
    collectives (adapt (toy_env.with_rank (fun _ => 1)) 3 long_mesh sample_opts).trace =
      collectives (adapt toy_env 3 long_mesh sample_opts).trace ∧
    (adapt (toy_env.with_rank (fun _ => 1)) 3 long_mesh sample_opts).trace ≠
      (adapt toy_env 3 long_mesh sample_opts).trace :=
  ⟨(collectives_independent_of_rank toy_env (fun _ => 1) sample_opts 3 long_mesh).2.2.2,
   by decide!⟩

/-! ### Higher verbosity: more reporting -/

theorem sublist_ite {c1 c2 : Prop} [Decidable c1] [Decidable c2] {a b : List Event}
    (h : c1 → c2) (hab : a.Sublist b) :
    (if c1 then a else []).Sublist (if c2 then b else []) := by
  by_cases h1 : c1
  · rw [if_pos h1, if_pos (h h1)]
    exact hab
  · rw [if_neg h1]
    exact List.nil_sublist _

theorem Verbosity.ge_mono {v1 v2 : Verbosity} (h : v1 ≤ v2) (x : Verbosity) :
    v1 ≥ x → v2 ≥ x :=
  fun hx => Nat.le_trans hx h

theorem Verbosity.gt_mono {v1 v2 : Verbosity} (h : v1 ≤ v2) (x : Verbosity) :
    v1 > x → v2 > x :=
  fun hx => Nat.lt_of_lt_of_le hx h

theorem adapt_check_events_form (E : Env M) (m : M) (opts : AdaptOpts) :
    ∃ t r : List Event, ∀ v : Verbosity,
      (adapt_check E m (opts.with_verbosity v)).2 = t ++ (if v > .SILENT then r else []) := by
  by_cases h : E.global_min m .qualities ≥ opts.min_quality_desired ∧
      E.global_min m .lengths ≥ opts.min_length_desired ∧
      E.global_max m .lengths ≤ opts.max_length_desired
  · refine ⟨[Event.query .ask_qualities] ++ (get_minmax E m .qualities).2 ++
        [Event.query .ask_lengths] ++ (get_minmax E m .lengths).2,
      [Event.query .rank] ++ (if E.rank m = 0 then [Event.print .mesh_is_good] else []),
      fun v => ?_⟩
    unfold adapt_check
    simp only [get_minmax, AdaptOpts.with_verbosity]
    rw [if_pos h]
  · refine ⟨[Event.query .ask_qualities] ++ (get_minmax E m .qualities).2 ++
        [Event.query .ask_lengths] ++ (get_minmax E m .lengths).2,
      adapt_summary E m, fun v => ?_⟩
    unfold adapt_check
    simp only [get_minmax, AdaptOpts.with_verbosity]
    rw [if_neg h]

theorem adapt_check_events_mono (E : Env M) (m : M) (opts : AdaptOpts) {v1 v2 : Verbosity}
    (h : v1 ≤ v2) :
    (adapt_check E m (opts.with_verbosity v1)).2.Sublist
      (adapt_check E m (opts.with_verbosity v2)).2 := by
  obtain ⟨t, r, hf⟩ := adapt_check_events_form E m opts
  rw [hf v1, hf v2]
  exact (List.Sublist.refl t).append (sublist_ite (Verbosity.gt_mono h _) (List.Sublist.refl r))

theorem post_rebuild_mono (E : Env M) (m : M) (opts : AdaptOpts) {v1 v2 : Verbosity}
    (h : v1 ≤ v2) :
    (post_rebuild E m (opts.with_verbosity v1)).Sublist
      (post_rebuild E m (opts.with_verbosity v2)) := by
  unfold post_rebuild
  exact sublist_ite (Verbosity.ge_mono h _) (adapt_check_events_mono E m opts h)

theorem pre_adapt_events_mono (E : Env M) (m : M) (opts : AdaptOpts) {v1 v2 : Verbosity}
    (h : v1 ≤ v2) :
    (pre_adapt_events E m (opts.with_verbosity v1)).Sublist
      (pre_adapt_events E m (opts.with_verbosity v2)) := by
  unfold pre_adapt_events
  rw [adapt_check_with_verbosity E m opts v1, adapt_check_with_verbosity E m opts v2]
  refine List.Sublist.append (List.Sublist.append (List.Sublist.append ?_ ?_) ?_) ?_
  · exact List.Sublist.refl _
  · exact sublist_ite (Verbosity.ge_mono h _) (List.Sublist.refl _)
  · exact adapt_check_events_mono E m opts h
  · by_cases hc : (adapt_check E m opts).1 = true
    · rw [if_pos hc, if_pos hc]
    · rw [if_neg hc, if_neg hc]
      exact List.Sublist.append (sublist_ite (Verbosity.ge_mono h _) (List.Sublist.refl _))
        (sublist_ite (Verbosity.ge_mono h _) (List.Sublist.refl _))

theorem lengths_pass_events_mono (E : Env M) (hE : E.ignores_verbosity) (m : M)
    (opts : AdaptOpts) {v1 v2 : Verbosity} (h : v1 ≤ v2) :
    (lengths_pass E (opts.with_verbosity v1) m).2.2.Sublist
      (lengths_pass E (opts.with_verbosity v2) m).2.2 := by
  unfold lengths_pass
  simp only [(hE _ opts v1).1, (hE _ opts v1).2.1, (hE _ opts v2).1, (hE _ opts v2).2.1]
  refine List.Sublist.append (List.Sublist.append (List.Sublist.refl _) ?_)
    (List.Sublist.append (List.Sublist.refl _) ?_)
  · exact sublist_ite id (post_rebuild_mono E _ opts h)
  · exact sublist_ite id (post_rebuild_mono E _ opts h)

theorem quality_pass_events_mono (E : Env M) (hE : E.ignores_verbosity) (m : M)
    (opts : AdaptOpts) {v1 v2 : Verbosity} (h : v1 ≤ v2) :
    (quality_pass E (opts.with_verbosity v1) m).2.2.Sublist
      (quality_pass E (opts.with_verbosity v2) m).2.2 := by
  unfold quality_pass
  simp only [(hE _ opts v1).2.2.1, (hE _ opts v1).2.2.2, (hE _ opts v2).2.2.1,
    (hE _ opts v2).2.2.2]
  by_cases hs : (E.swap_edges m opts).1 = true
  · simp only [hs, if_true]
    exact List.Sublist.append (List.Sublist.refl _) (post_rebuild_mono E _ opts h)
  · by_cases hc : (E.coarsen_slivers (E.swap_edges m opts).2 opts).1 = true
    · simp only [hs, hc, if_true, if_false]
      exact List.Sublist.append (List.Sublist.refl _) (post_rebuild_mono E _ opts h)
    · simp only [hs, hc, if_false]
      exact List.Sublist.append (List.Sublist.refl _)
        (sublist_ite (Verbosity.gt_mono h _) (List.Sublist.refl _))

theorem quality_entry_events_mono (E : Env M) (m : M) (opts : AdaptOpts) {v1 v2 : Verbosity}
    (h : v1 ≤ v2) :
    (quality_entry_events E m (opts.with_verbosity v1)).Sublist
      (quality_entry_events E m (opts.with_verbosity v2)) := by
  unfold quality_entry_events
  exact List.Sublist.append (List.Sublist.refl _)
    (sublist_ite (Verbosity.ge_mono h _) (List.Sublist.refl _))

theorem post_adapt_rest_mono (E : Env M) (m : M) (opts : AdaptOpts) {v1 v2 : Verbosity}
    (h : v1 ≤ v2) :
    (post_adapt_rest E m (opts.with_verbosity v1)).Sublist
      (post_adapt_rest E m (opts.with_verbosity v2)) := by
  unfold post_adapt_rest
  refine List.Sublist.append (List.Sublist.append (List.Sublist.append ?_ ?_) ?_) ?_
  · exact sublist_ite (Verbosity.ge_mono h _) (List.Sublist.refl _)
  · exact sublist_ite (Verbosity.gt_mono h _) (List.Sublist.refl _)
  · exact sublist_ite (Verbosity.gt_mono h _) (List.Sublist.refl _)
  · exact sublist_ite (Verbosity.gt_mono h _) (List.Sublist.refl _)

theorem post_adapt_mono (E : Env M) (m : M) (opts : AdaptOpts) {v1 v2 : Verbosity}
    (h : v1 ≤ v2) (hx : ¬ (v1 = .EACH_ADAPT ∧ v2 = .EXTRA_STATS)) :
    (post_adapt E m (opts.with_verbosity v1)).Sublist
      (post_adapt E m (opts.with_verbosity v2)) := by
  rw [post_adapt_eq, post_adapt_eq]
  refine List.Sublist.append ?_ (post_adapt_rest_mono E m opts h)
  by_cases h1 : v1 = .EACH_ADAPT
  · have h2 : v2 = .EACH_ADAPT := by
      subst h1
      cases v2
      · exact absurd h (by decide)
      · exact absurd h (by decide)
      · rfl
      · exact absurd ⟨rfl, rfl⟩ hx
    subst h1 h2
    exact List.Sublist.refl _
  · have : (opts.with_verbosity v1).verbosity ≠ .EACH_ADAPT := h1
    rw [if_neg this]
    exact List.nil_sublist _

theorem coupled_sublist (E : Env M) (hE : E.ignores_verbosity) (opts : AdaptOpts)
    {v1 v2 : Verbosity} (h : v1 ≤ v2) :
    Coupled List.Sublist E (opts.with_verbosity v1) E (opts.with_verbosity v2) where
  refl := List.Sublist.refl
  append := fun _ _ _ _ h1 h2 => h1.append h2
  valid := Iff.rfl
  check := fun m => by
    rw [adapt_check_with_verbosity, adapt_check_with_verbosity]
  pre := fun m => pre_adapt_events_mono E m opts h
  lengths := fun m => by
    obtain ⟨a1, b1, -⟩ := lengths_pass_with_verbosity E hE opts v1 m
    obtain ⟨a2, b2, -⟩ := lengths_pass_with_verbosity E hE opts v2 m
    exact ⟨by rw [a1, a2], by rw [b1, b2], lengths_pass_events_mono E hE m opts h⟩
  quality := fun m => by
    obtain ⟨a1, b1, -⟩ := quality_pass_with_verbosity E hE opts v1 m
    obtain ⟨a2, b2, -⟩ := quality_pass_with_verbosity E hE opts v2 m
    exact ⟨by rw [a1, a2], by rw [b1, b2], quality_pass_events_mono E hE m opts h⟩
  min_quality := fun _ => rfl
  desired := rfl
  entry := fun m => quality_entry_events_mono E m opts h

/-- Claim C11, as the code has it: with operators that ignore the verbosity,
for levels `L1 <= L2` a run of `adapt` that returns at `L1` returns the same
flag and mesh at `L2`, and every event of the `L1` run (printed line, query,
reduction, operator call) occurs, in order, in the `L2` run, with one
exception: the "after adapting" line and its `adapt_check`, which `post_adapt`
performs at `EACH_ADAPT` only, are missing when `L1 = EACH_ADAPT` and
`L2 = EXTRA_STATS`. -/
theorem verbosity_cumulative_except_after_adapting (E : Env M) (hE : E.ignores_verbosity)
    (opts : AdaptOpts) (L1 L2 : Verbosity) (hle : L1 ≤ L2) (fuel : Nat) (m : M)
    (r : Bool) (m' : M) (t1 : List Event)
    (h1 : adapt E fuel m (opts.with_verbosity L1) = .returned r m' t1) :
    ∃ t2 a b, adapt E fuel m (opts.with_verbosity L2) = .returned r m' t2 ∧
      t1 = a ++
        (if r = true ∧ L1 = .EACH_ADAPT ∧ L2 = .EXTRA_STATS then
          after_adapting_report E m' (opts.with_verbosity L1) else []) ++ b ∧
      (a ++ b).Sublist t2 := by
  have hb := adapt_body_coupled (coupled_sublist E hE opts hle) fuel m
  rw [adapt_eq_body] at h1
  rw [adapt_eq_body]
  cases hb1 : adapt_body E fuel m (opts.with_verbosity L1) with
  | aborted t => rw [hb1] at h1; cases h1
  | out_of_fuel => rw [hb1] at h1; cases h1
  | returned r1 m1 tb1 =>
    rw [hb1] at h1 hb
    cases hb2 : adapt_body E fuel m (opts.with_verbosity L2) with
    | aborted t => rw [hb2] at hb; exact hb.elim
    | out_of_fuel => rw [hb2] at hb; exact hb.elim
    | returned r2 m2 tb2 =>
      rw [hb2] at hb
      obtain ⟨hr, hm, hsub⟩ := hb
      subst hr hm
      cases r1
      · cases h1
        refine ⟨tb2, t1, [], rfl, ?_, ?_⟩
        · simp
        · simpa using hsub
      · cases h1
        by_cases hx : L1 = .EACH_ADAPT ∧ L2 = .EXTRA_STATS
        · refine ⟨_, tb1, post_adapt_rest E m' (opts.with_verbosity L1), rfl, ?_, ?_⟩
          · rw [post_adapt_eq]
            have hv : (opts.with_verbosity L1).verbosity = .EACH_ADAPT := hx.1
            rw [if_pos hv, if_pos ⟨rfl, hx⟩, List.append_assoc]
          · rw [post_adapt_eq]
            exact hsub.append
              ((post_adapt_rest_mono E m' opts hle).trans (List.sublist_append_right _ _))
        · refine ⟨_, tb1, post_adapt E m' (opts.with_verbosity L1), rfl, ?_, ?_⟩
          · have hx' : ¬ (true = true ∧ L1 = .EACH_ADAPT ∧ L2 = .EXTRA_STATS) :=
              fun h => hx h.2
            rw [if_neg hx', List.append_nil]
          · exact hsub.append (post_adapt_mono E m' opts hle hx)

/-- Witness for C11: from `EACH_REBUILD` to `EXTRA_STATS` the whole trace of
the run on `long_mesh` is kept. -/
theorem verbosity_cumulative_except_after_adapting_witness :
    toy_env.ignores_verbosity ∧ Verbosity.EACH_REBUILD ≤ Verbosity.EXTRA_STATS ∧
    ∃ t2 a b,
      adapt toy_env 3 long_mesh (sample_opts.with_verbosity .EXTRA_STATS) =
        .returned true
          { minqual := 1 / 2, minlen := 1, maxlen := 1, splittable := 0, swappable := 0 }
          t2 ∧
      (adapt toy_env 3 long_mesh (sample_opts.with_verbosity .EACH_REBUILD)).trace =
        a ++ [] ++ b ∧
      (a ++ b).Sublist t2 :=
  ⟨toy_env_ignores_verbosity, by decide,
   verbosity_cumulative_except_after_adapting toy_env toy_env_ignores_verbosity sample_opts
     .EACH_REBUILD .EXTRA_STATS (by decide) 3 long_mesh true _ _
     (by with_unfolding_all rfl)⟩

/-- Claim C11 fails as stated: on `long_mesh`, with the same operator
behaviour, the run at `EACH_ADAPT` prints "after adapting:" and the run at the
higher level `EXTRA_STATS` does not; the `EACH_ADAPT` run performs six
`adapt_check`s (counted by the `OMEGA_H_MIN` reduction of the qualities), the
`EXTRA_STATS` run only five. -/
theorem after_adapting_missing_at_extra_stats :
    Verbosity.EACH_ADAPT < Verbosity.EXTRA_STATS ∧
    Event.print .after_adapting ∈
      (adapt toy_env 3 long_mesh (sample_opts.with_verbosity .EACH_ADAPT)).trace ∧
    Event.print .after_adapting ∉
      (adapt toy_env 3 long_mesh (sample_opts.with_verbosity .EXTRA_STATS)).trace ∧
    ((adapt toy_env 3 long_mesh (sample_opts.with_verbosity .EACH_ADAPT)).trace.count
        (Event.collective (.allreduce .qualities .OMEGA_H_MIN)) = 6) ∧
    ((adapt toy_env 3 long_mesh (sample_opts.with_verbosity .EXTRA_STATS)).trace.count
        (Event.collective (.allreduce .qualities .OMEGA_H_MIN)) = 5) := by
  decide!

/-! ### Default options, and the skipped quality phase -/

/-- Claim C12: for mesh dimension 2 and for mesh dimension 3 the constructed
`AdaptOpts` has `min_quality_allowed / min_quality_desired` equal to
`0.30 / 0.40` and `0.20 / 0.30` respectively (different floors),
`nsliver_layers = 4`, satisfies the options invariants, and passes `validate`
on every mesh. -/
theorem default_opts_valid (sqrt2 real_max junk_allowed junk_desired : ℚ)
    (E : Env M) (m : M) :
    (AdaptOpts.AdaptOpts 2 sqrt2 real_max junk_allowed junk_desired).min_quality_allowed
      = 30 / 100 ∧
    (AdaptOpts.AdaptOpts 2 sqrt2 real_max junk_allowed junk_desired).min_quality_desired
      = 40 / 100 ∧
    (AdaptOpts.AdaptOpts 3 sqrt2 real_max junk_allowed junk_desired).min_quality_allowed
      = 20 / 100 ∧
    (AdaptOpts.AdaptOpts 3 sqrt2 real_max junk_allowed junk_desired).min_quality_desired
      = 30 / 100 ∧
    (AdaptOpts.AdaptOpts 2 sqrt2 real_max junk_allowed junk_desired).min_quality_allowed ≠
      (AdaptOpts.AdaptOpts 3 sqrt2 real_max junk_allowed junk_desired).min_quality_allowed ∧
    (AdaptOpts.AdaptOpts 2 sqrt2 real_max junk_allowed junk_desired).nsliver_layers = 4 ∧
    (AdaptOpts.AdaptOpts 3 sqrt2 real_max junk_allowed junk_desired).nsliver_layers = 4 ∧
    (AdaptOpts.AdaptOpts 2 sqrt2 real_max junk_allowed junk_desired).valid ∧
    (AdaptOpts.AdaptOpts 3 sqrt2 real_max junk_allowed junk_desired).valid ∧
    validate E m (AdaptOpts.AdaptOpts 2 sqrt2 real_max junk_allowed junk_desired) =
      .ok (validate_events E m
        (AdaptOpts.AdaptOpts 2 sqrt2 real_max junk_allowed junk_desired)) ∧
    validate E m (AdaptOpts.AdaptOpts 3 sqrt2 real_max junk_allowed junk_desired) =
      .ok (validate_events E m
        (AdaptOpts.AdaptOpts 3 sqrt2 real_max junk_allowed junk_desired)) := by
  have v2 : (AdaptOpts.AdaptOpts 2 sqrt2 real_max junk_allowed junk_desired).valid := by
    unfold AdaptOpts.valid AdaptOpts.AdaptOpts
    norm_num
  have v3 : (AdaptOpts.AdaptOpts 3 sqrt2 real_max junk_allowed junk_desired).valid := by
    unfold AdaptOpts.valid AdaptOpts.AdaptOpts
    norm_num
  refine ⟨by simp [AdaptOpts.AdaptOpts], by simp [AdaptOpts.AdaptOpts],
    by simp [AdaptOpts.AdaptOpts], by simp [AdaptOpts.AdaptOpts], ?_, rfl, rfl, v2, v3, ?_, ?_⟩
  · simp only [AdaptOpts.AdaptOpts]
    norm_num
  · rw [validate_eq, if_pos v2]
  · rw [validate_eq, if_pos v3]

/-- Claim C13: if the minimum quality is at least `min_quality_desired`
(equality included) when `satisfy_quality` is entered, it returns at once,
whatever the fuel: the mesh is the one it was given, the only event is the
`min_quality` reduction, and neither `swap_edges` nor `coarsen_slivers` is
called. -/
theorem satisfy_quality_skipped (E : Env M) (opts : AdaptOpts) (m : M)
    (h : E.min_quality m ≥ opts.min_quality_desired) (fuel : Nat) :
    satisfy_quality E opts fuel m = some (m, [Event.collective .min_quality]) ∧
    op_calls [Event.collective .min_quality] = [] := by
  rw [satisfy_quality_eq, if_pos h]
  exact ⟨rfl, rfl⟩

/-- Witness for C13: `boundary_mesh` has minimum quality exactly
`min_quality_desired`. -/
theorem satisfy_quality_skipped_witness :
    toy_env.min_quality boundary_mesh = sample_opts.min_quality_desired ∧
    satisfy_quality toy_env sample_opts 0 boundary_mesh =
      some (boundary_mesh, [Event.collective .min_quality]) :=
  ⟨by decide!,
   (satisfy_quality_skipped toy_env sample_opts boundary_mesh (by decide!) 0).1⟩

end Coupling

end Omega_h

/-! ## Theorems: `sort_by_keys` -/

namespace Omega_h

section SortingProofs

theorem tuple_le_refl : ∀ x : List Int, tuple_le x x
  | [] => trivial
  | _ :: xs => Or.inr ⟨rfl, tuple_le_refl xs⟩

theorem tuple_le_trans : ∀ x y z : List Int, tuple_le x y → tuple_le y z → tuple_le x z
  | [], _, _, _, _ => trivial
  | _ :: _, [], _, h, _ => h.elim
  | _ :: _, _ :: _, [], _, h => h.elim
  | a :: xs, b :: ys, c :: zs, h1, h2 => by
    simp only [tuple_le] at h1 h2 ⊢
    rcases h1 with h1 | ⟨h1, h1'⟩
    · rcases h2 with h2 | ⟨h2, -⟩
      · exact Or.inl (lt_trans h1 h2)
      · exact Or.inl (h2 ▸ h1)
    · rcases h2 with h2 | ⟨h2, h2'⟩
      · exact Or.inl (h1 ▸ h2)
      · exact Or.inr ⟨h1.trans h2, tuple_le_trans xs ys zs h1' h2'⟩

theorem tuple_le_total : ∀ x y : List Int, tuple_le x y ∨ tuple_le y x
  | [], _ => Or.inl trivial
  | _ :: _, [] => Or.inr trivial
  | a :: xs, b :: ys => by
    simp only [tuple_le]
    rcases lt_trichotomy a b with h | h | h
    · exact Or.inl (Or.inl h)
    · rcases tuple_le_total xs ys with h' | h'
      · exact Or.inl (Or.inr ⟨h, h'⟩)
      · exact Or.inr (Or.inr ⟨h.symm, h'⟩)
    · exact Or.inr (Or.inl h)

theorem tuple_le_antisymm : ∀ x y : List Int, tuple_le x y → tuple_le y x → x = y
  | [], [], _, _ => rfl
  | [], _ :: _, _, h => h.elim
  | _ :: _, [], h, _ => h.elim
  | a :: xs, b :: ys, h1, h2 => by
    simp only [tuple_le] at h1 h2
    rcases h1 with h1 | ⟨h1, h1'⟩
    · rcases h2 with h2 | ⟨h2, -⟩
      · exact absurd h1 (not_lt.mpr (le_of_lt h2))
      · exact absurd h1 (by rw [h2]; exact lt_irrefl _)
    · rcases h2 with h2 | ⟨-, h2'⟩
      · exact absurd h2 (by rw [h1]; exact lt_irrefl _)
      · rw [h1, tuple_le_antisymm xs ys h1' h2']

/-- The comparison loop started on `(b, a)` answers "not less" exactly when the
keys of `a` from component `i` on are lexicographically at most those of `b`. -/
theorem compare_loop_false_iff (keys : List Int) (N : Nat) (a b : LO) :
    ∀ (r i : Nat),
      CompareKeySets.loop keys N b a r i = false ↔
        tuple_le ((List.range' i r).map (fun j => keys.getD (a * N + j) 0))
          ((List.range' i r).map (fun j => keys.getD (b * N + j) 0)) := by
  intro r
  induction r with
  | zero =>
    intro i
    simp [CompareKeySets.loop, tuple_le]
  | succ r ih =>
    intro i
    rw [CompareKeySets.loop, List.range'_succ, List.map_cons, List.map_cons]
    simp only [tuple_le]
    by_cases hxy : keys.getD (b * N + i) 0 = keys.getD (a * N + i) 0
    · rw [if_neg (not_not.mpr hxy), ih (i + 1)]
      constructor
      · intro h
        exact Or.inr ⟨hxy.symm, h⟩
      · rintro (h | ⟨-, h⟩)
        · rw [hxy] at h
          exact absurd h (lt_irrefl _)
        · exact h
    · rw [if_pos hxy, decide_eq_false_iff_not]
      constructor
      · intro h
        exact Or.inl (lt_of_le_of_ne (not_lt.mp h) (fun e => hxy e.symm))
      · rintro (h | ⟨h, -⟩)
        · exact not_lt.mpr (le_of_lt h)
        · exact absurd h.symm hxy

theorem not_compare_iff (keys : List Int) (N : Nat) (a b : LO) :
    (!CompareKeySets keys N b a) = true ↔
      tuple_le (key_tuple keys N a) (key_tuple keys N b) := by
  unfold CompareKeySets key_tuple
  rw [Bool.not_eq_true', compare_loop_false_iff, List.range_eq_range']

theorem pair_sublist_range (a b n : Nat) (hab : a < b) (hb : b < n) :
    [a, b].Sublist (List.range n) := by
  induction n with
  | zero => omega
  | succ n ih =>
    rw [List.range_succ]
    by_cases hbn : b = n
    · subst hbn
      have ha : [a].Sublist (List.range b) :=
        List.singleton_sublist.mpr (List.mem_range.mpr hab)
      exact ha.append (List.Sublist.refl [b])
    · exact (ih (by omega)).trans (List.sublist_append_left _ _)

/-- The three properties of the result of `parallel_sort` on `0 .. n - 1`
under `CompareKeySets`: a permutation, sorted by key tuple, and stable. -/
theorem parallel_sort_spec (keys : List Int) (N n : Nat) :
    (parallel_sort (List.range n) (CompareKeySets keys N)).Perm (List.range n) ∧
    (parallel_sort (List.range n) (CompareKeySets keys N)).Pairwise
      (fun a b => tuple_le (key_tuple keys N a) (key_tuple keys N b)) ∧
    (∀ a b, a < b → b < n → tuple_le (key_tuple keys N a) (key_tuple keys N b) →
      [a, b].Sublist (parallel_sort (List.range n) (CompareKeySets keys N))) := by
  have htrans : ∀ a b c : LO, (!CompareKeySets keys N b a) = true →
      (!CompareKeySets keys N c b) = true → (!CompareKeySets keys N c a) = true := by
    intro a b c h1 h2
    rw [not_compare_iff] at h1 h2 ⊢
    exact tuple_le_trans _ _ _ h1 h2
  have htotal : ∀ a b : LO, ((!CompareKeySets keys N b a) || (!CompareKeySets keys N a b))
      = true := by
    intro a b
    rw [Bool.or_eq_true, not_compare_iff, not_compare_iff]
    exact tuple_le_total _ _
  unfold parallel_sort
  refine ⟨List.mergeSort_perm _ _, ?_, ?_⟩
  · exact (List.sorted_mergeSort htrans htotal (List.range n)).imp
      (fun h => (not_compare_iff keys N _ _).mp h)
  · intro a b hab hb hle
    exact List.pair_sublist_mergeSort htrans htotal ((not_compare_iff keys N a b).mpr hle)
      (pair_sublist_range a b n hab hb)

theorem sort_by_keys_eq (keys : List Int) (N : Nat) (hN : N = 1 ∨ N = 2 ∨ N = 3) :
    sort_by_keys keys (N : Int) = sort_by_keys_tmpl N keys := by
  rcases hN with rfl | rfl | rfl <;> rfl

/-- Claim C17: for a width `N` in `{1, 2, 3}` and a key array whose size is a
multiple of `N`, `sort_by_keys` returns a permutation `p` of
`0 .. size / N - 1` along which the key tuples are lexicographically
non-decreasing: `tuple(p[i]) <= tuple(p[j])` for all `i < j`. -/
theorem sort_by_keys_sorted_perm (keys : List Int) (N : Nat) (hN : N = 1 ∨ N = 2 ∨ N = 3)
    (hk : keys.length % N = 0) :
    ∃ p, sort_by_keys keys (N : Int) = some p ∧
      p.Perm (List.range (keys.length / N)) ∧
      ∀ (i j : Nat) (hi : i < p.length) (hj : j < p.length), i < j →
        tuple_le (key_tuple keys N p[i]) (key_tuple keys N p[j]) := by
  rw [sort_by_keys_eq keys N hN]
  unfold sort_by_keys_tmpl
  rw [if_pos hk]
  obtain ⟨hperm, hsorted, -⟩ := parallel_sort_spec keys N (keys.length / N)
  exact ⟨_, rfl, hperm, List.pairwise_iff_getElem.mp hsorted⟩

/-- Witness for C17 on `sample_keys` with width 2. -/
theorem sort_by_keys_sorted_perm_witness :
    sort_by_keys sample_keys 2 = some [3, 1, 0, 2] ∧
    ∃ p, sort_by_keys sample_keys ((2 : Nat) : Int) = some p ∧
      p.Perm (List.range (sample_keys.length / 2)) ∧
      ∀ (i j : Nat) (hi : i < p.length) (hj : j < p.length), i < j →
        tuple_le (key_tuple sample_keys 2 p[i]) (key_tuple sample_keys 2 p[j]) :=
  ⟨by decide!,
   sort_by_keys_sorted_perm sample_keys 2 (Or.inr (Or.inl rfl)) (by decide)⟩

theorem nodup_no_swap : ∀ (l : List LO), l.Nodup → ∀ a b : LO,
    [a, b].Sublist l → [b, a].Sublist l → False
  | [], _, a, b, h1, _ => by
    cases h1
  | x :: l, hn, a, b, h1, h2 => by
    obtain ⟨hx, hl⟩ := List.nodup_cons.mp hn
    rcases List.sublist_cons_iff.mp h1 with k1 | ⟨r1, e1, s1⟩
    · rcases List.sublist_cons_iff.mp h2 with k2 | ⟨r2, e2, s2⟩
      · exact nodup_no_swap l hl a b k1 k2
      · simp only [List.cons.injEq] at e2
        have hb : b ∈ l := k1.subset (List.mem_cons_of_mem _ (List.mem_singleton_self _))
        rw [e2.1] at hb
        exact hx hb
    · simp only [List.cons.injEq] at e1
      rcases List.sublist_cons_iff.mp h2 with k2 | ⟨r2, e2, s2⟩
      · have ha : a ∈ l := k2.subset (List.mem_cons_of_mem _ (List.mem_singleton_self _))
        rw [e1.1] at ha
        exact hx ha
      · simp only [List.cons.injEq] at e2
        have hb : b ∈ l := by
          have := List.singleton_sublist.mp (e1.2 ▸ s1)
          exact this
        rw [e2.1] at hb
        exact hx hb

/-- A permutation of `0 .. n - 1` that is sorted by key tuple and keeps
entities with equal tuples in index order is sorted for the order "smaller
tuple, or equal tuple and smaller index". -/
theorem stable_sorted_pairwise (keys : List Int) (N n : Nat) (q : List LO)
    (hperm : q.Perm (List.range n))
    (hsorted : q.Pairwise (fun a b => tuple_le (key_tuple keys N a) (key_tuple keys N b)))
    (hstable : ∀ a b, a < b → b < n → key_tuple keys N a = key_tuple keys N b →
      [a, b].Sublist q) :
    q.Pairwise (fun a b => tuple_le (key_tuple keys N a) (key_tuple keys N b) ∧
      (tuple_le (key_tuple keys N b) (key_tuple keys N a) → a ≤ b)) := by
  have hnodup : q.Nodup := (hperm.nodup_iff).mpr (List.nodup_range n)
  rw [List.pairwise_iff_forall_sublist]
  intro a b hab
  have h1 := List.pairwise_iff_forall_sublist.mp hsorted hab
  refine ⟨h1, fun h2 => ?_⟩
  by_contra hlt
  have hba : b < a := Nat.lt_of_not_le hlt
  have han : a < n := List.mem_range.mp (hperm.subset (hab.subset (List.mem_cons_self _ _)))
  have heq := tuple_le_antisymm _ _ h2 h1
  exact nodup_no_swap q hnodup a b hab (hstable b a hba han heq)

/-- Claim C18: `sort_by_keys` is stable: of two entities with equal key tuples
the one with the smaller index comes first in the result (`[a, b]` is a
sublist of it); and the result is the only permutation of `0 .. n - 1` that
is sorted by key tuple and stable, so every stable sort returns it. -/
theorem sort_by_keys_stable (keys : List Int) (N : Nat) (hN : N = 1 ∨ N = 2 ∨ N = 3)
    (hk : keys.length % N = 0) :
    ∃ p, sort_by_keys keys (N : Int) = some p ∧
      (∀ a b, a < b → b < keys.length / N →
        key_tuple keys N a = key_tuple keys N b → [a, b].Sublist p) ∧
      (∀ q : List LO, q.Perm (List.range (keys.length / N)) →
        q.Pairwise (fun a b => tuple_le (key_tuple keys N a) (key_tuple keys N b)) →
        (∀ a b, a < b → b < keys.length / N →
          key_tuple keys N a = key_tuple keys N b → [a, b].Sublist q) →
        q = p) := by
  rw [sort_by_keys_eq keys N hN]
  unfold sort_by_keys_tmpl
  rw [if_pos hk]
  obtain ⟨hperm, hsorted, hstable⟩ := parallel_sort_spec keys N (keys.length / N)
  have hstable' : ∀ a b, a < b → b < keys.length / N →
      key_tuple keys N a = key_tuple keys N b →
      [a, b].Sublist (parallel_sort (List.range (keys.length / N)) (CompareKeySets keys N)) :=
    fun a b hab hb heq => hstable a b hab hb (heq ▸ tuple_le_refl _)
  refine ⟨_, rfl, hstable', ?_⟩
  intro q hqperm hqsorted hqstable
  refine List.Perm.eq_of_sorted ?_
    (stable_sorted_pairwise keys N _ q hqperm hqsorted hqstable)
    (stable_sorted_pairwise keys N _ _ hperm hsorted hstable')
    (hqperm.trans hperm.symm)
  intro a b _ _ h1 h2
  exact le_antisymm (h1.2 h2.1) (h2.2 h1.1)

/-- Witness for C18: in `sample_keys` the entities 0 and 2 both have the keys
`(2,1)`; entity 0 comes before entity 2 in the result `[3, 1, 0, 2]`. -/
theorem sort_by_keys_stable_witness :
    key_tuple sample_keys 2 0 = key_tuple sample_keys 2 2 ∧
    sort_by_keys sample_keys 2 = some [3, 1, 0, 2] ∧
    ∃ p, sort_by_keys sample_keys ((2 : Nat) : Int) = some p ∧ [0, 2].Sublist p := by
  obtain ⟨p, hp, hstable, -⟩ :=
    sort_by_keys_stable sample_keys 2 (Or.inr (Or.inl rfl)) (by decide)
  exact ⟨by decide, by decide!, p, hp, hstable 0 2 (by decide) (by decide) (by decide)⟩

/-- Claim C19: `sort_by_keys` fails exactly when the width is not 1, 2 or 3 or
the size of the key array is not a multiple of the width; for an empty key
array and a supported width it returns the empty permutation. -/
theorem sort_by_keys_fails_iff (keys : List Int) (width : Int) :
    (sort_by_keys keys width = none ↔
      ¬ (width = 1 ∨ width = 2 ∨ width = 3) ∨ (keys.length : Int) % width ≠ 0) ∧
    ((width = 1 ∨ width = 2 ∨ width = 3) → sort_by_keys [] width = some []) := by
  constructor
  · unfold sort_by_keys sort_by_keys_tmpl
    by_cases h1 : width = 1
    · subst h1
      simp [Nat.mod_one]
    · by_cases h2 : width = 2
      · subst h2
        simp only [if_neg h1, if_true]
        split_ifs with hk
        · simp
          omega
        · simp
          omega
      · by_cases h3 : width = 3
        · subst h3
          simp only [if_neg h1, if_neg h2, if_true]
          split_ifs with hk
          · simp
            omega
          · simp
            omega
        · simp [h1, h2, h3]
  · rintro (rfl | rfl | rfl) <;> decide!

/-- Witness for C19: width 4 is unsupported, 8 keys are not a multiple of 3,
and the empty array sorts to the empty permutation. -/
theorem sort_by_keys_fails_iff_witness :
    sort_by_keys sample_keys 4 = none ∧ sort_by_keys sample_keys 3 = none ∧
    sort_by_keys [] 3 = some [] :=
  ⟨(sort_by_keys_fails_iff sample_keys 4).1.mpr (Or.inl (by decide)),
   (sort_by_keys_fails_iff sample_keys 3).1.mpr (Or.inr (by decide)),
   (sort_by_keys_fails_iff sample_keys 3).2 (Or.inr (Or.inr rfl))⟩

end SortingProofs

end Omega_h

/-! ## Theorems: the evaluator as a map, and the histograms -/

namespace Omega_h

section MapProofs

theorem cell_loop_eq_mapM (q : Nat → Nat → Option ℚ) (n ec : Nat) (acc : ℚ) :
    cell_loop q n ec acc =
      match ((List.range' ec n).flatMap (fun e => [(e, 0), (e, 1)])).mapM
          (fun p => q p.1 p.2) with
      | none => none
      | some quals => some (quals.foldl min2 acc) := by
  apply Option.ext
  intro v
  rw [Option.mem_def, Option.mem_def, cell_loop_iff]
  cases hm : ((List.range' ec n).flatMap (fun e => [(e, 0), (e, 1)])).mapM
      (fun p => q p.1 p.2) with
  | none =>
    constructor
    · rintro ⟨quals, hf, -⟩
      rw [(mapM_option_iff _ _ _).mpr hf] at hm
      cases hm
    · intro h
      cases h
  | some quals =>
    constructor
    · rintro ⟨quals', hf, rfl⟩
      rw [(mapM_option_iff _ _ _).mpr hf] at hm
      cases hm
      rfl
    · intro h
      simp only [Option.some.injEq] at h
      exact ⟨quals, (mapM_option_iff _ _ _).mp hm, h.symm⟩

theorem cqual_real (K : Simplices) (A : MeshArrays) (f : List Vector → ℚ) (cand : Nat)
    (midp : Vector) :
    cqual K A (RealRefineQualities.measure f) cand midp =
      fun ec eev => (cell_of_use K A midp ec eev).map (fun c => f c.2) := by
  funext ec eev
  unfold cqual RealRefineQualities.measure
  cases cell_of_use K A midp ec eev with
  | none => rfl
  | some r => rfl

theorem candidate_quality_real (K : Simplices) (A : MeshArrays) (f : List Vector → ℚ)
    (candidates : List LO) (cand : Nat) :
    candidate_quality K A (RealRefineQualities.measure f) candidates cand =
      (candidates[cand]?).bind (edge_quality K A f) := by
  unfold candidate_quality
  cases hc : candidates[cand]? with
  | none => rfl
  | some e =>
    simp only [Option.some_bind]
    unfold edge_quality uses_of
    cases hm : edge_midpoint K A e with
    | none => rfl
    | some midp =>
      simp only
      cases hlo : A.e2ec[e]? with
      | none => rfl
      | some lo =>
        cases hhi : A.e2ec[e + 1]? with
        | none => rfl
        | some hi =>
          simp only
          rw [cell_loop_eq_mapM, cqual_real]

theorem mapM_range_getElem {α β : Type} (l : List α) (g : α → Option β) :
    (List.range l.length).mapM (fun i => (l[i]?).bind g) = l.mapM g := by
  apply Option.ext
  intro q
  rw [Option.mem_def, Option.mem_def, mapM_option_iff, mapM_option_iff,
    List.forall₂_iff_get, List.forall₂_iff_get]
  simp only [List.length_range, List.get_eq_getElem, List.getElem_range]
  constructor
  · rintro ⟨hlen, h⟩
    refine ⟨hlen, fun i h1 h2 => ?_⟩
    have := h i h1 h2
    rw [List.getElem?_eq_getElem h1] at this
    exact this
  · rintro ⟨hlen, h⟩
    refine ⟨hlen, fun i h1 h2 => ?_⟩
    rw [List.getElem?_eq_getElem h1]
    exact h i h1 h2

theorem cand_quals_eq_mapM (K : Simplices) (A : MeshArrays) (f : List Vector → ℚ)
    (candidates : List LO) :
    cand_quals K A (RealRefineQualities.measure f) candidates =
      candidates.mapM (edge_quality K A f) := by
  unfold cand_quals
  rw [← mapM_range_getElem candidates (edge_quality K A f)]
  congr 1
  funext cand
  exact candidate_quality_real K A f candidates cand

/-- Claim C16: without a metric field, `refine_qualities` is
`refine_qualities_tmpl` under the Euclidean measure, and the array it computes
before the cross-rank synchronisation is the map of the per-edge function
`edge_quality` (which depends on the mesh and the edge only) over the
candidates: one entry per candidate, in candidate order, entry `i` being
`edge_quality` of `candidates[i]`; hence the array for a concatenation
`X ++ Y` is the array for `X` followed by the array for `Y`. -/
theorem cand_quals_is_map {Mat : Type} (K2 K3 : Simplices) (A : MeshArrays)
    (Q : MetricKernel Mat) (f : List Vector → ℚ) (K : Simplices) (X Y : List LO) :
    (∀ others,
      refine_qualities K2 K3 A 2 Q none f X others =
        refine_qualities_tmpl K2 A (RealRefineQualities.measure f) X others ∧
      refine_qualities K2 K3 A 3 Q none f X others =
        refine_qualities_tmpl K3 A (RealRefineQualities.measure f) X others) ∧
    cand_quals K A (RealRefineQualities.measure f) X = X.mapM (edge_quality K A f) ∧
    (∀ q, cand_quals K A (RealRefineQualities.measure f) X = some q →
      q.length = X.length ∧
      ∀ (i : Nat) (hi : i < X.length), edge_quality K A f X[i] = q[i]?) ∧
    cand_quals K A (RealRefineQualities.measure f) (X ++ Y) =
      (match cand_quals K A (RealRefineQualities.measure f) X,
          cand_quals K A (RealRefineQualities.measure f) Y with
        | some a, some b => some (a ++ b)
        | _, _ => none) := by
  refine ⟨fun others => ⟨rfl, rfl⟩, cand_quals_eq_mapM K A f X, ?_, ?_⟩
  · intro q hq
    rw [cand_quals_eq_mapM, mapM_option_iff, List.forall₂_iff_get] at hq
    obtain ⟨hlen, h⟩ := hq
    refine ⟨hlen.symm, fun i hi => ?_⟩
    have := h i hi (by omega)
    simp only [List.get_eq_getElem] at this
    rw [this, List.getElem?_eq_getElem]
  · rw [cand_quals_eq_mapM, cand_quals_eq_mapM, cand_quals_eq_mapM, List.mapM_append]
    cases X.mapM (edge_quality K A f) with
    | none => rfl
    | some a =>
      cases Y.mapM (edge_quality K A f) with
      | none => rfl
      | some b => rfl

/-- Witness for C16 on `one_triangle`: the candidates `[0, 1]` followed by
`[2]`. -/
theorem cand_quals_is_map_witness :
    cand_quals triangle_simplices one_triangle (RealRefineQualities.measure signed_area2)
        ([0, 1] ++ [2]) = some ([1 / 2, 1 / 2] ++ [1 / 2]) ∧
    cand_quals triangle_simplices one_triangle (RealRefineQualities.measure signed_area2)
        [0, 1] = some [1 / 2, 1 / 2] ∧
    cand_quals triangle_simplices one_triangle (RealRefineQualities.measure signed_area2)
        [2] = some [1 / 2] := by
  have h := (cand_quals_is_map triangle_simplices triangle_simplices one_triangle toy_kernel
    signed_area2 triangle_simplices [0, 1] [2]).2.2.2
  have h1 : cand_quals triangle_simplices one_triangle
      (RealRefineQualities.measure signed_area2) [0, 1] = some [1 / 2, 1 / 2] := by decide!
  have h2 : cand_quals triangle_simplices one_triangle
      (RealRefineQualities.measure signed_area2) [2] = some [1 / 2] := by decide!
  rw [h1, h2] at h
  exact ⟨h, h1, h2⟩

/-- Claim C20 against the code: `do_histograms` requests the histogram of
`ask_lengths()` with entity dimension `VERT` and never with `EDGE`, whereas
`adapt_summary` ends with the length statistics over `EDGE`; the run of
`adapt` on `long_mesh` at `EXTRA_STATS` issues that `VERT` request. -/
theorem length_histogram_over_vertices {M : Type} (E : Env M) (m : M) :
    Event.collective (.get_histogram VERT .lengths) ∈ do_histograms E m ∧
    Event.collective (.get_histogram EDGE .lengths) ∉ do_histograms E m ∧
    (∃ t, adapt_summary E m = t ++ goal_stats E m .lengths EDGE) ∧
    VERT ≠ EDGE ∧
    Event.collective (.get_histogram VERT .lengths) ∈
      (adapt toy_env 3 long_mesh (sample_opts.with_verbosity .EXTRA_STATS)).trace := by
  refine ⟨by simp [do_histograms], by simp [do_histograms, VERT, EDGE], ⟨_, rfl⟩,
    by decide, by decide!⟩

end MapProofs

end Omega_h

/-! ## Theorems: `vtk.cpp` and `gmsh.cpp` -/

namespace Omega_h

section FileProofs

/-- Claim C21, as the code has it.  For a tag whose array exists and a space
dimension 2 or 3, `write_tag` succeeds and emits a `DataArray` exactly when
`write_p_tag` emits a `PDataArray`, namely when the tag has the
`OMEGA_H_DO_VIZ` flag; the two elements carry the same attributes (type, name,
`NumberOfComponents`), and `NumberOfComponents` is 3 for a real tag whose
`ncomps` equals the space dimension and the tag's `ncomps` otherwise.  For
every tag with the flag whose array does not exist, in every space dimension,
`write_tag` fails while `write_p_tag` declares the `PDataArray`, with the same
rule for `NumberOfComponents`. -/
theorem write_tag_agrees_with_write_p_tag (DO_VIZ : Nat) (tag : TagBase) (space_dim : Int) :
    (tag.array_exists = true → (space_dim = 2 ∨ space_dim = 3) →
      ∃ out, write_tag DO_VIZ tag space_dim = some out ∧
        out.map XmlElement.desc = (write_p_tag DO_VIZ tag space_dim).map XmlElement.desc ∧
        (out ≠ [] ↔ tag.outflags &&& DO_VIZ ≠ 0) ∧
        (write_p_tag DO_VIZ tag space_dim ≠ [] ↔ tag.outflags &&& DO_VIZ ≠ 0) ∧
        (∀ e ∈ out, ∃ d data, e = XmlElement.DataArray d data) ∧
        (∀ e ∈ write_p_tag DO_VIZ tag space_dim, ∃ d, e = XmlElement.PDataArray d) ∧
        (∀ e ∈ out, e.desc.ncomps =
          if tag.type = .OMEGA_H_F64 ∧ tag.ncomps = space_dim then 3 else tag.ncomps)) ∧
    (tag.array_exists = false → tag.outflags &&& DO_VIZ ≠ 0 →
      write_tag DO_VIZ tag space_dim = none ∧
      write_p_tag DO_VIZ tag space_dim =
        [XmlElement.PDataArray (describe_array tag.type tag.name
          (if tag.type = .OMEGA_H_F64 ∧ tag.ncomps = space_dim then 3 else tag.ncomps))]) := by
  obtain ⟨name, ncomps, type, outflags, array_exists⟩ := tag
  constructor
  · intro he hd
    simp only at he
    subst he
    unfold write_tag write_p_tag
    by_cases hf : outflags &&& DO_VIZ = 0
    · simp [hf]
    · simp only [hf, if_false]
      cases type
      · simp [hf, write_array, write_p_data_array2, write_p_data_array, XmlElement.desc,
          describe_array]
      · simp [hf, write_array, write_p_data_array2, write_p_data_array, XmlElement.desc,
          describe_array]
      · simp [hf, write_array, write_p_data_array2, write_p_data_array, XmlElement.desc,
          describe_array]
      · by_cases hn : ncomps = space_dim
        · rcases hd with h2 | h3
          · subst h2
            subst hn
            simp [hf, write_array, write_p_data_array2, write_p_data_array, XmlElement.desc,
              describe_array]
          · subst h3
            subst hn
            simp [hf, write_array, write_p_data_array2, write_p_data_array, XmlElement.desc,
              describe_array]
        · simp [hf, hn, write_array, write_p_data_array2, write_p_data_array, XmlElement.desc,
            describe_array]
  · intro he hf
    simp only at he hf
    subst he
    unfold write_tag write_p_tag
    simp only [hf, if_false]
    cases type
    · simp [write_array, write_p_data_array2, write_p_data_array]
    · simp [write_array, write_p_data_array2, write_p_data_array]
    · simp [write_array, write_p_data_array2, write_p_data_array]
    · by_cases hn : ncomps = space_dim
      · simp [hn, write_array, write_p_data_array2, write_p_data_array]
      · simp [hn, write_array, write_p_data_array2, write_p_data_array]

/-- Witness for C21: the two-component real tag `velocity_tag` on a 2D mesh is
declared and written with three components; the same tag without its array,
`unset_tag`, is declared but not written. -/
theorem write_tag_agrees_with_write_p_tag_witness :
    write_tag 2 velocity_tag 2 =
      some [XmlElement.DataArray ⟨"Float64", "velocity", 3⟩ .vectors_2d_to_3d] ∧
    write_p_tag 2 velocity_tag 2 = [XmlElement.PDataArray ⟨"Float64", "velocity", 3⟩] ∧
    (∃ out, write_tag 2 velocity_tag 2 = some out ∧
      out.map XmlElement.desc = (write_p_tag 2 velocity_tag 2).map XmlElement.desc) ∧
    write_tag 2 unset_tag 3 = none ∧
    (write_p_tag 2 unset_tag 3).map XmlElement.desc = [⟨"Float64", "velocity", 2⟩] := by
  obtain ⟨out, h1, h2, -⟩ :=
    (write_tag_agrees_with_write_p_tag 2 velocity_tag 2).1 rfl (Or.inl rfl)
  obtain ⟨h3, h4⟩ :=
    (write_tag_agrees_with_write_p_tag 2 unset_tag 3).2 rfl (by decide)
  refine ⟨by decide, by decide, ⟨out, h1, h2⟩, h3, ?_⟩
  rw [h4]
  decide

/-- Claim C21 fails as stated: for the visualised tag `unset_tag`, whose array
does not exist, on a 2D mesh, `write_p_tag` declares a `PDataArray` while
`write_tag` fails without emitting a `DataArray`. -/
theorem write_tag_fails_without_array :
    unset_tag.outflags &&& 2 ≠ 0 ∧
    write_tag 2 unset_tag 2 = none ∧
    write_p_tag 2 unset_tag 2 = [XmlElement.PDataArray ⟨"Float64", "velocity", 3⟩] := by
  decide

/-! ### `gmsh::read` -/

/-- The result on `big_node_file` does not depend on what the local variables
held before. -/
theorem gmsh_read_big_node_any_locals :
    ∀ ind, (gmsh.read big_node_file 2 ind).map (fun r => (r.max_dim, r.host_ev2v)) =
      some (2, [0, 1, 2147483646]) := by
  intro ind
  with_unfolding_all rfl

/-- The file `tet_only_file` holds a vertex and a tetrahedron but no triangle:
`gmsh.read` fails on it. -/
theorem gmsh_read_tetrahedron_without_triangle :
    (∃ e ∈ tet_elements.filter (fun e => e.type ≠ 2), e.type = 4) ∧
    ∀ ind, gmsh.read tet_only_file 2 ind = none := by
  refine ⟨by decide, fun ind => ?_⟩
  with_unfolding_all rfl

/-- In `truncated_file` the line `$EndElements` comes where the second node
number of the triangle is expected: the extraction stores 0 and the stream
fails, the third extraction stores nothing, and `gmsh.read` returns with the
vertices 0, -1, -1. -/
theorem gmsh_read_truncated_triangle :
    ∀ ind, (gmsh.read truncated_file 2 ind).map (fun r => (r.max_dim, r.host_ev2v)) =
      some (2, [0, -1, -1]) := by
  intro ind
  with_unfolding_all rfl

end FileProofs

end Omega_h
